import Mathlib

/-!
# CAN logging sinks of the Open Vehicle Monitoring System (OVMS v3)

A shallow embedding of the file sink (`canlog_vfs`), its rotating variant
(`canlog_vfs_autonaming`) and the network sinks (`canlog_tcpclient`,
`canlog_tcpserver`, `canlog_udpserver`), with theorems about their
connection counters, their `Open`/`Close` life cycle, their transport
events and the log file rotation engine; also of the TCP client
`OvmsNetTcpClient` of ovms_netconns.cpp and of the topic matching
`ovms_mqtt_match_topic_expression` of ovms_websockethandler.cpp.

Conventions of the embedding:
* a `std::string` is the list of its characters (`Str`);
* machine integers are natural numbers reduced modulo their width where the
  source can overflow (`uint32_t` counters, `uint64_t` split counter,
  32-bit `size_t` of the ESP32 target);
* everything the sinks read from collaborators that are not part of the
  sources (configuration store, formatter, file system, clock, libc, network
  manager, Mongoose) is a field of the environment `Env` or `NetEnv`;
* a loop whose end is not structural runs on fuel and returns an `Option`,
  with a theorem that the fuel given is enough; an `Option` is also what a
  handler returns where the source can step outside defined behaviour.
-/

namespace CanLog

/-! ## Strings -/

/-- A `std::string`: the sequence of its characters. -/
abbrev Str := List Char

/-- Modulus of a `uint32_t`. -/
def UINT32_MOD : Nat := 2 ^ 32

/-- Modulus of a `uint64_t`. -/
def UINT64_MOD : Nat := 2 ^ 64

/-- Modulus of `size_t` on the 32-bit ESP32 target. -/
def SIZE_MOD : Nat := 2 ^ 32

/-- Scan of `std::string::find`: `s` is the part of the string that starts at
index `i`; the result is the index of the first position at or after `i` where
`pat` occurs. -/
def findFrom (pat : Str) : Str → Nat → Option Nat
  | [], i => if pat.isPrefixOf [] then some i else none
  | c :: cs, i => if pat.isPrefixOf (c :: cs) then some i else findFrom pat cs (i + 1)

/-- The call `str.find(pat, pos)`: index of the first occurrence of `pat` in `str`
that starts at or after `pos`; `none` stands for `std::string::npos`. -/
def find (str pat : Str) (pos : Nat) : Option Nat :=
  if pos ≤ str.length then findFrom pat (str.drop pos) pos else none

/-- The call `str.replace(pos, len, rep)`: the `len` characters from index `pos` are
replaced by `rep`. -/
def replace (str : Str) (pos len : Nat) (rep : Str) : Str :=
  str.take pos ++ rep ++ str.drop (pos + len)

/-- The call `str.erase(pos, 1)`. -/
def erase1 (str : Str) (pos : Nat) : Str :=
  str.take pos ++ str.drop (pos + 1)

/-- The `while` loop of `replaceAll`, one iteration per unit of fuel; `none` when the
fuel runs out before `find` returns `npos`. -/
def replaceAllLoop (pat rep : Str) : Nat → Str → Nat → Option Str
  | 0, _, _ => none
  | fuel + 1, str, start_pos =>
    match find str pat start_pos with
    | none => some str
    | some p => replaceAllLoop pat rep fuel (replace str p pat.length rep) (p + rep.length)

/-- The static function `replaceAll(str, from, to)` of canlog_vfs.cpp. The loop is run with
`str.length + 1` units of fuel, which `replaceAllLoop_fuel` shows to be
enough for every input. -/
def replaceAll (str pat rep : Str) : Str :=
  if pat.isEmpty then str
  else (replaceAllLoop pat rep (str.length + 1) str 0).getD str

/-- The byte-wise lexicographic order of `std::string`, the key order of a
`std::map<std::string, std::string>`. -/
def strLt : Str → Str → Bool
  | [], [] => false
  | [], _ :: _ => true
  | _ :: _, [] => false
  | a :: as, b :: bs =>
    if a.toNat < b.toNat then true
    else if b.toNat < a.toNat then false
    else strLt as bs

/-- Insertion of one pair of an initializer list into a `std::map`: the pairs are kept in
ascending key order and a key that is already present keeps its first value. -/
def map_insert (k v : Str) : List (Str × Str) → List (Str × Str)
  | [] => [(k, v)]
  | (k', v') :: m =>
    if strLt k k' then (k, v) :: (k', v') :: m
    else if strLt k' k then (k', v') :: map_insert k v m
    else (k', v') :: m

/-- Construction of a `std::map` from an initializer list. -/
def map_of (init : List (Str × Str)) : List (Str × Str) :=
  init.foldl (fun m kv => map_insert kv.1 kv.2 m) []

/-- The conversion `%08lld` of printf for a signed 64-bit value: decimal digits, padded with
zeros to at least 8 characters, the sign counted in the width. -/
def fmt_08lld (x : Int) : Str :=
  if x < 0 then '-' :: List.leftpad 7 '0' (Nat.toDigits 10 x.natAbs)
  else List.leftpad 8 '0' (Nat.toDigits 10 x.toNat)

/-- The call `snprintf(buf, sizeof(buf), "%08lld", v)` with `char buf[9]` and a `uint64_t`
argument `v`: the argument is read back as a signed 64-bit value and at most 8 characters
are stored before the terminating NUL. -/
def snprintf_08lld (v : Nat) : Str :=
  let u := v % UINT64_MOD
  let x : Int := if u < 2 ^ 63 then (u : Int) else (u : Int) - 2 ^ 64
  (fmt_08lld x).take 8

/-- The loop "Remove consecutive slashes / dots" of `compute_log_file_name`, one iteration
per unit of fuel; `none` when the fuel runs out before `i` reaches the end of the path. -/
def collapseLoop : Nat → Str → Nat → Option Str
  | 0, path, i => if i < path.length then none else some path
  | fuel + 1, path, i =>
    if i < path.length then
      if path[i - 1]? = path[i]? ∧ (path[i]? = some '/' ∨ path[i]? = some '.') then
        collapseLoop fuel (erase1 path i) i
      else
        collapseLoop fuel path (i + 1)
    else some path

/-- The loop "Remove consecutive slashes / dots" started at `i = 1`; `path.length` units of
fuel are enough for every path (`collapseLoop_spec`). -/
def collapse (path : Str) : Str :=
  (collapseLoop path.length path 1).getD path

/-- The value `std::string::npos` of the 32-bit target. -/
def npos : Nat := SIZE_MOD - 1

/-- The call `path.find('/', pos)` as a `size_t`. -/
def find_slash (path : Str) (pos : Nat) : Nat :=
  (find path ['/'] pos).getD npos

/-- The `for` loop that creates the directory hierarchy: the list of the arguments of the
`mkdir` calls, in call order; `none` when the fuel runs out. -/
def mkdirLoop : Nat → Str → Nat → Option (List Str)
  | 0, path, i => if i < path.length then none else some []
  | fuel + 1, path, i =>
    if i < path.length then
      (mkdirLoop fuel path (find_slash path (i + 1))).map (fun l => path.take i :: l)
    else some []

/-- The block "Creates directory hierarchy if necessary" of `compute_log_file_name`: the
arguments of the `mkdir` calls it issues for the computed `path`, in call order. -/
def mkdir_calls (path : Str) : Option (List Str) :=
  if path.length > 1 then
    let slashpos := find_slash path 2
    if path.length > (1 + slashpos) % SIZE_MOD then
      let slashpos := find_slash path ((1 + slashpos) % SIZE_MOD)
      mkdirLoop path.length path slashpos
    else some []
  else some []

/-- The helper `startsWith(haystack, needle)` of ovms_utils. -/
def startsWith (haystack needle : Str) : Bool :=
  needle.isPrefixOf haystack

/-! ## Frames and the environment -/

/-- A CAN frame, as far as a filter can look at it: bus, arbitration id, payload. -/
structure CAN_frame_t where
  origin : Nat
  MsgID : Nat
  data : List Nat
deriving DecidableEq, Repr

/-- A log message: the frame it carries. -/
structure CAN_log_message_t where
  frame : CAN_frame_t
deriving DecidableEq, Repr

/-- What a sink reads from its collaborators during one call. -/
structure Env where
  /-- The call `MyConfig.GetParamValue(param, instance, default)`. -/
  GetParamValue : String → String → Str → Str
  /-- The call `MyConfig.GetParamValueBool(param, instance, default)`. -/
  GetParamValueBool : String → String → Bool → Bool
  /-- The call `MyConfig.GetParamValueInt(param, instance, default)`. -/
  GetParamValueInt : String → String → Int → Int
  /-- The call `MyConfig.ProtectedPath(path)`. -/
  ProtectedPath : Str → Bool
  /-- Whether `MyPeripherals`, its `m_sdcard` and `m_sdcard->isavailable()` all hold. -/
  sdcard_isavailable : Bool
  /-- The call `MyNonVolatileStorage.GetRestartCount()`. -/
  GetRestartCount : Nat
  /-- The call `m_formatter->getheader()`. -/
  getheader : Str
  /-- The call `m_formatter->preferred_file_extension()`. -/
  preferred_file_extension : Str
  /-- The call `m_formatter->get(&msg)`: the encoded frame. -/
  formatter_get : CAN_log_message_t → Str
  /-- Whether `fopen(path, "w")` returns a stream. -/
  fopen : Str → Bool
  /-- The libc call `strftime` on `localtime(time(nullptr))`, into the `PATH_MAX` buffer. -/
  strftime : Str → Str
  /-- The call `esp_timer_get_time()`, in microseconds. -/
  esp_timer_get_time : Int

/-! ## Connections -/

/-- The class `canlogconnection`: peer descriptor, optional filter and the counters of one
Connection. The counters are `uint32_t`. -/
structure canlogconnection where
  m_peer : Str
  /-- The pointer `m_filters`: `none` is `NULL`, `some f` a filter whose `IsFiltered` is `f`. -/
  m_filters : Option (CAN_frame_t → Bool)
  m_msgcount : Nat
  m_dropcount : Nat
  m_filtercount : Nat

/-- The test `(m_filters != NULL) && (! m_filters->IsFiltered(&msg.frame))`. -/
def canlogconnection.rejects (c : canlogconnection) (msg : CAN_log_message_t) : Bool :=
  match c.m_filters with
  | none => false
  | some f => !(f msg.frame)

/-- Modelled from the spec: the constructor of `canlogconnection` (canlog.cpp is not among
the sources). A Connection starts with its peer descriptor, an optional filter that is not
set and counters seen/filtered/dropped at zero. -/
def canlogconnection.new (peer : Str) : canlogconnection :=
  { m_peer := peer, m_filters := none, m_msgcount := 0, m_dropcount := 0, m_filtercount := 0 }

/-- The class `canlog_vfs_conn`: the Connection of a file sink. `m_file` holds the bytes
written to the stream so far. -/
structure canlog_vfs_conn extends canlogconnection where
  m_file : Str
  m_file_size : Nat

/-- The method `canlog_vfs_conn::OutputMsg(msg, result)`. -/
def canlog_vfs_conn.OutputMsg (c : canlog_vfs_conn) (msg : CAN_log_message_t) (result : Str) :
    canlog_vfs_conn :=
  let c1 : canlog_vfs_conn := { c with m_msgcount := (c.m_msgcount + 1) % UINT32_MOD }
  if c1.rejects msg then
    { c1 with m_filtercount := (c1.m_filtercount + 1) % UINT32_MOD }
  else if result.length > 0 then
    { c1 with m_file := c1.m_file ++ result,
              m_file_size := (c1.m_file_size + result.length) % SIZE_MOD }
  else c1

/-- The class `udpcanlogconnection`: the synthetic Connection of a UDP peer. `m_rem` is the
raw peer address, `m_timeout` the deadline on the monotonic clock, `m_sent` the datagrams
handed to `sendto`, oldest first. -/
structure udpcanlogconnection extends canlogconnection where
  m_rem : Nat
  m_timeout : Nat
  m_sent : List Str

/-- The method `udpcanlogconnection::OutputMsg(msg, result)`. -/
def udpcanlogconnection.OutputMsg (c : udpcanlogconnection) (msg : CAN_log_message_t)
    (result : Str) : udpcanlogconnection :=
  let c1 : udpcanlogconnection := { c with m_msgcount := (c.m_msgcount + 1) % UINT32_MOD }
  if c1.rejects msg then
    { c1 with m_filtercount := (c1.m_filtercount + 1) % UINT32_MOD }
  else if result.length > 0 then
    { c1 with m_sent := c1.m_sent ++ [result] }
  else c1

/-- The assignment `m_connmap[nc] = clc` on a `std::map` keyed by the transport handle (a
pointer, `0` for `NULL`): entries are kept in ascending key order and an entry with the
same key is replaced. -/
def conn_map_set {α : Type} (m : List (Nat × α)) (nc : Nat) (clc : α) : List (Nat × α) :=
  match m with
  | [] => [(nc, clc)]
  | (k, v) :: rest =>
    if nc < k then (nc, clc) :: (k, v) :: rest
    else if k < nc then (k, v) :: conn_map_set rest nc clc
    else (k, clc) :: rest

/-! ## The file sink -/

/-- The class `canlog_vfs`: target path, open flag, registry and the aggregate counters
inherited from `canlog`. -/
structure canlog_vfs where
  m_path : Str
  m_isopen : Bool
  m_connmap : List (Nat × canlog_vfs_conn)
  m_msgcount : Nat
  m_dropcount : Nat
  m_filtercount : Nat

/-- The method `canlog_vfs::Open()` in a build with `CONFIG_OVMS_COMP_SDCARD`: the returned
flag and the state it leaves. -/
def canlog_vfs.Open (env : Env) (s : canlog_vfs) : Bool × canlog_vfs :=
  let s1 : canlog_vfs := if s.m_isopen then { s with m_connmap := [], m_isopen := false } else s
  if env.ProtectedPath s1.m_path then (false, s1)
  else if startsWith s1.m_path "/sd".toList && !env.sdcard_isavailable then (false, s1)
  else if !env.fopen s1.m_path then (false, s1)
  else
    let clc : canlog_vfs_conn :=
      { canlogconnection.new s1.m_path with m_file := [], m_file_size := 0 }
    let header := env.getheader
    let clc : canlog_vfs_conn :=
      if header.length > 0 then
        { clc with m_file := clc.m_file ++ header,
                   m_file_size := (clc.m_file_size + header.length) % SIZE_MOD }
      else clc
    (true, { s1 with m_connmap := conn_map_set s1.m_connmap 0 clc, m_isopen := true })

/-- The method `canlog_vfs::Close()`. -/
def canlog_vfs.Close (s : canlog_vfs) : canlog_vfs :=
  if s.m_isopen then { s with m_connmap := [], m_isopen := false } else s

/-- The method `canlog_vfs::GetFileSize()`. -/
def canlog_vfs.GetFileSize (s : canlog_vfs) : Nat :=
  if s.m_isopen then
    s.m_connmap.foldl (fun result e => (result + e.2.m_file_size) % SIZE_MOD) 0
  else 0

/-- Modelled from the spec: `canlog::OutputMsg(msg)`, inherited by the file sink (canlog.cpp
is not among the sources). The frame is encoded once and fanned through every registered
Connection's `OutputMsg`, which applies the filter and writes on acceptance. -/
def canlog_vfs.OutputMsg (env : Env) (s : canlog_vfs) (msg : CAN_log_message_t) : canlog_vfs :=
  let result := env.formatter_get msg
  { s with m_connmap := s.m_connmap.map (fun e => (e.1, e.2.OutputMsg msg result)) }

/-! ## The rotating file sink -/

/-- The class `canlog_vfs_autonaming`: a file sink with a naming pattern, a split counter
(`uint64_t`) and the rotation thresholds (`size_t`); `m_logfile_start_time` is an `int64_t`
in microseconds. -/
structure canlog_vfs_autonaming extends canlog_vfs where
  m_prefix : Str
  m_file_name_pattern : Str
  m_file_nb_splits : Nat
  m_keep_empty_files : Bool
  m_logfile_max_size_kb : Nat
  m_logfile_start_time : Int
  m_logfile_max_duration_s : Nat

/-- The string constant `CAN_PARAM`. -/
def CAN_PARAM : String := "can"

/-- The default of the configuration item `log.file.pattern` in `ReadConfig`. -/
def default_pattern : Str :=
  "/sd/log/\x7bvehicleid\x7d/\x7bsession\x7d/\x7bprefix\x7d/\x7bsplits\x7d-%Y%m%d-%H%M%S\x7bextension\x7d".toList

/-- The map `New_Map` of `compute_log_file_name`, built from its initializer list. -/
def New_Map (env : Env) (s : canlog_vfs_autonaming) : List (Str × Str) :=
  let vehicleid := env.GetParamValue "vehicle" "id" "OVMS".toList
  let restarts := snprintf_08lld env.GetRestartCount
  let splits := snprintf_08lld s.m_file_nb_splits
  map_of [
    ("\x7bvehicleid\x7d".toList, vehicleid),
    ("\x7bsession\x7d".toList, restarts),
    ("\x7bprefix\x7d".toList, canlog_vfs_autonaming.m_prefix s),
    ("\x7bsplits\x7d".toList, splits),
    ("\x7bextension\x7d".toList, env.preferred_file_extension)]

/-- The block "Handle patterns replacements" of `compute_log_file_name`: the path before the
time-based replacements. -/
def compute_log_file_name_patterns (env : Env) (s : canlog_vfs_autonaming) : Str :=
  (New_Map env s).foldl (fun path x => replaceAll path x.1 x.2) s.m_file_name_pattern

/-- The method `canlog_vfs_autonaming::compute_log_file_name()`: the returned path. The
`mkdir` calls it issues on the way are `compute_log_file_name_mkdir`. -/
def compute_log_file_name (env : Env) (s : canlog_vfs_autonaming) : Str :=
  collapse (env.strftime (compute_log_file_name_patterns env s))

/-- The arguments of the `mkdir` calls of `compute_log_file_name()`, in call order. -/
def compute_log_file_name_mkdir (env : Env) (s : canlog_vfs_autonaming) : Option (List Str) :=
  mkdir_calls (compute_log_file_name env s)

/-- The method `canlog_vfs_autonaming::Open()`. -/
def canlog_vfs_autonaming.Open (env : Env) (s : canlog_vfs_autonaming) :
    Bool × canlog_vfs_autonaming :=
  let s1 : canlog_vfs_autonaming := { s with m_logfile_start_time := env.esp_timer_get_time }
  let r := s1.tocanlog_vfs.Open env
  (r.1, { s1 with tocanlog_vfs := r.2 })

/-- The method `canlog_vfs_autonaming::CycleLogfile()`. -/
def canlog_vfs_autonaming.CycleLogfile (env : Env) (s : canlog_vfs_autonaming) :
    canlog_vfs_autonaming :=
  if !s.m_keep_empty_files && (s.GetFileSize == 0 || s.m_msgcount == 0) then s
  else
    let s1 : canlog_vfs_autonaming :=
      { s with m_file_nb_splits := (s.m_file_nb_splits + 1) % UINT64_MOD }
    let new_path := compute_log_file_name env s1
    if new_path ≠ s1.m_path then
      let was_open := s1.m_isopen
      let s2 : canlog_vfs_autonaming :=
        if was_open then
          { s1 with tocanlog_vfs := { s1.tocanlog_vfs.Close with
              m_msgcount := 0, m_dropcount := 0, m_filtercount := 0 } }
        else s1
      let s3 : canlog_vfs_autonaming := { s2 with m_path := new_path }
      if was_open then (s3.Open env).2 else s3
    else s1

/-- The method `canlog_vfs_autonaming::ReadConfig()`; the `int` read for a threshold is
converted to `size_t`. -/
def canlog_vfs_autonaming.ReadConfig (env : Env) (s : canlog_vfs_autonaming) :
    canlog_vfs_autonaming :=
  { s with
    m_keep_empty_files := env.GetParamValueBool CAN_PARAM "log.file.keep_empty" true,
    m_logfile_max_size_kb :=
      (env.GetParamValueInt CAN_PARAM "log.file.maxsize_kb" 1024 % (SIZE_MOD : Int)).toNat,
    m_logfile_max_duration_s :=
      (env.GetParamValueInt CAN_PARAM "log.file.maxduration_s" 1800 % (SIZE_MOD : Int)).toNat,
    m_file_name_pattern := env.GetParamValue CAN_PARAM "log.file.pattern" default_pattern }

/-- The method `canlog_vfs_autonaming::EventHandler(event, data)`; `data` is the name of
the configuration parameter the event carries (`none` for a null pointer). -/
def canlog_vfs_autonaming.EventHandler (env : Env) (s : canlog_vfs_autonaming)
    (event : String) (data : Option String) : canlog_vfs_autonaming :=
  if event = "config.changed" then
    match data with
    | some name => if name = CAN_PARAM then s.ReadConfig env else s
    | none => s
  else if event = "config.mounted" then s.ReadConfig env
  else if event = "can.log.rotatefiles" then s.CycleLogfile env
  else s

/-- What one call of `canlog_vfs_autonaming::OutputMsg` did: the state it leaves and whether
it invoked `CycleLogfile()` before, respectively after, handing the frame on. -/
structure OutputMsgRun where
  state : canlog_vfs_autonaming
  cycled_before : Bool
  cycled_after : Bool

/-- The method `canlog_vfs_autonaming::OutputMsg(msg)`. -/
def canlog_vfs_autonaming.OutputMsg (env : Env) (s : canlog_vfs_autonaming)
    (msg : CAN_log_message_t) : OutputMsgRun :=
  let logfile_size := s.GetFileSize
  let logfile_duration_s : Int :=
    Int.tdiv (env.esp_timer_get_time - s.m_logfile_start_time) 1000000
  let before : Bool :=
    s.m_logfile_max_duration_s ≠ 0 ∧ (s.m_logfile_max_duration_s : Int) ≤ logfile_duration_s
  let s1 := if before then s.CycleLogfile env else s
  let s2 : canlog_vfs_autonaming := { s1 with tocanlog_vfs := s1.tocanlog_vfs.OutputMsg env msg }
  let after : Bool :=
    s2.m_logfile_max_size_kb ≠ 0 ∧ (s2.m_logfile_max_size_kb * 1024) % SIZE_MOD ≤ logfile_size
  let s3 := if after then s2.CycleLogfile env else s2
  { state := s3, cycled_before := before, cycled_after := after }

/-- The constructor `canlog_vfs_autonaming(prefix, format)`: an empty path, `ReadConfig()`,
then the first computed name; the split counter starts at 1, like the other member
initialisers of canlog_vfs.h. The base class `canlog`, whose constructor is not among the
sources, is taken to start closed, with an empty registry and zeroed counters. -/
def canlog_vfs_autonaming.new (env : Env) (pfx : Str) : canlog_vfs_autonaming :=
  let s0 : canlog_vfs_autonaming :=
    { m_path := [], m_isopen := false, m_connmap := [], m_msgcount := 0, m_dropcount := 0,
      m_filtercount := 0, m_prefix := pfx, m_file_name_pattern := [], m_file_nb_splits := 1,
      m_keep_empty_files := true, m_logfile_max_size_kb := 0, m_logfile_start_time := 0,
      m_logfile_max_duration_s := 0 }
  let s1 := s0.ReadConfig env
  { s1 with m_path := compute_log_file_name env s1 }

/-! ## The network sinks -/

/-- The class `canlog_tcpclient`. Transport handles are pointers (`0` for `NULL`);
`nc_closing` lists the handles whose closing flag has been set and `nc_sent` the `mg_send`
calls, oldest first. -/
structure canlog_tcpclient where
  m_path : Str
  m_isopen : Bool
  m_connmap : List (Nat × canlogconnection)
  nc_closing : List Nat
  nc_sent : List (Nat × Str)

/-- The method `canlog_tcpclient::Close()`. -/
def canlog_tcpclient.Close (s : canlog_tcpclient) : canlog_tcpclient :=
  if s.m_isopen then
    let s1 : canlog_tcpclient :=
      if s.m_connmap.length > 0 then
        { s with nc_closing := s.nc_closing ++ s.m_connmap.map (fun e => e.1), m_connmap := [] }
      else s
    { s1 with m_isopen := false }
  else s

/-- The class `canlog_tcpserver`; `m_mgconn` is the listening handle (`0` for `NULL`). -/
structure canlog_tcpserver where
  m_path : Str
  m_isopen : Bool
  m_mgconn : Nat
  m_connmap : List (Nat × canlogconnection)
  nc_closing : List Nat
  nc_sent : List (Nat × Str)

/-- The method `canlog_tcpserver::Close()`; `none` when it dereferences a null `m_mgconn`. -/
def canlog_tcpserver.Close (s : canlog_tcpserver) : Option canlog_tcpserver :=
  if s.m_isopen then
    let s1 : canlog_tcpserver :=
      if s.m_connmap.length > 0 then
        { s with nc_closing := s.nc_closing ++ s.m_connmap.map (fun e => e.1), m_connmap := [] }
      else s
    if s1.m_mgconn = 0 then none
    else some { s1 with nc_closing := s1.nc_closing ++ [s1.m_mgconn], m_mgconn := 0,
                        m_isopen := false }
  else some s

/-- The class `canlog_udpserver`; the registry is keyed by the address of the synthetic
handle embedded in each Connection. -/
structure canlog_udpserver where
  m_path : Str
  m_isopen : Bool
  m_mgconn : Nat
  m_connmap : List (Nat × udpcanlogconnection)
  nc_closing : List Nat
  nc_sent : List (Nat × Str)

/-- The method `canlog_udpserver::Close()`; `none` when it dereferences a null `m_mgconn`. -/
def canlog_udpserver.Close (s : canlog_udpserver) : Option canlog_udpserver :=
  if s.m_isopen then
    let s1 : canlog_udpserver :=
      if s.m_connmap.length > 0 then
        { s with nc_closing := s.nc_closing ++ s.m_connmap.map (fun e => e.1), m_connmap := [] }
      else s
    if s1.m_mgconn = 0 then none
    else some { s1 with nc_closing := s1.nc_closing ++ [s1.m_mgconn], m_mgconn := 0,
                        m_isopen := false }
  else some s

/-! ## Sample inputs -/

/-- A filter that lets no frame through. -/
def reject_all : CAN_frame_t → Bool := fun _ => false

/-- A frame on bus 1 with id 0x100. -/
def sample_msg : CAN_log_message_t := { frame := { origin := 1, MsgID := 256, data := [] } }

/-- A file Connection with the filter `reject_all` and all counters at zero. -/
def filtering_vfs_conn : canlog_vfs_conn :=
  { m_peer := [], m_filters := some reject_all, m_msgcount := 0, m_dropcount := 0,
    m_filtercount := 0, m_file := [], m_file_size := 0 }

/-- A UDP Connection with the filter `reject_all` and all counters at zero. -/
def filtering_udp_conn : udpcanlogconnection :=
  { m_peer := [], m_filters := some reject_all, m_msgcount := 0, m_dropcount := 0,
    m_filtercount := 0, m_rem := 0, m_timeout := 0, m_sent := [] }

/-- A stand-in for libc `strftime` at the local time 2024-01-02 03:04:05: the conversions
`%Y %m %d %H %M %S` are expanded, every other character is copied. -/
def sample_strftime : Str → Str
  | '%' :: 'Y' :: r => "2024".toList ++ sample_strftime r
  | '%' :: 'm' :: r => "01".toList ++ sample_strftime r
  | '%' :: 'd' :: r => "02".toList ++ sample_strftime r
  | '%' :: 'H' :: r => "03".toList ++ sample_strftime r
  | '%' :: 'M' :: r => "04".toList ++ sample_strftime r
  | '%' :: 'S' :: r => "05".toList ++ sample_strftime r
  | c :: r => c :: sample_strftime r
  | [] => []

/-- An environment in which no configuration item is set (every read returns its default),
no path is protected, the SD card is mounted, every file can be created, the module has
restarted 3 times and the formatter has an empty header and the extension `.crtd`. -/
def sample_env : Env :=
  { GetParamValue := fun _ _ d => d,
    GetParamValueBool := fun _ _ d => d,
    GetParamValueInt := fun _ _ d => d,
    ProtectedPath := fun _ => false,
    sdcard_isavailable := true,
    GetRestartCount := 3,
    getheader := [],
    preferred_file_extension := ".crtd".toList,
    formatter_get := fun _ => "1 R11 100\n".toList,
    fopen := fun _ => true,
    strftime := sample_strftime,
    esp_timer_get_time := 0 }

/-- A closed rotating sink that was constructed in `sample_env` with the prefix `p` and then
had keep-empty-files switched off. -/
def sample_sink : canlog_vfs_autonaming :=
  { canlog_vfs_autonaming.new sample_env "p".toList with m_keep_empty_files := false }

/-- The sink `sample_sink` right after `Open()`: open, no message logged. -/
def fresh_sink : canlog_vfs_autonaming := (sample_sink.Open sample_env).2

/-- The invariant of the file sink's registry: a closed sink holds no Connection. -/
def canlog_vfs.registry_ok (s : canlog_vfs) : Prop :=
  s.m_isopen = false → s.m_connmap.length = 0

instance (s : canlog_vfs) : Decidable s.registry_ok := by
  unfold canlog_vfs.registry_ok
  infer_instance

/-- A rotating sink, open on a file of 1020 bytes, with the size threshold at 1 KB, the
duration threshold disabled and keep-empty-files on. -/
def nearly_full_sink : canlog_vfs_autonaming :=
  { m_path := "/sd/log/a.crtd".toList, m_isopen := true,
    m_connmap := [(0, { canlogconnection.new "/sd/log/a.crtd".toList with
                        m_file := [], m_file_size := 1020 })],
    m_msgcount := 50, m_dropcount := 0, m_filtercount := 0,
    m_prefix := "p".toList, m_file_name_pattern := default_pattern, m_file_nb_splits := 1,
    m_keep_empty_files := true, m_logfile_max_size_kb := 1, m_logfile_start_time := 0,
    m_logfile_max_duration_s := 0 }

/-- The Connection that a successful `canlog_vfs::Open()` registers for `path`: no filter,
zeroed counters and a file that holds the formatter's header. -/
def opened_conn (env : Env) (path : Str) : canlog_vfs_conn :=
  { canlogconnection.new path with
    m_file := env.getheader, m_file_size := env.getheader.length % SIZE_MOD }

/-- The three tests that `canlog_vfs::Open()` makes on its path all pass: the path is not
protected, it is not on an SD card that is unavailable, and the file can be created. -/
def can_open (env : Env) (path : Str) : Prop :=
  env.ProtectedPath path = false ∧
  ¬ (startsWith path "/sd".toList = true ∧ env.sdcard_isavailable = false) ∧
  env.fopen path = true

instance (env : Env) (path : Str) : Decidable (can_open env path) := by
  unfold can_open
  infer_instance

/-- What the loop "Remove consecutive slashes / dots" leaves of the text that follows the
character `prev`: a `/` or `.` that repeats its predecessor is dropped. -/
def dedupFrom (prev : Char) : Str → Str
  | [] => []
  | c :: cs =>
    if prev = c ∧ (c = '/' ∨ c = '.') then dedupFrom prev cs
    else c :: dedupFrom c cs

/-- A rotating sink with keep-empty-files off and the split counter at `n`, whose path is the
name computed for that counter in `sample_env`; it has been opened and one frame has been
written to its file. -/
def logging_sink (n : Nat) : canlog_vfs_autonaming :=
  let s0 : canlog_vfs_autonaming := { sample_sink with m_file_nb_splits := n }
  let s1 : canlog_vfs_autonaming := { s0 with m_path := compute_log_file_name sample_env s0 }
  let s2 := (s1.Open sample_env).2
  { s2 with tocanlog_vfs :=
      { s2.tocanlog_vfs.OutputMsg sample_env sample_msg with m_msgcount := 1 } }

/-- A naming pattern cut into pieces: literal text or one of the five placeholders. -/
inductive Piece where
  | text (t : Str)
  | extension
  | pfx
  | session
  | splits
  | vehicleid

/-- What a piece of the pattern reads after the first `k` substitutions of
`compute_log_file_name`, which run in the key order of `New_Map`: extension, prefix, session,
splits, vehicle id. -/
def Piece.stage (E X S d V : Str) (k : Nat) : Piece → Str
  | .text t => t
  | .extension => if 1 ≤ k then E else "\x7bextension\x7d".toList
  | .pfx => if 2 ≤ k then X else "\x7bprefix\x7d".toList
  | .session => if 3 ≤ k then S else "\x7bsession\x7d".toList
  | .splits => if 4 ≤ k then d else "\x7bsplits\x7d".toList
  | .vehicleid => if 5 ≤ k then V else "\x7bvehicleid\x7d".toList

/-- The text of a piece in the pattern. -/
def Piece.pattern : Piece → Str
  | .text t => t
  | .extension => "\x7bextension\x7d".toList
  | .pfx => "\x7bprefix\x7d".toList
  | .session => "\x7bsession\x7d".toList
  | .splits => "\x7bsplits\x7d".toList
  | .vehicleid => "\x7bvehicleid\x7d".toList

/-- A number in decimal, padded with zeros to 8 digits. -/
def zero_padded8 (v : Nat) : Str :=
  List.leftpad 8 '0' (Nat.toDigits 10 v)

/-- The text that stands for a piece after substitution: the vehicle id, the restart count
and the split counter as 8 zero-padded digits, the prefix, the extension. -/
def Piece.value (vehicleid : Str) (restart_count : Nat) (pfx : Str) (split : Nat)
    (extension : Str) : Piece → Str
  | .text t => t
  | .extension => extension
  | .pfx => pfx
  | .session => zero_padded8 restart_count
  | .splits => zero_padded8 split
  | .vehicleid => vehicleid

/-- The pattern `{vehicleid}/{session}/{prefix}/{splits}`, cut into pieces. -/
def example_pieces : List Piece :=
  [.vehicleid, .text "/".toList, .session, .text "/".toList, .pfx, .text "/".toList, .splits]

/-- A rotating sink with the prefix `p`, the split counter 1 and the pattern
`{vehicleid}/{session}/{prefix}/{splits}`. -/
def example_sink : canlog_vfs_autonaming :=
  { sample_sink with
    m_file_name_pattern :=
      "\x7bvehicleid\x7d/\x7bsession\x7d/\x7bprefix\x7d/\x7bsplits\x7d".toList }

/-- A rotating sink whose prefix is the text `{splits}` and whose pattern is `{prefix}`, with
the split counter 1. -/
def brace_sink : canlog_vfs_autonaming :=
  { canlog_vfs_autonaming.new sample_env "\x7bsplits\x7d".toList with
    m_file_name_pattern := "\x7bprefix\x7d".toList }

/-- A rotating sink with the pattern `{splits}` and the split counter `n`. -/
def split_sink (n : Nat) : canlog_vfs_autonaming :=
  { sample_sink with m_file_name_pattern := "\x7bsplits\x7d".toList, m_file_nb_splits := n }

/-! ## Transport events of the network sinks

The handlers follow the branches for `MG_VERSION_NUMBER >= MG_VERSION_VAL(7, 0, 0)`. -/

/-- What the network sinks read from outside: the network manager (`GetMongooseMgr() != NULL`,
`m_network_any`), the library calls `mg_connect` and `mg_listen` (the handle they return, `0`
for `NULL`), the formatter (whether the sink's `m_formatter` is set, its header, and the byte
count that `Serve(buf, len, clc)` returns for a buffer and a Connection, `none` for `NULL`)
and the clock `monotonictime`. -/
structure NetEnv where
  GetMongooseMgr : Bool
  m_network_any : Bool
  mg_connect : Str → Nat
  mg_listen : Str → Nat
  m_formatter : Bool
  getheader : Str
  Serve : List Nat → Option canlogconnection → Nat
  monotonictime : Nat

/-- The constant `UDP_TIMEOUT`, in seconds. -/
def UDP_TIMEOUT : Nat := 30

/-- The events that the handlers switch on; `MG_EV_CONNECT` carries `*success` where a
handler reads it, and every event a handler has no case for is `MG_EV_OTHER`. -/
inductive mg_event where
  | MG_EV_CONNECT (success : Int)
  | MG_EV_ACCEPT
  | MG_EV_OPEN
  | MG_EV_POLL
  | MG_EV_ERROR
  | MG_EV_CLOSE
  | MG_EV_READ
  | MG_EV_OTHER

/-- A transport handle `struct mg_connection *nc` as the handlers use it: the pointer itself,
the raw remote address `nc->rem`, the text it prints as, the receive buffer `nc->recv`, the
word `*(uint64_t *) nc->data`, the flags `is_connecting`, `is_resolving` and `is_closing`, and
whether `nc->fn_data` is set. -/
structure mg_connection where
  nc : Nat
  rem : Nat
  addr : Str
  recv : List Nat
  data : Nat := 0
  is_connecting : Bool := false
  is_resolving : Bool := false
  is_closing : Bool := false
  fn_data : Bool := true

/-- The lookup `m_connmap.find(nc)`: the Connection under the first entry with that key. -/
def conn_map_find {α : Type} : List (Nat × α) → Nat → Option α
  | [], _ => none
  | (k, v) :: rest, nc => if k = nc then some v else conn_map_find rest nc

/-- The call `m_connmap.erase(k)` on the iterator that `find(nc)` returned: the first entry
with that key leaves the registry. -/
def conn_map_erase {α : Type} : List (Nat × α) → Nat → List (Nat × α)
  | [], _ => []
  | (k, v) :: rest, nc => if k = nc then rest else (k, v) :: conn_map_erase rest nc

/-- The library call `mg_iobuf_del(&nc->recv, 0, used)`, which the source comments as
"Removes `used` bytes from the beginning of the buffer"; a count beyond the length of the
buffer empties it. -/
def mg_iobuf_del (recv : List Nat) (used : Nat) : List Nat :=
  recv.drop used

/-- The constructor `canlog_tcpclient::canlog_tcpclient(path, format, mode)`. -/
def canlog_tcpclient.new (path : Str) : canlog_tcpclient :=
  { m_path := path, m_isopen := false, m_connmap := [], nc_closing := [], nc_sent := [] }

/-- The method `canlog_tcpclient::MongooseHandler(nc, ev, p)`: the sink and the handle after
the event. -/
def canlog_tcpclient.MongooseHandler (env : NetEnv) (s : canlog_tcpclient) (nc : mg_connection)
    (ev : mg_event) : canlog_tcpclient × mg_connection :=
  match ev with
  | .MG_EV_CONNECT success =>
    if success = 0 then
      let clc : canlogconnection := canlogconnection.new s.m_path
      let s1 : canlog_tcpclient :=
        { s with m_connmap := conn_map_set s.m_connmap nc.nc clc, m_isopen := true }
      let result := env.getheader
      if result.length > 0 then
        ({ s1 with nc_sent := s1.nc_sent ++ [(nc.nc, result)] }, nc)
      else (s1, nc)
    else ({ s with m_isopen := false }, nc)
  | .MG_EV_CLOSE =>
    if s.m_isopen then
      let s1 : canlog_tcpclient := { s with m_isopen := false }
      match conn_map_find s1.m_connmap nc.nc with
      | some _ => ({ s1 with m_connmap := conn_map_erase s1.m_connmap nc.nc }, nc)
      | none => (s1, nc)
    else (s, nc)
  | .MG_EV_READ =>
    let used := nc.recv.length
    let used :=
      if env.m_formatter then env.Serve nc.recv (conn_map_find s.m_connmap nc.nc) else used
    if used > 0 then (s, { nc with recv := mg_iobuf_del nc.recv used }) else (s, nc)
  | _ => (s, nc)

/-- One run of `canlog_tcpclient::Open()`: the value returned, the sink afterwards and the
targets handed to `mg_connect`. -/
structure OpenRun where
  ret : Bool
  state : canlog_tcpclient
  connects : List Str

/-- The method `canlog_tcpclient::Open()`. After a connect attempt it blocks in
`m_connecting.Take` for at most 10 s; `wait` lists the events that the dispatch thread hands
to `MongooseHandler` before `Open()` goes on to read `m_isopen`. -/
def canlog_tcpclient.Open (env : NetEnv) (s : canlog_tcpclient)
    (wait : List (mg_connection × mg_event)) : OpenRun :=
  if s.m_isopen then { ret := true, state := s, connects := [] }
  else if env.GetMongooseMgr then
    if env.m_network_any then
      if env.mg_connect s.m_path ≠ 0 then
        let s1 := wait.foldl (fun st e => (st.MongooseHandler env e.1 e.2).1) s
        { ret := s1.m_isopen, state := s1, connects := [s.m_path] }
      else { ret := false, state := s, connects := [s.m_path] }
    else { ret := true, state := s, connects := [] }
  else { ret := false, state := s, connects := [] }

/-- The constructor `canlog_tcpserver::canlog_tcpserver(path, format, mode)`: a path without
a colon gets the port `:3000`. -/
def canlog_tcpserver.new (path : Str) : canlog_tcpserver :=
  { m_path := if ':' ∈ path then path else path ++ ":3000".toList,
    m_isopen := false, m_mgconn := 0, m_connmap := [], nc_closing := [], nc_sent := [] }

/-- The method `canlog_tcpserver::Open()`: the returned flag and the state it leaves. -/
def canlog_tcpserver.Open (env : NetEnv) (s : canlog_tcpserver) : Bool × canlog_tcpserver :=
  if s.m_isopen then (true, s)
  else if env.GetMongooseMgr then
    if env.m_network_any then
      let s1 : canlog_tcpserver := { s with m_mgconn := env.mg_listen s.m_path }
      if s1.m_mgconn ≠ 0 then (true, { s1 with m_isopen := true })
      else (false, s1)
    else (true, s)
  else (false, s)

/-- The method `canlog_tcpserver::MongooseHandler(nc, ev, p)`: the sink and the handle after
the event; `none` when the read case calls `clc->m_formatter` through a null `clc`. -/
def canlog_tcpserver.MongooseHandler (env : NetEnv) (s : canlog_tcpserver) (nc : mg_connection)
    (ev : mg_event) : Option (canlog_tcpserver × mg_connection) :=
  match ev with
  | .MG_EV_ACCEPT =>
    let clc : canlogconnection := canlogconnection.new nc.addr
    let s1 : canlog_tcpserver := { s with m_connmap := conn_map_set s.m_connmap nc.nc clc }
    let result := env.getheader
    if result.length > 0 then
      some ({ s1 with nc_sent := s1.nc_sent ++ [(nc.nc, result)] }, nc)
    else some (s1, nc)
  | .MG_EV_CLOSE =>
    match conn_map_find s.m_connmap nc.nc with
    | some _ => some ({ s with m_connmap := conn_map_erase s.m_connmap nc.nc }, nc)
    | none => some (s, nc)
  | .MG_EV_READ =>
    let used := nc.recv.length
    if env.m_formatter then
      match conn_map_find s.m_connmap nc.nc with
      | none => none
      | some clc =>
        let used := env.Serve nc.recv (some clc)
        if used > 0 then some (s, { nc with recv := mg_iobuf_del nc.recv used })
        else some (s, nc)
    else if used > 0 then some (s, { nc with recv := mg_iobuf_del nc.recv used })
    else some (s, nc)
  | _ => some (s, nc)
/-- The constructor `canlog_udpserver::canlog_udpserver(path, format, mode)`: a path without
a colon gets the scheme `udp://` in front. -/
def canlog_udpserver.new (path : Str) : canlog_udpserver :=
  { m_path := if ':' ∈ path then path else "udp://".toList ++ path,
    m_isopen := false, m_mgconn := 0, m_connmap := [], nc_closing := [], nc_sent := [] }

/-- The method `canlog_udpserver::Open()`: the returned flag and the state it leaves. -/
def canlog_udpserver.Open (env : NetEnv) (s : canlog_udpserver) : Bool × canlog_udpserver :=
  if s.m_isopen then (true, s)
  else if env.GetMongooseMgr then
    if env.m_network_any then
      let s1 : canlog_udpserver := { s with m_mgconn := env.mg_listen s.m_path }
      if s1.m_mgconn ≠ 0 then (true, { s1 with m_isopen := true })
      else (false, s1)
    else (true, s)
  else (false, s)

/-- The method `udpcanlogconnection::Tickle()` at the clock value `now`; the clock and the
deadline are `uint32_t`. -/
def udpcanlogconnection.Tickle (now : Nat) (c : udpcanlogconnection) : udpcanlogconnection :=
  { c with m_timeout := (now + UDP_TIMEOUT) % UINT32_MOD }

/-- The loop of `canlog_udpserver::Ticker` from the iterator position whose remaining entries
are `it`. An entry with `m_timeout < monotonictime` is erased through the loop iterator and
the loop then increments that same, now invalid, iterator: the run has no defined
continuation and the result is `none`. A run that meets no such entry leaves the registry as
it is. -/
def canlog_udpserver.TickerLoop (now : Nat) (m : List (Nat × udpcanlogconnection)) :
    List (Nat × udpcanlogconnection) → Option (List (Nat × udpcanlogconnection))
  | [] => some m
  | (_, clc) :: it => if clc.m_timeout < now then none else TickerLoop now m it

/-- The method `canlog_udpserver::Ticker(event, data)`. -/
def canlog_udpserver.Ticker (env : NetEnv) (s : canlog_udpserver) : Option canlog_udpserver :=
  (canlog_udpserver.TickerLoop env.monotonictime s.m_connmap s.m_connmap).map
    (fun m => { s with m_connmap := m })

/-- The scan "Try to find an existing matching connection" of the read case: the first
Connection, in key order, whose `m_rem` equals `nc->rem`, and the registry once that
Connection has been tickled; `none` when no Connection matches. -/
def canlog_udpserver.find_rem (now : Nat) (rem : Nat) :
    List (Nat × udpcanlogconnection) →
    Option (udpcanlogconnection × List (Nat × udpcanlogconnection))
  | [] => none
  | (k, clc) :: rest =>
    if clc.m_rem = rem then some (clc, (k, clc.Tickle now) :: rest)
    else (find_rem now rem rest).map (fun r => (r.1, (k, clc) :: r.2))

/-- The method `canlog_udpserver::MongooseHandler(nc, ev, p)`: the sink and the handle after
the event. `fake_nc` is the address `&clc->m_fakenc` inside the Connection that the handler
allocates for a new peer. -/
def canlog_udpserver.MongooseHandler (env : NetEnv) (s : canlog_udpserver) (nc : mg_connection)
    (ev : mg_event) (fake_nc : Nat) : canlog_udpserver × mg_connection :=
  match ev with
  | .MG_EV_READ =>
    match canlog_udpserver.find_rem env.monotonictime nc.rem s.m_connmap with
    | some (clc, m) =>
      let used := env.Serve nc.recv (some clc.tocanlogconnection)
      let nc1 : mg_connection :=
        if used > 0 then { nc with recv := mg_iobuf_del nc.recv used } else nc
      ({ s with m_connmap := m }, nc1)
    | none =>
      let clc : udpcanlogconnection :=
        { canlogconnection.new nc.addr with
          m_rem := nc.rem, m_timeout := (env.monotonictime + UDP_TIMEOUT) % UINT32_MOD,
          m_sent := [] }
      let s1 : canlog_udpserver := { s with m_connmap := conn_map_set s.m_connmap fake_nc clc }
      let result := env.getheader
      let s2 : canlog_udpserver :=
        if result.length > 0 then { s1 with nc_sent := s1.nc_sent ++ [(nc.nc, result)] }
        else s1
      let used := env.Serve nc.recv (some clc.tocanlogconnection)
      let nc1 : mg_connection :=
        if used > 0 then { nc with recv := mg_iobuf_del nc.recv used } else nc
      (s2, nc1)
  | _ => (s, nc)

/-- The globals that the command `log start tcpclient` and the event `network.mgr.init`
touch: the pointer `MyCanLogTcpClient` with the sink it points to (`none` for `NULL`), how
many sinks were handed to `MyCan.AddLogger`, the lines printed on the writer (without the
text of `GetInfo()`), and the targets handed to `mg_connect`. -/
structure TcpClientWorld where
  MyCanLogTcpClient : Option canlog_tcpclient
  AddLogger_calls : Nat
  printed : List Str
  connects : List Str

/-- The function `can_log_tcpclient_start` for the target `argv[0] = path`. The destructor
that `delete logger` runs is `Close()` followed by `MyCanLogTcpClient = NULL`. -/
def can_log_tcpclient_start (env : NetEnv) (w : TcpClientWorld) (path : Str)
    (wait : List (mg_connection × mg_event)) : TcpClientWorld :=
  let logger := canlog_tcpclient.new path
  let r := logger.Open env wait
  let w1 : TcpClientWorld :=
    { w with MyCanLogTcpClient := some r.state, connects := w.connects ++ r.connects }
  if r.state.m_isopen then
    { w1 with AddLogger_calls := w1.AddLogger_calls + 1,
              printed := w1.printed ++ ["CAN logging as TCP client: ".toList] }
  else
    { w1 with printed :=
                w1.printed ++ ["Error: Could not start CAN logging as TCP client: ".toList],
              MyCanLogTcpClient := none }

/-- The method `OvmsCanLogTcpClientInit::NetManInit`, the listener of `network.mgr.init`. -/
def NetManInit (env : NetEnv) (w : TcpClientWorld) (wait : List (mg_connection × mg_event)) :
    TcpClientWorld :=
  match w.MyCanLogTcpClient with
  | some s =>
    let r := s.Open env wait
    { w with MyCanLogTcpClient := some r.state, connects := w.connects ++ r.connects }
  | none => w

/-- The globals that the command `log start tcpserver` touches, as `TcpClientWorld`. -/
structure TcpServerWorld where
  MyCanLogTcpServer : Option canlog_tcpserver
  AddLogger_calls : Nat
  printed : List Str

/-- The function `can_log_tcpserver_start` for the target `argv[0] = path`; `none` when the
destructor's `Close()` dereferences a null handle. -/
def can_log_tcpserver_start (env : NetEnv) (w : TcpServerWorld) (path : Str) :
    Option TcpServerWorld :=
  let logger := canlog_tcpserver.new path
  let r := logger.Open env
  if r.1 then
    some { w with MyCanLogTcpServer := some r.2, AddLogger_calls := w.AddLogger_calls + 1,
                  printed := w.printed ++ ["CAN logging as TCP server: ".toList] }
  else
    (r.2.Close).map (fun _ =>
      { w with MyCanLogTcpServer := none,
               printed :=
                 w.printed ++ ["Error: Could not start CAN logging as TCP server: ".toList] })
/-- The connection states of `OvmsNetTcpClient`. -/
inductive NetState where
  | NetConnIdle
  | NetConnConnecting
  | NetConnConnected
  | NetConnDisconnected
  | NetConnFailed
  deriving DecidableEq

/-- The class `OvmsNetTcpClient`: the transport handle (`0` for `NULL`), the connection
state, the connect timeout in milliseconds and the destination; `closing` lists the handles
that `Disconnect()` has detached and flagged for closing. -/
structure OvmsNetTcpClient where
  m_mgconn : Nat
  m_netstate : NetState
  m_timeout : Nat
  m_dest : Str
  closing : List Nat

/-- The constructor `OvmsNetTcpClient::OvmsNetTcpClient()`. -/
def OvmsNetTcpClient.new : OvmsNetTcpClient :=
  { m_mgconn := 0, m_netstate := .NetConnIdle, m_timeout := 0, m_dest := [], closing := [] }

/-- The method `OvmsNetTcpClient::Mongoose(nc, ev, ev_data)` at the clock value `mg_millis`,
for a client whose `IncomingData(buf, len)` returns `IncomingData buf`: the client and the
handle after the event; `none` when the poll case writes through a null `m_mgconn`. The call
`mg_error(nc, ...)` of the poll case flags the handle for closing and delivers `MG_EV_ERROR`
through `OvmsMongooseWrapperCallback`, which reaches this method only while `nc->fn_data` is
set. -/
def OvmsNetTcpClient.Mongoose (mg_millis : Nat) (IncomingData : List Nat → Nat)
    (s : OvmsNetTcpClient) (nc : mg_connection) (ev : mg_event) :
    Option (OvmsNetTcpClient × mg_connection) :=
  match ev with
  | .MG_EV_CONNECT _ => some ({ s with m_netstate := .NetConnConnected }, nc)
  | .MG_EV_OPEN =>
    if s.m_timeout > 0 then
      some (s, { nc with data := (mg_millis + s.m_timeout) % UINT64_MOD })
    else some (s, { nc with data := 0 })
  | .MG_EV_POLL =>
    if nc.data ≠ 0 then
      if mg_millis > nc.data && (nc.is_connecting || nc.is_resolving) then
        if s.m_mgconn = 0 then none
        else
          let nc1 : mg_connection := if s.m_mgconn = nc.nc then { nc with fn_data := false } else nc
          let nc2 : mg_connection := { nc1 with is_closing := true }
          if nc2.fn_data then some ({ s with m_netstate := .NetConnFailed, m_mgconn := 0 }, nc2)
          else some (s, nc2)
      else some (s, nc)
    else some (s, nc)
  | .MG_EV_ERROR => some ({ s with m_netstate := .NetConnFailed, m_mgconn := 0 }, nc)
  | .MG_EV_CLOSE => some ({ s with m_netstate := .NetConnDisconnected, m_mgconn := 0 }, nc)
  | .MG_EV_READ =>
    let removed := IncomingData nc.recv
    if removed > 0 then some (s, { nc with recv := mg_iobuf_del nc.recv removed })
    else some (s, nc)
  | _ => some (s, nc)

/-- The method `OvmsNetTcpClient::Connect(dest, opts, timeout)`: the returned flag and the
client afterwards. -/
def OvmsNetTcpClient.Connect (env : NetEnv) (s : OvmsNetTcpClient) (dest : Str)
    (timeout : Nat) : Bool × OvmsNetTcpClient :=
  if !env.GetMongooseMgr then (false, s)
  else
    let s1 : OvmsNetTcpClient :=
      { s with m_dest := dest, m_timeout := timeout, m_mgconn := env.mg_connect dest }
    if s1.m_mgconn = 0 then (false, s1)
    else (true, { s1 with m_netstate := .NetConnConnecting })

/-- The method `OvmsNetTcpClient::Disconnect()`. -/
def OvmsNetTcpClient.Disconnect (s : OvmsNetTcpClient) : OvmsNetTcpClient :=
  if s.m_mgconn ≠ 0 then
    { s with closing := s.closing ++ [s.m_mgconn], m_mgconn := 0, m_netstate := .NetConnIdle }
  else s

/-- A network environment at the clock value `t`: the manager exists, a network is up,
`mg_connect` returns the handle 7 and `mg_listen` the handle 9, the formatter is set, its
header is the line `# log` and its `Serve` consumes the whole records of 4 bytes. -/
def net_at (t : Nat) : NetEnv :=
  { GetMongooseMgr := true, m_network_any := true,
    mg_connect := fun _ => 7, mg_listen := fun _ => 9,
    m_formatter := true, getheader := "# log\n".toList,
    Serve := fun buf _ => 4 * (buf.length / 4),
    monotonictime := t }

/-- The environment `net_at 0` with no network up. -/
def net_down : NetEnv := { net_at 0 with m_network_any := false }

/-- The environment `net_at 0` without a network manager. -/
def net_absent : NetEnv := { net_at 0 with GetMongooseMgr := false }

/-- The environment `net_at 0` with a formatter whose header is empty. -/
def net_plain : NetEnv := { net_at 0 with getheader := [] }

/-- The transport handle `n` of the peer with the raw address `a`, holding `recv`. -/
def peer (n a : Nat) (recv : List Nat) : mg_connection :=
  { nc := n, rem := a, addr := "10.0.0.1".toList, recv := recv }

/-- What the creation of a Connection on the handle `h` adds to the log of `mg_send` calls:
the formatter's header, when it is not empty. -/
def header_sends (env : NetEnv) (h : Nat) : List (Nat × Str) :=
  if env.getheader.length > 0 then [(h, env.getheader)] else []

/-- The synthetic Connection that the UDP sink creates for the peer of a datagram. -/
def new_udp_conn (env : NetEnv) (nc : mg_connection) : udpcanlogconnection :=
  { canlogconnection.new nc.addr with
    m_rem := nc.rem, m_timeout := (env.monotonictime + UDP_TIMEOUT) % UINT32_MOD, m_sent := [] }

/-- A TCP server sink, listening on the handle 9, after the accept of the handle 5. -/
def reading_server : canlog_tcpserver :=
  { m_path := ":3000".toList, m_isopen := true, m_mgconn := 9,
    m_connmap := [(5, canlogconnection.new "10.0.0.1".toList)],
    nc_closing := [], nc_sent := [(5, "# log\n".toList)] }

/-- The sink once the filter `flt` has been installed on each of its Connections (`none` for
no filter); the files and the counters are untouched. -/
def canlog_vfs.with_filters (s : canlog_vfs) (flt : Option (CAN_frame_t → Bool)) : canlog_vfs :=
  { s with m_connmap := s.m_connmap.map (fun e => (e.1, { e.2 with m_filters := flt })) }

/-- The number of bytes that the frames `msgs` add to a file behind the filter `flt`: the
length of the encoded result of each frame that the filter lets through. -/
def written_bytes (env : Env) (flt : Option (CAN_frame_t → Bool)) :
    List CAN_log_message_t → Nat
  | [] => 0
  | msg :: rest =>
    (match flt with
      | none => (env.formatter_get msg).length
      | some f => if f msg.frame then (env.formatter_get msg).length else 0)
    + written_bytes env flt rest

/-- The bytes that the frames `msgs` add to a file behind the filter `flt`: the encoded result
of each frame that the filter lets through, one after the other in the order of the frames. -/
def written_text (env : Env) (flt : Option (CAN_frame_t → Bool)) :
    List CAN_log_message_t → Str
  | [] => []
  | msg :: rest =>
    (match flt with
      | none => env.formatter_get msg
      | some f => if f msg.frame then env.formatter_get msg else [])
    ++ written_text env flt rest

/-- A filter that lets through the frames of bus 1 only. -/
def bus1_only : CAN_frame_t → Bool := fun f => f.origin == 1

/-- A frame on bus 2 with id 0x200. -/
def bus2_msg : CAN_log_message_t := { frame := { origin := 2, MsgID := 512, data := [] } }

/-- The environment `sample_env` with a formatter whose header is the line `# log`. -/
def header_env : Env := { sample_env with getheader := "# log\n".toList }

/-- A closed file sink on `/sd/log/a.crtd` with an empty registry. -/
def closed_vfs : canlog_vfs :=
  { m_path := "/sd/log/a.crtd".toList, m_isopen := false, m_connmap := [],
    m_msgcount := 0, m_dropcount := 0, m_filtercount := 0 }

/-- A run of periodic sweeps: `Ticker` is called once at each clock value of the list, in
order; `none` as soon as one of the calls has no defined result. -/
def canlog_udpserver.sweeps (env : NetEnv) (s : canlog_udpserver) :
    List Nat → Option canlog_udpserver
  | [] => some s
  | t :: ts =>
    match s.Ticker { env with monotonictime := t } with
    | some s1 => canlog_udpserver.sweeps env s1 ts
    | none => none

/-- The registry of a UDP sink read as a table: the key, the raw address and the deadline of
each synthetic Connection, in key order. -/
def canlog_udpserver.registry_view (s : canlog_udpserver) : List (Nat × Nat × Nat) :=
  s.m_connmap.map (fun e => (e.1, e.2.m_rem, e.2.m_timeout))

/-- A UDP sink opened in `net_at 0`: it listens on the handle 9 and has no Connection. -/
def udp_listening : canlog_udpserver := ((canlog_udpserver.new "3000".toList).Open (net_at 0)).2

/-- The sink `udp_listening` after a datagram from the address 77 at the clock value 0, for
which the synthetic Connection is allocated at the address 100. -/
def udp_one_peer : canlog_udpserver :=
  (udp_listening.MongooseHandler (net_at 0) (peer 9 77 [1, 2, 3, 4]) .MG_EV_READ 100).1

/-- The sink `udp_one_peer` after a datagram from the address 88 at the clock value 25, for
which the synthetic Connection is allocated at the address 200. -/
def udp_two_peers : canlog_udpserver :=
  (udp_one_peer.MongooseHandler (net_at 25) (peer 9 88 [1, 2, 3, 4]) .MG_EV_READ 200).1

/-- The globals before any client sink exists. -/
def no_client : TcpClientWorld :=
  { MyCanLogTcpClient := none, AddLogger_calls := 0, printed := [], connects := [] }

/-- The globals after `log start tcpclient` for the target `h:1`, run in `net_down`: the
manager exists and no network is up. -/
def deferred_start : TcpClientWorld :=
  can_log_tcpclient_start net_down no_client "h:1".toList []

/-- The states of the TCP client sink that can be reached from its constructor through
`Open()`, `Close()` and transport events, for any handles and in any environment. -/
inductive canlog_tcpclient.Reach : canlog_tcpclient → Prop
  | ctor (path : Str) : canlog_tcpclient.Reach (canlog_tcpclient.new path)
  | opened (env : NetEnv) (s : canlog_tcpclient) (wait : List (mg_connection × mg_event)) :
      canlog_tcpclient.Reach s → canlog_tcpclient.Reach (s.Open env wait).state
  | closed (s : canlog_tcpclient) : canlog_tcpclient.Reach s → canlog_tcpclient.Reach s.Close
  | event (env : NetEnv) (s : canlog_tcpclient) (nc : mg_connection) (ev : mg_event) :
      canlog_tcpclient.Reach s → canlog_tcpclient.Reach (s.MongooseHandler env nc ev).1

/-- An event that fits a sink with one connection at a time: a connect success arrives while
the registry holds no other handle, a connect failure arrives while the sink is closed, and
a close event that arrives while the sink is open is for a registered handle. -/
def canlog_tcpclient.one_at_a_time (s : canlog_tcpclient) (nc : mg_connection) :
    mg_event → Prop
  | .MG_EV_CONNECT success =>
    if success = 0 then ∀ e ∈ s.m_connmap, e.1 = nc.nc else s.m_isopen = false
  | .MG_EV_CLOSE => s.m_isopen = true → conn_map_find s.m_connmap nc.nc ≠ none
  | _ => True

/-- Every event of the list fits, in the sense of `one_at_a_time`, the sink that the events
before it have left. -/
def canlog_tcpclient.one_at_a_time_run (env : NetEnv) (s : canlog_tcpclient) :
    List (mg_connection × mg_event) → Prop
  | [] => True
  | e :: rest =>
    s.one_at_a_time e.1 e.2 ∧
    canlog_tcpclient.one_at_a_time_run env (s.MongooseHandler env e.1 e.2).1 rest

/-- The states reached by runs in which every event fits the sink it arrives at. -/
inductive canlog_tcpclient.ReachOne : canlog_tcpclient → Prop
  | ctor (path : Str) : canlog_tcpclient.ReachOne (canlog_tcpclient.new path)
  | opened (env : NetEnv) (s : canlog_tcpclient) (wait : List (mg_connection × mg_event)) :
      canlog_tcpclient.ReachOne s → s.one_at_a_time_run env wait →
      canlog_tcpclient.ReachOne (s.Open env wait).state
  | closed (s : canlog_tcpclient) :
      canlog_tcpclient.ReachOne s → canlog_tcpclient.ReachOne s.Close
  | event (env : NetEnv) (s : canlog_tcpclient) (nc : mg_connection) (ev : mg_event) :
      canlog_tcpclient.ReachOne s → s.one_at_a_time nc ev →
      canlog_tcpclient.ReachOne (s.MongooseHandler env nc ev).1

/-- The client sink for `h:1` after connect successes on the handles 7 and 8. -/
def client_two_handles : canlog_tcpclient :=
  (((canlog_tcpclient.new "h:1".toList).MongooseHandler (net_at 0) (peer 7 1 [])
      (.MG_EV_CONNECT 0)).1.MongooseHandler (net_at 0) (peer 8 1 []) (.MG_EV_CONNECT 0)).1

/-- The client sink for `h:1` after a connect success on the handle 7 and a connect failure
on the handle 8. -/
def client_late_failure : canlog_tcpclient :=
  (((canlog_tcpclient.new "h:1".toList).MongooseHandler (net_at 0) (peer 7 1 [])
      (.MG_EV_CONNECT 0)).1.MongooseHandler (net_at 0) (peer 8 1 []) (.MG_EV_CONNECT (-1))).1

/-- The client sink for `h:1` after a connect success on the handle 7. -/
def client_connected : canlog_tcpclient :=
  ((canlog_tcpclient.new "h:1".toList).MongooseHandler (net_at 0) (peer 7 1 [])
      (.MG_EV_CONNECT 0)).1

/-- The client sink is fully open or fully closed: closed with an empty registry, or open
with exactly one Connection. -/
def canlog_tcpclient.all_or_nothing (s : canlog_tcpclient) : Prop :=
  (s.m_isopen = false → s.m_connmap.length = 0) ∧ (s.m_isopen = true → s.m_connmap.length = 1)

/-- The environment `sample_env` one minute after the timer value 0. -/
def late_env : Env := { sample_env with esp_timer_get_time := 60000000 }

/-- A rotating sink, open since the timer value 0 on a file of 2000 bytes, with the size
threshold at 1 KB, the duration threshold at 60 s and keep-empty-files on. -/
def overdue_full_sink : canlog_vfs_autonaming :=
  { nearly_full_sink with
    m_connmap := [(0, { canlogconnection.new "/sd/log/a.crtd".toList with
                        m_file := [], m_file_size := 2000 })],
    m_logfile_max_duration_s := 60 }

/-- The sink `overdue_full_sink` with the size threshold switched off: only the duration
threshold of 60 s can rotate its file. -/
def overdue_sink : canlog_vfs_autonaming :=
  { overdue_full_sink with m_logfile_max_size_kb := 0 }

/-- A rotating sink as its constructor leaves it in `sample_env`: closed, keep-empty-files
on, the size threshold at 1024 KB and the duration threshold at 1800 s, on the name computed
for the split counter 1. -/
def closed_rotating_sink : canlog_vfs_autonaming :=
  canlog_vfs_autonaming.new sample_env "p".toList

/-- The environment `sample_env` half an hour after the timer value 0. -/
def half_hour_env : Env := { sample_env with esp_timer_get_time := 1800000000 }

/-- A TCP server sink for the port 3001 right after its `Open()` in `net_at 0`: it listens on
the handle 9 and no peer has been accepted. -/
def second_server : canlog_tcpserver := ((canlog_tcpserver.new "3001".toList).Open (net_at 0)).2

/-- The environment `sample_env` with the vehicle id `{splits}`. -/
def brace_id_env : Env :=
  { sample_env with
    GetParamValue := fun p n d =>
      if p = "vehicle" ∧ n = "id" then "\x7bsplits\x7d".toList else d }

/-- A rotating sink with the prefix `p` and the pattern `{vehicleid}`. -/
def id_sink : canlog_vfs_autonaming :=
  { sample_sink with m_file_name_pattern := "\x7bvehicleid\x7d".toList }

/-- The reference replacement, after the wording of the claim: the text is read from left to
right; where an occurrence of `pat` starts, `rep` is put out and the characters of that
occurrence are passed over (`skip` counts those still to pass), so occurrences do not overlap
and inserted text is not read again. -/
def replace_occurrences (pat rep : Str) : Nat → Str → Str
  | _, [] => []
  | skip + 1, _ :: cs => replace_occurrences pat rep skip cs
  | 0, c :: cs =>
    if pat.isPrefixOf (c :: cs) then rep ++ replace_occurrences pat rep (pat.length - 1) cs
    else c :: replace_occurrences pat rep 0 cs

/-- The number of occurrences that `replace_occurrences` replaces. -/
def count_occurrences (pat : Str) : Nat → Str → Nat
  | _, [] => 0
  | skip + 1, _ :: cs => count_occurrences pat skip cs
  | 0, c :: cs =>
    if pat.isPrefixOf (c :: cs) then 1 + count_occurrences pat (pat.length - 1) cs
    else count_occurrences pat 0 cs

/-- A text written as its runs: each entry is a character with the number of times it is
repeated after its first occurrence. -/
def expand_runs : List (Char × Nat) → Str
  | [] => []
  | (c, n) :: rest => List.replicate (n + 1) c ++ expand_runs rest

/-- The runs of a text, from left to right. -/
def runs_of : Str → List (Char × Nat)
  | [] => []
  | c :: cs =>
    match runs_of cs with
    | [] => [(c, 0)]
    | (d, n) :: rest => if c = d then (d, n + 1) :: rest else (c, 0) :: (d, n) :: rest

/-- Runs are maximal when neighbouring runs are of different characters. -/
def maximal_runs (rs : List (Char × Nat)) : Prop :=
  List.Chain' (fun a b => a.1 ≠ b.1) rs

/-- What the claim makes of one run: a run of `/` or of `.` becomes a single character, every
other run is kept. -/
def squeeze_run (r : Char × Nat) : Char × Nat :=
  if r.1 = '/' ∨ r.1 = '.' then (r.1, 0) else r

/-- No `/` and no `.` directly follows a character equal to it. -/
def no_doubled (path : Str) : Prop :=
  List.Chain' (fun a b => ¬ (a = b ∧ (b = '/' ∨ b = '.'))) path

/-- The states of `OvmsNetTcpClient` that can be reached from its constructor through
`Connect()`, `Disconnect()` and the events that `Mongoose` handles. -/
inductive OvmsNetTcpClient.Reach : OvmsNetTcpClient → Prop
  | ctor : OvmsNetTcpClient.Reach OvmsNetTcpClient.new
  | connect (env : NetEnv) (s : OvmsNetTcpClient) (dest : Str) (timeout : Nat) :
      OvmsNetTcpClient.Reach s → OvmsNetTcpClient.Reach (s.Connect env dest timeout).2
  | disconnect (s : OvmsNetTcpClient) :
      OvmsNetTcpClient.Reach s → OvmsNetTcpClient.Reach s.Disconnect
  | event (mg_millis : Nat) (IncomingData : List Nat → Nat) (s : OvmsNetTcpClient)
      (nc : mg_connection) (ev : mg_event) (r : OvmsNetTcpClient × mg_connection) :
      OvmsNetTcpClient.Reach s → s.Mongoose mg_millis IncomingData nc ev = some r →
      OvmsNetTcpClient.Reach r.1

/-- A client after `Connect()` to `h:1` in `net_at 0`: it waits for the handle 7. -/
def connecting_client : OvmsNetTcpClient :=
  (OvmsNetTcpClient.new.Connect (net_at 0) "h:1".toList 0).2

/-- The client `connecting_client` after an error event on its handle. -/
def failed_client : OvmsNetTcpClient :=
  { connecting_client with m_netstate := .NetConnFailed, m_mgconn := 0 }

/-- The client `connecting_client` after a close event on its handle. -/
def disconnected_client : OvmsNetTcpClient :=
  { connecting_client with m_netstate := .NetConnDisconnected, m_mgconn := 0 }

/-- The path `/c1/c2/.../cn` made of the components `c1`, ..., `cn`. -/
def join_path : List Str → Str
  | [] => []
  | c :: cs => '/' :: (c ++ join_path cs)

/-! ## Topic matching of the web socket handler -/

/-- The function `ovms_mqtt_next_topic_component(&topic)` on the text that the `mg_str`
covers: the component it returns and what `topic` covers afterwards. When no `/` is left the
component is all of `topic`, and `topic` is left with the length 0. -/
def ovms_mqtt_next_topic_component (topic : Str) : Str × Str :=
  match find topic ['/'] 0 with
  | some c => (topic.take c, topic.drop (c + 1))
  | none => (topic, [])

/-- The `while (1)` loop of `ovms_mqtt_match_topic_expression`, one round per unit of fuel;
the result is whether the returned `int` is non-zero, `none` when the fuel runs out. -/
def ovms_mqtt_match_loop : Nat → Str → Str → Option Bool
  | 0, _, _ => none
  | fuel + 1, exp, topic =>
    let ec := (ovms_mqtt_next_topic_component exp).1
    let exp1 := (ovms_mqtt_next_topic_component exp).2
    let tc := (ovms_mqtt_next_topic_component topic).1
    let topic1 := (ovms_mqtt_next_topic_component topic).2
    if ec.length = 0 then
      if tc.length ≠ 0 then some false
      else if exp1.length = 0 then some (tc.length = 0 && topic1.length = 0)
      else ovms_mqtt_match_loop fuel exp1 topic1
    else if ec = ['+'] then
      if tc.length = 0 ∧ topic1.length = 0 then some false
      else ovms_mqtt_match_loop fuel exp1 topic1
    else if ec = ['#'] then some (exp1.length = 0)
    else if ec ≠ tc then some false
    else ovms_mqtt_match_loop fuel exp1 topic1

/-- The function `ovms_mqtt_match_topic_expression(exp, topic)`; `exp.length + 2` rounds are
enough for every input (`ovms_mqtt_match_loop_total`). -/
def ovms_mqtt_match_topic_expression (exp topic : Str) : Option Bool :=
  if exp.length = 0 then some false
  else ovms_mqtt_match_loop (exp.length + 2) exp topic

/-- The levels of a topic: the pieces between its `/` characters; a text without `/` is one
level, and a `/` at either end borders an empty level. -/
def topic_levels : Str → List Str
  | [] => [[]]
  | c :: cs =>
    match topic_levels cs with
    | [] => [[]]
    | l :: ls => if c = '/' then [] :: l :: ls else (c :: l) :: ls

/-- The rules of the claim on level lists: `#` as the last level of the expression matches
any number of remaining levels, `+` matches exactly one level, every other level must equal
the topic level. -/
def mqtt_levels_match : List Str → List Str → Bool
  | [], ts => ts.isEmpty
  | e :: es, ts =>
    if e = ['#'] then es.isEmpty
    else
      match ts with
      | [] => false
      | t :: ts1 => (e = ['+'] || e = t) && mqtt_levels_match es ts1

/-- The matching that the claim describes: both arguments are split on `/` and the level
lists are compared; the empty expression matches no topic. -/
def mqtt_reference_match (exp topic : Str) : Bool :=
  !exp.isEmpty && mqtt_levels_match (topic_levels exp) (topic_levels topic)

/-- What the five substitutions leave behind the split field of the default pattern: the
conversions of the time stamp and the extension, in which the four later substitutions have
been made as in the rest of the pattern. -/
def name_tail (env : Env) (s : canlog_vfs_autonaming) : Str :=
  "-%Y%m%d-%H%M%S".toList ++
    replaceAll (replaceAll (replaceAll (replaceAll env.preferred_file_extension
      "\x7bprefix\x7d".toList (canlog_vfs_autonaming.m_prefix s))
      "\x7bsession\x7d".toList (snprintf_08lld env.GetRestartCount))
      "\x7bsplits\x7d".toList (snprintf_08lld s.m_file_nb_splits))
      "\x7bvehicleid\x7d".toList (env.GetParamValue "vehicle" "id" "OVMS".toList)

/-- Two properties of the time expansion that libc `strftime` makes of a format, stated of the
whole expansion `ex`, whatever its length: a character other than `%` at the front of the
format is copied and followed by the expansion of the rest, and the texts on the two sides of
a `/` are expanded one after the other. -/
def time_expansion (ex : Str → Str) : Prop :=
  (∀ (c : Char) (b : Str), c ≠ '%' → ex (c :: b) = c :: ex b) ∧
  (∀ a b : Str, ex (a ++ '/' :: b) = ex a ++ '/' :: ex b)

/-- The call `std::strftime(replaced_path, sizeof(replaced_path), ...)` on the buffer
`char replaced_path[PATH_MAX]`: the function `tf` returns the expansion `ex` of each format
whose expansion fits the buffer together with the terminating NUL. Of a format whose expansion
does not fit, nothing is said. -/
def strftime_within (PATH_MAX : Nat) (ex tf : Str → Str) : Prop :=
  time_expansion ex ∧ ∀ fmt : Str, (ex fmt).length < PATH_MAX → tf fmt = ex fmt

/-- A rotating sink like `logging_sink 1`, but with the prefix `{splits}%Y`: the split field
and a conversion of the time stamp also stand in the directory part of its names. -/
def braced_sink : canlog_vfs_autonaming :=
  let s0 : canlog_vfs_autonaming := { sample_sink with m_prefix := "\x7bsplits\x7d%Y".toList }
  let s1 : canlog_vfs_autonaming := { s0 with m_path := compute_log_file_name sample_env s0 }
  let s2 := (s1.Open sample_env).2
  { s2 with tocanlog_vfs :=
      { s2.tocanlog_vfs.OutputMsg sample_env sample_msg with m_msgcount := 1 } }

/-! # Theorems -/

/-! ## Counters of a Connection -/

/-- C1, as stated, fails: on a frame that its filter rejects, one call of `OutputMsg` moves
both the seen counter `m_msgcount` and the filtered counter `m_filtercount` of the Connection
from 0 to 1, for the file Connection as for the UDP Connection, so it is not the case that
exactly one of the two counters is incremented. -/
theorem C1_both_counters_increment :
    (filtering_vfs_conn.m_msgcount = 0 ∧ filtering_vfs_conn.m_filtercount = 0 ∧
      (filtering_vfs_conn.OutputMsg sample_msg "x".toList).m_msgcount = 1 ∧
      (filtering_vfs_conn.OutputMsg sample_msg "x".toList).m_filtercount = 1) ∧
    (filtering_udp_conn.m_msgcount = 0 ∧ filtering_udp_conn.m_filtercount = 0 ∧
      (filtering_udp_conn.OutputMsg sample_msg "x".toList).m_msgcount = 1 ∧
      (filtering_udp_conn.OutputMsg sample_msg "x".toList).m_filtercount = 1) := by
  decide

/-- C1, amended: for every Connection of a file sink or of the UDP sink, every frame and every
encoded result, one call of `OutputMsg` increments the seen counter `m_msgcount` by one
(modulo 2^32), and increments the filtered counter `m_filtercount` by one exactly when a
filter is set and rejects the frame, leaving it unchanged otherwise; the dropped counter
never moves. -/
theorem C1_OutputMsg_counters :
    (∀ (c : canlog_vfs_conn) (msg : CAN_log_message_t) (result : Str),
      (c.OutputMsg msg result).m_msgcount = (c.m_msgcount + 1) % UINT32_MOD ∧
      (c.OutputMsg msg result).m_filtercount =
        (if c.rejects msg then (c.m_filtercount + 1) % UINT32_MOD else c.m_filtercount) ∧
      (c.OutputMsg msg result).m_dropcount = c.m_dropcount) ∧
    (∀ (c : udpcanlogconnection) (msg : CAN_log_message_t) (result : Str),
      (c.OutputMsg msg result).m_msgcount = (c.m_msgcount + 1) % UINT32_MOD ∧
      (c.OutputMsg msg result).m_filtercount =
        (if c.rejects msg then (c.m_filtercount + 1) % UINT32_MOD else c.m_filtercount) ∧
      (c.OutputMsg msg result).m_dropcount = c.m_dropcount) := by
  constructor
  · intro c msg result
    unfold canlog_vfs_conn.OutputMsg canlogconnection.rejects
    cases hf : c.m_filters with
    | none => by_cases hr : result.length > 0 <;> simp [hf, hr]
    | some f => by_cases hr : result.length > 0 <;> cases hfm : f msg.frame <;> simp [hf, hr, hfm]
  · intro c msg result
    unfold udpcanlogconnection.OutputMsg canlogconnection.rejects
    cases hf : c.m_filters with
    | none => by_cases hr : result.length > 0 <;> simp [hf, hr]
    | some f => by_cases hr : result.length > 0 <;> cases hfm : f msg.frame <;> simp [hf, hr, hfm]

/-! ## Close is idempotent -/

/-- C2: for the file sink, the TCP client sink, the TCP server sink and the UDP sink, and for
every state of the sink, a second `Close()` leaves exactly the state the first one left:
open flag, registry, listening handle and closing marks are those of a single call. For the
two servers `Close()` dereferences the listening handle, so the statement covers every state
in which that call returns, and it returns in every state that is closed or has a listening
handle. -/
theorem C2_Close_idempotent :
    (∀ s : canlog_vfs, s.Close.Close = s.Close) ∧
    (∀ s : canlog_tcpclient, s.Close.Close = s.Close) ∧
    (∀ s : canlog_tcpserver, s.Close.bind canlog_tcpserver.Close = s.Close) ∧
    (∀ s : canlog_udpserver, s.Close.bind canlog_udpserver.Close = s.Close) ∧
    (∀ s : canlog_tcpserver, (s.m_isopen = false ∨ s.m_mgconn ≠ 0) → s.Close.isSome = true) ∧
    (∀ s : canlog_udpserver, (s.m_isopen = false ∨ s.m_mgconn ≠ 0) → s.Close.isSome = true) := by
  refine ⟨?_, ?_, ?_, ?_, ?_, ?_⟩
  · intro s
    unfold canlog_vfs.Close
    cases h : s.m_isopen <;> simp [h]
  · intro s
    unfold canlog_tcpclient.Close
    cases h : s.m_isopen <;> simp [h]
  · intro s
    unfold canlog_tcpserver.Close
    cases h : s.m_isopen
    · simp [h, canlog_tcpserver.Close]
    · by_cases hc : s.m_connmap.length > 0 <;> by_cases hm : s.m_mgconn = 0 <;>
        simp [h, hc, hm, canlog_tcpserver.Close]
  · intro s
    unfold canlog_udpserver.Close
    cases h : s.m_isopen
    · simp [h, canlog_udpserver.Close]
    · by_cases hc : s.m_connmap.length > 0 <;> by_cases hm : s.m_mgconn = 0 <;>
        simp [h, hc, hm, canlog_udpserver.Close]
  · intro s hs
    unfold canlog_tcpserver.Close
    cases h : s.m_isopen
    · simp
    · have hm : s.m_mgconn ≠ 0 := by
        rcases hs with hs | hs
        · simp [h] at hs
        · exact hs
      by_cases hc : s.m_connmap.length > 0 <;> simp [hc, hm]
  · intro s hs
    unfold canlog_udpserver.Close
    cases h : s.m_isopen
    · simp
    · have hm : s.m_mgconn ≠ 0 := by
        rcases hs with hs | hs
        · simp [h] at hs
        · exact hs
      by_cases hc : s.m_connmap.length > 0 <;> simp [hc, hm]

/-! ## Rotation -/

/-- C3, as stated, fails: with keep-empty-files off and no message logged, `CycleLogfile()`
on the freshly opened `fresh_sink` (split counter 1) leaves the split counter at 1; it has
not advanced to 2. -/
theorem C3_skip_keeps_split_counter :
    fresh_sink.m_keep_empty_files = false ∧ fresh_sink.m_msgcount = 0 ∧
    fresh_sink.m_file_nb_splits = 1 ∧
    (fresh_sink.CycleLogfile sample_env).m_file_nb_splits = 1 := by
  decide

/-- C3, amended: when keep-empty-files is disabled and the current file is empty or the sink
has logged zero frames, `CycleLogfile()` skips the file swap and changes nothing at all: the
split counter, the path, the open flag, the registry and the counters are those before the
call. -/
theorem C3_skip_changes_nothing (env : Env) (s : canlog_vfs_autonaming)
    (hkeep : s.m_keep_empty_files = false)
    (hempty : s.GetFileSize = 0 ∨ s.m_msgcount = 0) :
    s.CycleLogfile env = s := by
  unfold canlog_vfs_autonaming.CycleLogfile
  rcases hempty with h | h <;> simp [hkeep, h]

/-- C3, witness: the amended statement at `fresh_sink`, which has logged zero frames. -/
theorem C3_skip_changes_nothing_witness :
    fresh_sink.m_keep_empty_files = false ∧ fresh_sink.m_msgcount = 0 ∧
    fresh_sink.CycleLogfile sample_env = fresh_sink :=
  ⟨by decide, by decide,
    C3_skip_changes_nothing sample_env fresh_sink (by decide) (Or.inr (by decide))⟩

/-- C4: with keep-empty-files off, the event `can.log.rotatefiles` delivered to a rotating
sink that has logged zero messages changes nothing: the active path, the open flag and the
registry (hence the open file and its registry entry) are those before the event. -/
theorem C4_rotate_now_on_message_free_sink (env : Env) (s : canlog_vfs_autonaming)
    (data : Option String)
    (hkeep : s.m_keep_empty_files = false) (hmsg : s.m_msgcount = 0) :
    s.EventHandler env "can.log.rotatefiles" data = s := by
  unfold canlog_vfs_autonaming.EventHandler
  rw [if_neg (by decide), if_neg (by decide), if_pos rfl]
  unfold canlog_vfs_autonaming.CycleLogfile
  simp [hkeep, hmsg]

/-- C4, witness: `fresh_sink` is open on its first file, has logged nothing, and the
rotate-now event leaves it as it is. -/
theorem C4_rotate_now_on_message_free_sink_witness :
    fresh_sink.m_isopen = true ∧ fresh_sink.m_connmap.length = 1 ∧
    fresh_sink.EventHandler sample_env "can.log.rotatefiles" none = fresh_sink :=
  ⟨by decide, by decide,
    C4_rotate_now_on_message_free_sink sample_env fresh_sink none (by decide) (by decide)⟩

/-- C6, evaluated at the failing input: `nearly_full_sink` holds 1020 bytes and its size
threshold is 1 KB. Writing the 10-byte frame of `sample_env` brings the file to 1030 bytes,
which is at least 1024, and yet `OutputMsg` does not invoke `CycleLogfile()` after the write:
the size it compares is the one sampled on entry. -/
theorem C6_size_check_misses_frame_just_written :
    nearly_full_sink.GetFileSize = 1020 ∧
    nearly_full_sink.m_logfile_max_size_kb * 1024 = 1024 ∧
    (nearly_full_sink.OutputMsg sample_env sample_msg).state.GetFileSize = 1030 ∧
    (nearly_full_sink.OutputMsg sample_env sample_msg).cycled_after = false ∧
    (nearly_full_sink.OutputMsg sample_env sample_msg).state.m_path = nearly_full_sink.m_path := by
  decide

/-! ## Opening the file sink -/

/-- The Connection built inside `canlog_vfs::Open()` is `opened_conn`. -/
theorem opened_conn_eq (env : Env) (path : Str) :
    (if env.getheader.length > 0 then
      ({ ({ canlogconnection.new path with m_file := [], m_file_size := 0 } : canlog_vfs_conn) with
          m_file := [] ++ env.getheader,
          m_file_size := (0 + env.getheader.length) % SIZE_MOD } : canlog_vfs_conn)
    else { canlogconnection.new path with m_file := [], m_file_size := 0 }) =
    opened_conn env path := by
  unfold opened_conn
  cases hg : env.getheader with
  | nil => simp [SIZE_MOD]
  | cons a l => simp

/-- On a closed sink with an empty registry, `canlog_vfs::Open()` succeeds exactly when
`can_open` holds; it then registers `opened_conn` under the null handle, and otherwise
changes nothing. -/
theorem canlog_vfs.Open_closed (env : Env) (s : canlog_vfs)
    (hc : s.m_isopen = false) (hm : s.m_connmap = []) :
    (can_open env s.m_path →
      s.Open env = (true, { s with m_isopen := true,
                                   m_connmap := [(0, opened_conn env s.m_path)] })) ∧
    (¬ can_open env s.m_path → s.Open env = (false, s)) := by
  unfold can_open canlog_vfs.Open
  rw [hc]
  simp only [Bool.false_eq_true, if_false, hm]
  rw [opened_conn_eq]
  generalize env.ProtectedPath s.m_path = b1
  generalize startsWith s.m_path "/sd".toList = b2
  generalize env.sdcard_isavailable = b3
  generalize env.fopen s.m_path = b4
  cases b1 <;> cases b2 <;> cases b3 <;> cases b4 <;> simp [conn_map_set]

/-- On an open sink `canlog_vfs::Open()` first drops the registry and the open flag, then
proceeds as on the closed sink. -/
theorem canlog_vfs.Open_open (env : Env) (s : canlog_vfs) (ho : s.m_isopen = true) :
    s.Open env = ({ s with m_connmap := [], m_isopen := false } : canlog_vfs).Open env := by
  unfold canlog_vfs.Open
  simp [ho]

/-- The registry invariant of the file sink survives `Close()` and the fan-out of a frame. -/
theorem canlog_vfs.registry_ok_kept (env : Env) (s : canlog_vfs) (msg : CAN_log_message_t)
    (h : s.registry_ok) : s.Close.registry_ok ∧ (s.OutputMsg env msg).registry_ok := by
  constructor
  · intro _
    unfold canlog_vfs.Close
    cases ho : s.m_isopen
    · simpa [ho] using h ho
    · simp
  · intro hc
    have : s.m_isopen = false := hc
    simpa [canlog_vfs.OutputMsg] using h this

/-- C10: let the registry of a file sink be sound (a closed sink holds no Connection).
Whenever the path is protected, or starts with `/sd` while the SD card is not available, or
the file cannot be created, `Open()` returns false and leaves the sink closed with an empty
registry, also when the sink was open before the call. `Open()` returns true exactly when
afterwards the sink is open, which is exactly when the registry afterwards holds one
Connection, under the null handle, whose peer is the path; the path itself never changes
and the registry stays sound. -/
theorem C10_Open_file_sink (env : Env) (s : canlog_vfs) (hreg : s.registry_ok) :
    ((env.ProtectedPath s.m_path = true ∨
        (startsWith s.m_path "/sd".toList = true ∧ env.sdcard_isavailable = false) ∨
        env.fopen s.m_path = false) →
      (s.Open env).1 = false ∧ (s.Open env).2.m_isopen = false ∧
        (s.Open env).2.m_connmap = []) ∧
    ((s.Open env).1 = true ↔ (s.Open env).2.m_isopen = true) ∧
    ((s.Open env).1 = true ↔
      ∃ c, (s.Open env).2.m_connmap = [(0, c)] ∧ c.m_peer = s.m_path) ∧
    (s.Open env).2.m_path = s.m_path ∧
    (s.Open env).2.registry_ok := by
  -- reduce to the closed sink with an empty registry
  obtain ⟨t, ht, hc, hm, hp⟩ : ∃ t : canlog_vfs, s.Open env = t.Open env ∧
      t.m_isopen = false ∧ t.m_connmap = [] ∧ t.m_path = s.m_path := by
    cases ho : s.m_isopen with
    | true => exact ⟨_, canlog_vfs.Open_open env s ho, rfl, rfl, rfl⟩
    | false => exact ⟨s, rfl, ho, List.length_eq_zero.mp (hreg ho), rfl⟩
  rw [ht, ← hp]
  have hcl := canlog_vfs.Open_closed env t hc hm
  by_cases hcan : can_open env t.m_path
  · rw [hcl.1 hcan]
    refine ⟨?_, by simp, ?_, rfl, ?_⟩
    · intro hbad
      exfalso
      obtain ⟨h1, h2, h3⟩ := hcan
      rcases hbad with h | h | h
      · rw [h1] at h; exact Bool.noConfusion h
      · exact h2 h
      · rw [h3] at h; exact Bool.noConfusion h
    · simp [opened_conn, canlogconnection.new]
    · intro h; simp at h
  · rw [hcl.2 hcan]
    refine ⟨fun _ => ⟨rfl, hc, hm⟩, by simp [hc], by simp [hm], rfl,
      fun _ => List.length_eq_zero.mpr hm⟩

/-- C10, witness: the constructed `sample_sink` is closed with an empty registry, its path can
be created in `sample_env`, and `Open()` returns true and leaves it open. -/
theorem C10_Open_file_sink_witness :
    sample_sink.tocanlog_vfs.registry_ok ∧
    (sample_sink.tocanlog_vfs.Open sample_env).1 = true ∧
    (sample_sink.tocanlog_vfs.Open sample_env).2.m_isopen = true :=
  have h := C10_Open_file_sink sample_env sample_sink.tocanlog_vfs (by decide)
  ⟨by decide, by decide, h.2.1.1 (by decide)⟩

/-- C8: take an open rotating sink on which `CycleLogfile()` is not skipped, and let `new`
be the name computed from the advanced split counter. If `new` differs from the current
path then afterwards the path is `new`, the message, drop and filter counters are zero, the
registry of the old file has been dropped, and the sink is open on `new`, its registry
holding just the Connection created for `new`, exactly when reopening succeeds (`new` is not
protected, not on an unavailable SD card, and can be created); otherwise it is closed with an
empty registry. If `new` equals the current path, then path, counters, open flag and registry
are unchanged. -/
theorem C8_CycleLogfile_swap (env : Env) (s : canlog_vfs_autonaming)
    (hopen : s.m_isopen = true)
    (hrun : s.m_keep_empty_files = true ∨ (s.GetFileSize ≠ 0 ∧ s.m_msgcount ≠ 0)) :
    let new := compute_log_file_name env
      { s with m_file_nb_splits := (s.m_file_nb_splits + 1) % UINT64_MOD }
    let s' := s.CycleLogfile env
    (new ≠ s.m_path →
      s'.m_path = new ∧ s'.m_msgcount = 0 ∧ s'.m_dropcount = 0 ∧ s'.m_filtercount = 0 ∧
      (s'.m_isopen = true ↔ can_open env new) ∧
      (can_open env new → s'.m_connmap = [(0, opened_conn env new)]) ∧
      (¬ can_open env new → s'.m_connmap = [])) ∧
    (new = s.m_path →
      s'.m_path = s.m_path ∧ s'.m_msgcount = s.m_msgcount ∧ s'.m_dropcount = s.m_dropcount ∧
      s'.m_filtercount = s.m_filtercount ∧ s'.m_isopen = s.m_isopen ∧
      s'.m_connmap = s.m_connmap) := by
  intro new s'
  have hskip : (!s.m_keep_empty_files && (s.GetFileSize == 0 || s.m_msgcount == 0)) = false := by
    rcases hrun with h | ⟨h1, h2⟩
    · simp [h]
    · simp [h1, h2]
  constructor
  · intro hne
    have hs' : s' = ((({ s with
        m_file_nb_splits := (s.m_file_nb_splits + 1) % UINT64_MOD,
        m_path := new, m_isopen := false, m_connmap := [], m_msgcount := 0,
        m_dropcount := 0, m_filtercount := 0 } : canlog_vfs_autonaming).Open env).2) := by
      show s.CycleLogfile env = _
      unfold canlog_vfs_autonaming.CycleLogfile
      rw [hskip]
      simp only [Bool.false_eq_true, if_false]
      rw [if_pos hne]
      simp [hopen, canlog_vfs.Close]
    rw [hs']
    unfold canlog_vfs_autonaming.Open
    have hcl := canlog_vfs.Open_closed env
      { m_path := new, m_isopen := false, m_connmap := [], m_msgcount := 0,
        m_dropcount := 0, m_filtercount := 0 } rfl rfl
    by_cases hcan : can_open env new
    · have h1 := hcl.1 hcan
      simp only [h1]
      simp [hcan]
    · have h1 := hcl.2 hcan
      simp only [h1]
      simp [hcan]
  · intro heq
    have hs' : s' = { s with m_file_nb_splits := (s.m_file_nb_splits + 1) % UINT64_MOD } := by
      show s.CycleLogfile env = _
      unfold canlog_vfs_autonaming.CycleLogfile
      rw [hskip]
      simp only [Bool.false_eq_true, if_false]
      rw [if_neg (by simpa using heq)]
    rw [hs']
    simp

/-- C8, witness: `logging_sink 1` is open and has logged one message; `CycleLogfile()` moves it
to the name of split 2, with zeroed counters, and reopens it. -/
theorem C8_CycleLogfile_swap_witness :
    (logging_sink 1).m_isopen = true ∧
    ((logging_sink 1).CycleLogfile sample_env).m_path =
      "/sd/log/OVMS/00000003/p/00000002-20240102-030405.crtd".toList ∧
    ((logging_sink 1).CycleLogfile sample_env).m_msgcount = 0 :=
  have h := C8_CycleLogfile_swap sample_env (logging_sink 1) (by decide)
    (Or.inr ⟨by decide, by decide⟩)
  ⟨by decide, by decide, (h.1 (by decide)).2.1⟩

/-! ## The loop of `replaceAll` -/

/-- The scan of `find` reports positions relative to the index it starts from. -/
theorem findFrom_shift (pat : Str) (s : Str) (i : Nat) :
    findFrom pat s i = (findFrom pat s 0).map (· + i) := by
  induction s generalizing i with
  | nil => unfold findFrom; split <;> simp
  | cons c cs ih =>
    unfold findFrom
    split
    · simp
    · rw [ih (i + 1), ih (0 + 1)]
      cases findFrom pat cs 0 with
      | none => rfl
      | some p => simp; omega

/-- Searching from the end of a processed part is searching the rest. -/
theorem find_append (pat done rest : Str) :
    find (done ++ rest) pat done.length = (findFrom pat rest 0).map (· + done.length) := by
  unfold find
  rw [if_pos (by simp), List.drop_left]
  exact findFrom_shift pat rest done.length

/-- A position reported by the scan is the start of an occurrence that fits in the string. -/
theorem findFrom_some (pat : Str) (s : Str) (p : Nat) (h : findFrom pat s 0 = some p) :
    p + pat.length ≤ s.length ∧ pat.isPrefixOf (s.drop p) = true := by
  induction s generalizing p with
  | nil =>
    unfold findFrom at h
    split at h
    · rename_i hp
      have : p = 0 := by simpa using h.symm
      subst this
      have hp' : pat = [] := by
        cases pat with
        | nil => rfl
        | cons a l => simp [List.isPrefixOf] at hp
      subst hp'
      simp
    · exact absurd h (by simp)
  | cons c cs ih =>
    unfold findFrom at h
    split at h
    · rename_i hp
      have : p = 0 := by simpa using h.symm
      subst this
      refine ⟨?_, by simpa using hp⟩
      have := List.IsPrefix.length_le (List.isPrefixOf_iff_prefix.mp hp)
      simpa using this
    · rw [findFrom_shift] at h
      cases hq : findFrom pat cs 0 with
      | none => rw [hq] at h; exact absurd h (by simp)
      | some q =>
        rw [hq] at h
        have hpq : p = q + 1 := by simpa using h.symm
        subst hpq
        obtain ⟨h1, h2⟩ := ih q hq
        exact ⟨by simp; omega, by simpa using h2⟩
theorem replaceAllLoop_append (pat rep : Str) (fuel : Nat) (done rest : Str) :
    replaceAllLoop pat rep fuel (done ++ rest) done.length =
      (replaceAllLoop pat rep fuel rest 0).map (done ++ ·) := by
  induction fuel generalizing done rest with
  | zero => simp [replaceAllLoop]
  | succ fuel ih =>
    have h0 : find rest pat 0 = findFrom pat rest 0 := by simp [find]
    unfold replaceAllLoop
    rw [find_append, h0]
    cases hq : findFrom pat rest 0 with
    | none => simp
    | some p =>
      obtain ⟨hb, _⟩ := findFrom_some pat rest p hq
      have hp : p ≤ rest.length := by omega
      simp only [Option.map_some']
      have e1 : replace (done ++ rest) (p + done.length) pat.length rep =
          (done ++ rest.take p ++ rep) ++ rest.drop (p + pat.length) := by
        unfold replace
        rw [show p + done.length = done.length + p by omega, List.take_append,
          show done.length + p + pat.length = done.length + (p + pat.length) by omega,
          List.drop_append]
      have e2 : p + done.length + rep.length = (done ++ rest.take p ++ rep).length := by
        simp [List.length_take, hp]; omega
      have e3 : replace rest p pat.length rep =
          (rest.take p ++ rep) ++ rest.drop (p + pat.length) := by
        unfold replace; simp
      have e4 : p + rep.length = (rest.take p ++ rep).length := by
        simp [List.length_take, hp]
      rw [e1, e2, ih, e3, e4, ih]
      cases replaceAllLoop pat rep fuel (List.drop (p + pat.length) rest) 0 <;> simp

/-- One character that does not start an occurrence is copied. -/
theorem replaceAllLoop_cons_ne (pat rep : Str) (fuel : Nat) (c : Char) (s : Str)
    (h : pat.isPrefixOf (c :: s) = false) :
    replaceAllLoop pat rep fuel (c :: s) 0 =
      (replaceAllLoop pat rep fuel s 0).map (c :: ·) := by
  have := replaceAllLoop_append pat rep fuel [c] s
  simp only [List.singleton_append, List.length_singleton] at this
  rw [← this]
  cases fuel with
  | zero => simp [replaceAllLoop]
  | succ fuel =>
    unfold replaceAllLoop
    have e1 : find (c :: s) pat 0 = find (c :: s) pat 1 := by
      unfold find
      simp only [Nat.zero_le, if_true, List.drop_zero, List.length_cons,
        Nat.le_add_left, List.drop_succ_cons]
      rw [findFrom, h]
      simp
    rw [e1]

/-- An occurrence at the front is replaced and the scan goes on behind it. -/
theorem replaceAllLoop_at_front (pat rep : Str) (fuel : Nat) (s : Str)
    (h : pat.isPrefixOf s = true) :
    replaceAllLoop pat rep (fuel + 1) s 0 =
      (replaceAllLoop pat rep fuel (s.drop pat.length) 0).map (rep ++ ·) := by
  have hf : find s pat 0 = some 0 := by
    unfold find
    simp only [Nat.zero_le, if_true, List.drop_zero]
    cases s with
    | nil => simp [findFrom, h]
    | cons c cs => simp [findFrom, h]
  rw [replaceAllLoop, hf]
  simp only
  have := replaceAllLoop_append pat rep fuel rep (s.drop pat.length)
  rw [← this]
  simp [replace]

/-- Fuel: with more units of fuel than characters the loop ends by itself, and its result does
not depend on the amount of fuel. -/
theorem replaceAllLoop_fuel (pat rep : Str) (hpat : pat ≠ []) :
    ∀ (n : Nat) (s : Str), s.length = n → ∀ g g', n ≤ g → n ≤ g' →
      ∃ r, replaceAllLoop pat rep (g + 1) s 0 = some r ∧
        replaceAllLoop pat rep (g' + 1) s 0 = some r := by
  intro n
  induction n using Nat.strong_induction_on with
  | _ n ih =>
    intro s hs g g' hg hg'
    by_cases hp : pat.isPrefixOf s = true
    · have hlen : pat.length ≤ s.length :=
        List.IsPrefix.length_le (List.isPrefixOf_iff_prefix.mp hp)
      have hpos : 0 < pat.length := List.length_pos.mpr hpat
      have hd : (s.drop pat.length).length < n := by simp; omega
      have hg1 : 1 ≤ g := by omega
      have hg1' : 1 ≤ g' := by omega
      obtain ⟨r, h1, h2⟩ := ih _ hd (s.drop pat.length) rfl (g - 1) (g' - 1)
        (by omega) (by omega)
      rw [Nat.sub_add_cancel hg1] at h1
      rw [Nat.sub_add_cancel hg1'] at h2
      exact ⟨rep ++ r, by rw [replaceAllLoop_at_front _ _ _ _ hp, h1]; rfl,
        by rw [replaceAllLoop_at_front _ _ _ _ hp, h2]; rfl⟩
    · have hp' : pat.isPrefixOf s = false := by
        cases hb : pat.isPrefixOf s with
        | false => rfl
        | true => exact absurd hb hp
      cases s with
      | nil =>
        refine ⟨[], ?_, ?_⟩ <;> simp [replaceAllLoop, find, findFrom, hp']
      | cons c cs =>
        have hd : cs.length < n := by simp at hs; omega
        have m1 := replaceAllLoop_cons_ne pat rep (g + 1) c cs hp'
        have m2 := replaceAllLoop_cons_ne pat rep (g' + 1) c cs hp'
        obtain ⟨r1, q1, q2⟩ := ih _ hd cs rfl g g' (by omega) (by omega)
        exact ⟨c :: r1, by rw [m1, q1]; rfl, by rw [m2, q2]; rfl⟩

/-- The function `replaceAll` is the result of its loop, for any sufficient amount of fuel. -/
theorem replaceAll_eq_loop (pat rep : Str) (hpat : pat ≠ []) (s : Str) (f : Nat)
    (hf : s.length < f) :
    replaceAllLoop pat rep f s 0 = some (replaceAll s pat rep) := by
  obtain ⟨r, h1, h2⟩ := replaceAllLoop_fuel pat rep hpat _ s rfl (f - 1) s.length
    (by omega) (le_refl _)
  rw [Nat.sub_add_cancel (by omega)] at h1
  unfold replaceAll
  have : pat.isEmpty = false := by cases pat <;> simp_all
  rw [this, h2, h1]
  simp

theorem replaceAll_nil (pat rep : Str) : replaceAll [] pat rep = [] := by
  unfold replaceAll
  cases pat with
  | nil => simp
  | cons a l => simp [replaceAllLoop, find, findFrom]

theorem replaceAll_cons_ne (pat rep : Str) (c : Char) (s : Str)
    (h : pat.isPrefixOf (c :: s) = false) :
    replaceAll (c :: s) pat rep = c :: replaceAll s pat rep := by
  have hpat : pat ≠ [] := by rintro rfl; simp at h
  have h1 := replaceAll_eq_loop pat rep hpat (c :: s) (s.length + 2) (by simp)
  have h2 := replaceAll_eq_loop pat rep hpat s (s.length + 2) (by omega)
  rw [replaceAllLoop_cons_ne _ _ _ _ _ h, h2] at h1
  simpa using h1.symm

theorem replaceAll_at_front (pat rep : Str) (hpat : pat ≠ []) (s : Str)
    (h : pat.isPrefixOf s = true) :
    replaceAll s pat rep = rep ++ replaceAll (s.drop pat.length) pat rep := by
  have h1 := replaceAll_eq_loop pat rep hpat s (s.length + 1) (by omega)
  have h2 := replaceAll_eq_loop pat rep hpat (s.drop pat.length) s.length (by
    have hlen : pat.length ≤ s.length :=
      List.IsPrefix.length_le (List.isPrefixOf_iff_prefix.mp h)
    have hpos : 0 < pat.length := List.length_pos.mpr hpat
    simp; omega)
  rw [replaceAllLoop_at_front _ _ _ _ h, h2] at h1
  simpa using h1.symm

/-- A stretch of text without the first character of the pattern is copied. -/
theorem replaceAll_skip (h : Char) (pt rep a b : Str) (ha : h ∉ a) :
    replaceAll (a ++ b) (h :: pt) rep = a ++ replaceAll b (h :: pt) rep := by
  induction a with
  | nil => rfl
  | cons c cs ih =>
    have hc : h ≠ c := fun e => ha (by simp [e])
    have hcs : h ∉ cs := fun e => ha (by simp [e])
    rw [List.cons_append, replaceAll_cons_ne _ _ _ _ (by simp [List.isPrefixOf, hc]), ih hcs]
    rfl
/-! ## The collapsing loop -/

/-- The collapsing loop, started behind the character `prev`, yields `dedupFrom prev` of the
rest when it has one unit of fuel per remaining character. -/
theorem collapseLoop_spec (fuel : Nat) (init : Str) (prev : Char) (rest : Str)
    (h : rest.length ≤ fuel) :
    collapseLoop fuel (init ++ prev :: rest) (init.length + 1) =
      some (init ++ prev :: dedupFrom prev rest) := by
  induction fuel generalizing init prev rest with
  | zero =>
    have hr : rest = [] := List.length_eq_zero.mp (Nat.le_zero.mp h)
    subst hr
    simp [collapseLoop, dedupFrom]
  | succ fuel ih =>
    cases rest with
    | nil => simp [collapseLoop, dedupFrom]
    | cons c cs =>
      have hlen : cs.length ≤ fuel := by simpa using h
      unfold collapseLoop
      rw [if_pos (by simp)]
      have e1 : (init ++ prev :: c :: cs)[init.length + 1 - 1]? = some prev := by
        show (init ++ prev :: c :: cs)[init.length]? = some prev
        rw [List.getElem?_append_right (le_refl _)]
        simp
      have e2 : (init ++ prev :: c :: cs)[init.length + 1]? = some c := by
        rw [List.getElem?_append_right (by omega)]
        simp
      rw [e1, e2]
      by_cases hc : prev = c ∧ (c = '/' ∨ c = '.')
      · have hc' : some prev = some c ∧ (some c = some '/' ∨ some c = some '.') := by
          simpa using hc
        rw [if_pos hc']
        have e3 : erase1 (init ++ prev :: c :: cs) (init.length + 1) = init ++ prev :: cs := by
          unfold erase1
          rw [List.take_append, show init.length + 1 + 1 = init.length + 2 by omega,
            List.drop_append]
          simp
        rw [e3, ih init prev cs hlen]
        simp [dedupFrom, hc]
      · have hc' : ¬ (some prev = some c ∧ (some c = some '/' ∨ some c = some '.')) := by
          simpa using hc
        rw [if_neg hc']
        have := ih (init ++ [prev]) c cs hlen
        simp only [List.append_assoc, List.singleton_append, List.length_append,
          List.length_singleton] at this
        rw [this]
        simp [dedupFrom, hc]

/-- The collapsed form of a non-empty path. -/
theorem collapse_cons (c : Char) (cs : Str) : collapse (c :: cs) = c :: dedupFrom c cs := by
  unfold collapse
  have := collapseLoop_spec (c :: cs).length [] c cs (by simp)
  simp only [List.nil_append, List.length_nil, Nat.zero_add] at this
  rw [this]
  rfl

/-- A character other than `/` and `.` is kept, and what follows is treated behind it. -/
theorem dedupFrom_append_cons (prev : Char) (a : Str) (c : Char) (b : Str)
    (hc : c ≠ '/' ∧ c ≠ '.') :
    dedupFrom prev (a ++ c :: b) = dedupFrom prev a ++ c :: dedupFrom c b := by
  induction a generalizing prev with
  | nil => simp [dedupFrom, hc.1, hc.2]
  | cons x xs ih =>
    have e1 : dedupFrom prev (x :: xs ++ c :: b) =
        if prev = x ∧ (x = '/' ∨ x = '.') then dedupFrom prev (xs ++ c :: b)
        else x :: dedupFrom x (xs ++ c :: b) := rfl
    have e2 : dedupFrom prev (x :: xs) =
        if prev = x ∧ (x = '/' ∨ x = '.') then dedupFrom prev xs
        else x :: dedupFrom x xs := rfl
    rw [e1, e2]
    split
    · exact ih prev
    · rw [ih x]; rfl

/-- A stretch of characters other than `/` and `.` is kept as it is. -/
theorem dedupFrom_plain (d : Str) (hd : ∀ c ∈ d, c ≠ '/' ∧ c ≠ '.') (prev : Char) (z : Str) :
    ∃ z', dedupFrom prev (d ++ z) = d ++ z' := by
  induction d generalizing prev with
  | nil => exact ⟨_, rfl⟩
  | cons x xs ih =>
    have hx := hd x (by simp)
    obtain ⟨z', hz⟩ := ih (fun c hc => hd c (by simp [hc])) x
    refine ⟨z', ?_⟩
    have e1 : dedupFrom prev (x :: xs ++ z) =
        if prev = x ∧ (x = '/' ∨ x = '.') then dedupFrom prev (xs ++ z)
        else x :: dedupFrom x (xs ++ z) := rfl
    rw [e1, if_neg (by rintro ⟨_, h | h⟩ <;> simp_all), hz]
    rfl

/-- Collapsing a path in which a stretch `d` without `/` and `.` follows a non-empty head:
the stretch survives, behind a part that depends on the head only. -/
theorem collapse_head_plain (a : Str) (ha : a ≠ []) (d : Str) (hd : ∀ c ∈ d, c ≠ '/' ∧ c ≠ '.')
    (hne : d ≠ []) (z : Str) :
    ∃ z', collapse (a ++ d ++ z) = collapse a ++ d ++ z' := by
  obtain ⟨a0, as, rfl⟩ := List.exists_cons_of_ne_nil ha
  obtain ⟨c, ds, rfl⟩ := List.exists_cons_of_ne_nil hne
  have hc := hd c (by simp)
  obtain ⟨z', hz⟩ := dedupFrom_plain ds (fun x hx => hd x (by simp [hx])) c z
  refine ⟨z', ?_⟩
  simp only [List.cons_append, List.append_assoc, collapse_cons]
  rw [dedupFrom_append_cons _ _ _ _ hc, hz]
/-! ## Decimal fields -/

/-- The digits that `Nat.toDigitsCore` produces are put in front of its accumulator. -/
theorem toDigitsCore_acc (b : Nat) (f n : Nat) (ds : List Char) :
    Nat.toDigitsCore b f n ds = Nat.toDigitsCore b f n [] ++ ds := by
  induction f generalizing n ds with
  | zero => simp [Nat.toDigitsCore]
  | succ f ih =>
    unfold Nat.toDigitsCore
    simp only
    split
    · simp
    · rw [ih (n / b) (Nat.digitChar (n % b) :: ds), ih (n / b) [Nat.digitChar (n % b)]]
      simp

/-- The decimal representation ends with the digit of the units. -/
theorem toDigits_units (n : Nat) :
    ∃ pre, Nat.toDigits 10 n = pre ++ [Nat.digitChar (n % 10)] := by
  unfold Nat.toDigits Nat.toDigitsCore
  simp only
  split
  · exact ⟨[], rfl⟩
  · exact ⟨_, toDigitsCore_acc 10 n (n / 10) [Nat.digitChar (n % 10)]⟩

/-- A decimal digit is a digit character. -/
theorem digitChar_isDigit (k : Nat) (hk : k < 10) : (Nat.digitChar k).isDigit = true := by
  interval_cases k <;> decide

/-- The decimal representation consists of digit characters. -/
theorem toDigitsCore_isDigit (f n : Nat) (ds : List Char) (hds : ∀ c ∈ ds, c.isDigit = true) :
    ∀ c ∈ Nat.toDigitsCore 10 f n ds, c.isDigit = true := by
  induction f generalizing n ds with
  | zero => simpa [Nat.toDigitsCore] using hds
  | succ f ih =>
    have hd : (Nat.digitChar (n % 10)).isDigit = true :=
      digitChar_isDigit _ (Nat.mod_lt _ (by norm_num))
    have hds' : ∀ c ∈ Nat.digitChar (n % 10) :: ds, c.isDigit = true := by
      intro c hc
      rcases List.mem_cons.mp hc with h | h
      · rw [h]; exact hd
      · exact hds c h
    unfold Nat.toDigitsCore
    simp only
    split
    · exact hds'
    · exact ih _ _ hds'

/-- Every character of a `%08lld` field is a digit or the minus sign. -/
theorem fmt_08lld_chars (x : Int) : ∀ c ∈ fmt_08lld x, c.isDigit = true ∨ c = '-' := by
  intro c hc
  have hdig : ∀ (m : Nat) (k : Nat), ∀ c ∈ List.leftpad k '0' (Nat.toDigits 10 m),
      c.isDigit = true := by
    intro m k c hc
    unfold List.leftpad at hc
    rcases List.mem_append.mp hc with h | h
    · rw [(List.mem_replicate.mp h).2]; decide
    · exact toDigitsCore_isDigit _ _ [] (by simp) c h
  unfold fmt_08lld at hc
  split at hc
  · rcases List.mem_cons.mp hc with h | h
    · exact Or.inr h
    · exact Or.inl (hdig _ _ c h)
  · exact Or.inl (hdig _ _ c hc)

/-- Every character stored by `snprintf_08lld` is a digit or the minus sign. -/
theorem snprintf_08lld_chars (v : Nat) :
    ∀ c ∈ snprintf_08lld v, c.isDigit = true ∨ c = '-' := by
  intro c hc
  unfold snprintf_08lld at hc
  exact fmt_08lld_chars _ c (List.mem_of_mem_take hc)

/-- Below 10^8 a counter field is the counter in 8 zero-padded digits. -/
theorem snprintf_08lld_zero_padded (n : Nat) (hn : n < 10 ^ 8) :
    snprintf_08lld n = zero_padded8 n := by
  have hlen : (Nat.toDigits 10 n).length ≤ 8 :=
    Nat.toDigitsCore_length 10 (by norm_num) (n + 1) n 8 hn (by norm_num)
  have hu : n % UINT64_MOD = n := Nat.mod_eq_of_lt (by unfold UINT64_MOD; omega)
  have hx : (if n < 2 ^ 63 then (n : Int) else (n : Int) - 2 ^ 64) = (n : Int) :=
    if_pos (by omega)
  have hf : fmt_08lld (n : Int) = List.leftpad 8 '0' (Nat.toDigits 10 n) := by
    unfold fmt_08lld
    rw [if_neg (by omega)]
    rfl
  show List.take 8 (fmt_08lld (if n % UINT64_MOD < 2 ^ 63 then ((n % UINT64_MOD : Nat) : Int)
    else ((n % UINT64_MOD : Nat) : Int) - 2 ^ 64)) = _
  rw [hu, hx, hf]
  apply List.take_of_length_le
  rw [List.leftpad_length]
  omega

/-- Below 10^8 the field is exactly 8 characters long and ends with the digit of the units. -/
theorem snprintf_08lld_small (n : Nat) (hn : n < 10 ^ 8) :
    ∃ pre, snprintf_08lld n = pre ++ [Nat.digitChar (n % 10)] ∧ pre.length = 7 := by
  obtain ⟨pre, hpre⟩ := toDigits_units n
  have hlen : (Nat.toDigits 10 n).length ≤ 8 :=
    Nat.toDigitsCore_length 10 (by norm_num) (n + 1) n 8 hn (by norm_num)
  rw [snprintf_08lld_zero_padded n hn, zero_padded8, hpre]
  refine ⟨List.replicate (8 - (pre ++ [Nat.digitChar (n % 10)]).length) '0' ++ pre, ?_, ?_⟩
  · unfold List.leftpad
    simp
  · rw [hpre] at hlen
    simp at hlen ⊢
    omega

/-- Consecutive counters below 10^8 give different fields. -/
theorem snprintf_08lld_succ_ne (n : Nat) (hn : n + 1 < 10 ^ 8) :
    snprintf_08lld (n + 1) ≠ snprintf_08lld n := by
  obtain ⟨p1, h1, l1⟩ := snprintf_08lld_small (n + 1) hn
  obtain ⟨p0, h0, l0⟩ := snprintf_08lld_small n (by omega)
  intro h
  rw [h1, h0] at h
  have h2 := (List.append_inj h (by omega)).2
  have h3 : Nat.digitChar ((n + 1) % 10) = Nat.digitChar (n % 10) := by simpa using h2
  have hk : n % 10 < 10 := Nat.mod_lt _ (by norm_num)
  have hs : (n + 1) % 10 = (n % 10 + 1) % 10 := by omega
  rw [hs] at h3
  revert h3
  generalize n % 10 = k at hk
  interval_cases k <;> decide

/-- A counter field is always exactly 8 characters long. -/
theorem snprintf_08lld_length (v : Nat) : (snprintf_08lld v).length = 8 := by
  have h : ∀ x : Int, 8 ≤ (fmt_08lld x).length := by
    intro x
    unfold fmt_08lld
    split
    · rw [List.length_cons, List.leftpad_length]; omega
    · rw [List.leftpad_length]; omega
  unfold snprintf_08lld
  rw [List.length_take]
  exact Nat.min_eq_left (h _)
/-! ## The default naming pattern -/

/-- Comparison of the first characters of a pattern and a text. -/
theorem isPrefixOf_cons_cons (a b : Char) (as bs : Str) :
    List.isPrefixOf (a :: as) (b :: bs) = (a == b && List.isPrefixOf as bs) := rfl

/-- The map `New_Map` in iteration order: the keys in ascending byte order. -/
theorem New_Map_eq (env : Env) (s : canlog_vfs_autonaming) :
    New_Map env s =
      [("\x7bextension\x7d".toList, env.preferred_file_extension),
       ("\x7bprefix\x7d".toList, canlog_vfs_autonaming.m_prefix s),
       ("\x7bsession\x7d".toList, snprintf_08lld env.GetRestartCount),
       ("\x7bsplits\x7d".toList, snprintf_08lld s.m_file_nb_splits),
       ("\x7bvehicleid\x7d".toList, env.GetParamValue "vehicle" "id" "OVMS".toList)] := by
  rfl

/-- A counter field holds neither a brace nor a percent sign, a slash or a dot. -/
theorem snprintf_08lld_plain (v : Nat) (c : Char) (hc : c ∈ snprintf_08lld v) :
    c ≠ '\x7b' ∧ c ≠ '%' ∧ c ≠ '/' ∧ c ≠ '.' := by
  rcases snprintf_08lld_chars v c hc with h | h
  · refine ⟨?_, ?_, ?_, ?_⟩ <;> (rintro rfl; revert h; decide)
  · subst h; decide

theorem isPrefixOf_append_sep (pat a b : Str) (sep : Char) (hs : sep ∉ pat) :
    pat.isPrefixOf (a ++ sep :: b) = pat.isPrefixOf a := by
  induction pat generalizing a with
  | nil => simp
  | cons p ps ih =>
    have hp : p ≠ sep := fun e => hs (by simp [e])
    have hps : sep ∉ ps := fun e => hs (by simp [e])
    cases a with
    | nil => simp [List.isPrefixOf, hp]
    | cons x xs =>
      rw [List.cons_append, isPrefixOf_cons_cons, isPrefixOf_cons_cons, ih xs hps]

/-- A character that is not in the pattern separates the text: the occurrences are replaced
on each side of it. -/
theorem replaceAll_sep (pat rep : Str) (hpat : pat ≠ []) (sep : Char) (hs : sep ∉ pat)
    (b : Str) (a : Str) :
    replaceAll (a ++ sep :: b) pat rep
      = replaceAll a pat rep ++ sep :: replaceAll b pat rep := by
  obtain ⟨n, h⟩ : ∃ n, a.length = n := ⟨_, rfl⟩
  induction n using Nat.strong_induction_on generalizing a with
  | _ n ih =>
    cases a with
    | nil =>
      have h0 : pat.isPrefixOf (sep :: b) = false := by
        have := isPrefixOf_append_sep pat [] b sep hs
        rw [List.nil_append] at this
        rw [this]
        cases pat with
        | nil => exact absurd rfl hpat
        | cons p ps => rfl
      rw [List.nil_append, replaceAll_cons_ne _ _ _ _ h0, replaceAll_nil]
      rfl
    | cons c cs =>
      cases hp : pat.isPrefixOf (c :: cs) with
      | true =>
        have hp2 : pat.isPrefixOf (c :: cs ++ sep :: b) = true := by
          rw [isPrefixOf_append_sep _ _ _ _ hs]; exact hp
        have hle : pat.length ≤ (c :: cs).length :=
          List.IsPrefix.length_le (List.isPrefixOf_iff_prefix.mp hp)
        have hpos : 0 < pat.length := List.length_pos.mpr hpat
        rw [replaceAll_at_front _ _ hpat _ hp2, replaceAll_at_front _ _ hpat _ hp,
          List.drop_append_of_le_length hle,
          ih _ (by rw [← h, List.length_drop]; simp; omega) _ rfl, List.append_assoc]
      | false =>
        have hp2 : pat.isPrefixOf (c :: cs ++ sep :: b) = false := by
          rw [isPrefixOf_append_sep _ _ _ _ hs]; exact hp
        rw [replaceAll_cons_ne _ _ _ _ hp]
        rw [List.cons_append] at hp2 ⊢
        rw [replaceAll_cons_ne _ _ _ _ hp2, ih cs.length (by rw [← h]; simp) cs rfl]
        rfl

/-- The five substitutions on the default pattern, whatever the vehicle id, the prefix and the
extension hold: the path is a head (the directory `/sd/log`, the vehicle id, the restart field
and the prefix), a slash, the split field and `name_tail`. -/
theorem default_pattern_split (env : Env) (s : canlog_vfs_autonaming)
    (hpat : s.m_file_name_pattern = default_pattern) :
    ∃ head, compute_log_file_name_patterns env s =
      head ++ '/' :: (snprintf_08lld s.m_file_nb_splits ++ name_tail env s) := by
  unfold compute_log_file_name_patterns name_tail
  rw [New_Map_eq, hpat]
  have hS : '\x7b' ∉ snprintf_08lld env.GetRestartCount :=
    fun h => (snprintf_08lld_plain _ _ h).1 rfl
  have hd : '\x7b' ∉ snprintf_08lld s.m_file_nb_splits :=
    fun h => (snprintf_08lld_plain _ _ h).1 rfl
  generalize env.preferred_file_extension = E
  generalize canlog_vfs_autonaming.m_prefix s = X
  generalize snprintf_08lld env.GetRestartCount = S at hS ⊢
  generalize snprintf_08lld s.m_file_nb_splits = d at hd ⊢
  generalize env.GetParamValue "vehicle" "id" "OVMS".toList = V
  have sep1 := replaceAll_sep "\x7bsession\x7d".toList S (by decide) '/' (by decide)
  have sep2 := replaceAll_sep "\x7bsplits\x7d".toList d (by decide) '/' (by decide)
  have sep3 := replaceAll_sep "\x7bvehicleid\x7d".toList V (by decide) '/' (by decide)
  refine ⟨"/sd/log/".toList ++ V ++ '/' :: (S ++ '/' ::
    replaceAll (replaceAll (replaceAll X "\x7bsession\x7d".toList S)
      "\x7bsplits\x7d".toList d) "\x7bvehicleid\x7d".toList V), ?_⟩
  simp [default_pattern, replaceAll_cons_ne, replaceAll_at_front, replaceAll_nil,
    isPrefixOf_cons_cons, replaceAll_skip _ _ _ _ _ hS,
    replaceAll_skip _ _ _ _ _ hd] at sep1 sep2 sep3 ⊢
  simp [sep1, sep2, sep3, replaceAll_cons_ne, replaceAll_at_front, replaceAll_nil,
    isPrefixOf_cons_cons, replaceAll_skip _ _ _ _ _ hS, replaceAll_skip _ _ _ _ _ hd]
/-! ## Rotation of the active path -/

/-- The method `canlog_vfs::Open()` never touches the path. -/
theorem canlog_vfs.Open_path (env : Env) (s : canlog_vfs) : (s.Open env).2.m_path = s.m_path := by
  unfold canlog_vfs.Open
  cases s.m_isopen <;> simp only [Bool.false_eq_true, if_false, if_true] <;>
    (repeat' split) <;> rfl

/-- A `CycleLogfile()` that is not skipped advances the split counter and leaves the sink on
the name computed from the advanced counter. -/
theorem canlog_vfs_autonaming.CycleLogfile_run (env : Env) (s : canlog_vfs_autonaming)
    (hrun : s.m_keep_empty_files = true ∨ (s.GetFileSize ≠ 0 ∧ s.m_msgcount ≠ 0)) :
    (s.CycleLogfile env).m_path = compute_log_file_name env
      { s with m_file_nb_splits := (s.m_file_nb_splits + 1) % UINT64_MOD } ∧
    (s.CycleLogfile env).m_file_nb_splits = (s.m_file_nb_splits + 1) % UINT64_MOD := by
  have hskip : (!s.m_keep_empty_files && (s.GetFileSize == 0 || s.m_msgcount == 0)) = false := by
    rcases hrun with h | ⟨h1, h2⟩
    · simp [h]
    · simp [h1, h2]
  unfold canlog_vfs_autonaming.CycleLogfile
  rw [hskip]
  simp only [Bool.false_eq_true, if_false]
  split
  · cases s.m_isopen
    · simp
    · simp [canlog_vfs_autonaming.Open, canlog_vfs.Open_path]
  · rename_i h
    simp only [ne_eq, not_not] at h
    exact ⟨h.symm, rfl⟩

/-- The stand-in `sample_strftime` has the two properties of a time expansion. -/
theorem sample_strftime_expansion : time_expansion sample_strftime := by
  have hC : ∀ (c : Char) (b : Str), c ≠ '%' →
      sample_strftime (c :: b) = c :: sample_strftime b := by
    intro c b hc
    rw [sample_strftime]
    all_goals (intro r' h; exact absurd h hc)
  refine ⟨hC, ?_⟩
  intro a b
  induction a using sample_strftime.induct with
  | case1 r ih => simp [sample_strftime, ih]
  | case2 r ih => simp [sample_strftime, ih]
  | case3 r ih => simp [sample_strftime, ih]
  | case4 r ih => simp [sample_strftime, ih]
  | case5 r ih => simp [sample_strftime, ih]
  | case6 r ih => simp [sample_strftime, ih]
  | case7 c r h1 h2 h3 h4 h5 h6 ih =>
    have key : ∀ y : Char, y ≠ '/' → (∀ r', c = '%' → r = y :: r' → False) →
        ∀ r', c = '%' → r ++ '/' :: b = y :: r' → False := by
      intro y hy hk r' hc h
      cases r with
      | nil =>
        simp only [List.nil_append, List.cons.injEq] at h
        exact hy h.1.symm
      | cons x xs =>
        simp only [List.cons_append, List.cons.injEq] at h
        exact hk xs hc (by rw [h.1])
    have e1 : sample_strftime (c :: (r ++ '/' :: b))
        = c :: sample_strftime (r ++ '/' :: b) := by
      rw [sample_strftime]
      · exact key 'Y' (by decide) h1
      · exact key 'm' (by decide) h2
      · exact key 'd' (by decide) h3
      · exact key 'H' (by decide) h4
      · exact key 'M' (by decide) h5
      · exact key 'S' (by decide) h6
    have e2 : sample_strftime (c :: r) = c :: sample_strftime r := by
      rw [sample_strftime]
      all_goals assumption
    rw [List.cons_append, e1, e2, ih]
    rfl
  | case8 => simp [sample_strftime, hC]

/-- A time expansion copies a leading stretch of text without `%`. -/
theorem time_expansion_plain (ex : Str → Str) (hex : time_expansion ex) (d t : Str)
    (hd : ∀ c ∈ d, c ≠ '%') : ex (d ++ t) = d ++ ex t := by
  induction d with
  | nil => rfl
  | cons c cs ih =>
    rw [List.cons_append, hex.1 c _ (hd c (by simp)), ih (fun x hx => hd x (by simp [hx]))]
    rfl

theorem dedupFrom_mem (prev : Char) (s : Str) : ∀ x ∈ dedupFrom prev s, x ∈ s := by
  induction s generalizing prev with
  | nil => intro x hx; simp [dedupFrom] at hx
  | cons c cs ih =>
    intro x hx
    have e : dedupFrom prev (c :: cs) =
        if prev = c ∧ (c = '/' ∨ c = '.') then dedupFrom prev cs
        else c :: dedupFrom c cs := rfl
    rw [e] at hx
    split at hx
    · exact List.mem_cons_of_mem _ (ih prev x hx)
    · rcases List.mem_cons.1 hx with h | h
      · rw [h]; exact List.mem_cons_self _ _
      · exact List.mem_cons_of_mem _ (ih c x h)

/-- What the collapsing loop leaves of a text that ends with a slash, together with the
character in front of it, ends with a slash. -/
theorem dedupFrom_ends_slash (t : Str) :
    ∀ prev : Char, ∃ w, prev :: dedupFrom prev (t ++ ['/']) = w ++ ['/'] := by
  induction t with
  | nil =>
    intro prev
    by_cases hp : prev = '/'
    · exact ⟨[], by simp [dedupFrom, hp]⟩
    · exact ⟨[prev], by simp [dedupFrom, hp]⟩
  | cons c cs ih =>
    intro prev
    have e : dedupFrom prev (c :: cs ++ ['/']) =
        if prev = c ∧ (c = '/' ∨ c = '.') then dedupFrom prev (cs ++ ['/'])
        else c :: dedupFrom c (cs ++ ['/']) := rfl
    rw [e]
    split
    · exact ih prev
    · obtain ⟨w, hw⟩ := ih c
      exact ⟨prev :: w, by rw [hw]; rfl⟩

/-- Collapsing a path in which a stretch `d` without `/` and `.` follows a slash and is
followed by text without a slash: the collapsed path ends with a slash, the stretch `d` and
text without a slash. -/
theorem collapse_last_component (a d r : Str) (hd : ∀ c ∈ d, c ≠ '/' ∧ c ≠ '.')
    (hne : d ≠ []) (hr : '/' ∉ r) :
    ∃ w r', collapse (a ++ '/' :: (d ++ r)) = w ++ '/' :: (d ++ r') ∧ '/' ∉ r' := by
  obtain ⟨c, ds, rfl⟩ := List.exists_cons_of_ne_nil hne
  have hc := hd c (by simp)
  obtain ⟨z', hz⟩ := dedupFrom_plain ds (fun x hx => hd x (by simp [hx])) c r
  have hz' : '/' ∉ z' := by
    intro h
    have hm := dedupFrom_mem c (ds ++ r) '/' (by rw [hz]; simp [h])
    rcases List.mem_append.1 hm with h1 | h1
    · exact (hd '/' (by simp [h1])).1 rfl
    · exact hr h1
  have hw : ∃ w, collapse (a ++ ['/']) = w ++ ['/'] := by
    cases a with
    | nil => exact ⟨[], by decide⟩
    | cons a0 t =>
      rw [List.cons_append, collapse_cons]
      exact dedupFrom_ends_slash t a0
  obtain ⟨w, hw⟩ := hw
  refine ⟨w, z', ?_, hz'⟩
  obtain ⟨y, hy⟩ := collapse_head_plain (a ++ ['/']) (by simp) (c :: ds) hd (by simp) r
  have e1 : a ++ '/' :: (c :: ds ++ r) = a ++ ['/'] ++ (c :: ds) ++ r := by simp
  rw [e1]
  have e2 : a ++ ['/'] ++ (c :: ds) ++ r = (a ++ ['/']) ++ c :: (ds ++ r) := by simp
  rw [e2]
  cases hA : a ++ ['/'] with
  | nil => simp at hA
  | cons a0 t =>
    rw [hA] at hw
    rw [List.cons_append, collapse_cons, dedupFrom_append_cons _ _ _ _ hc, hz]
    rw [collapse_cons] at hw
    have : a0 :: (dedupFrom a0 t ++ c :: (ds ++ z')) = (a0 :: dedupFrom a0 t) ++ c :: (ds ++ z') :=
      rfl
    rw [this, hw]
    simp

/-- The text behind the last slash of a path is determined by the path. -/
theorem last_component_unique (w w' p p' : Str) (h : w ++ '/' :: p = w' ++ '/' :: p')
    (hp : '/' ∉ p) (hp' : '/' ∉ p') : p = p' := by
  rcases List.append_eq_append_iff.1 h with ⟨a, -, h2⟩ | ⟨a, -, h2⟩
  · cases a with
    | nil => simpa using h2
    | cons x xs =>
      exfalso
      apply hp
      have h3 : p = xs ++ '/' :: p' := by
        simp only [List.cons_append, List.cons.injEq] at h2
        exact h2.2
      rw [h3]
      simp
  · cases a with
    | nil => simpa using h2.symm
    | cons x xs =>
      exfalso
      apply hp'
      have h3 : p' = xs ++ '/' :: p := by
        simp only [List.cons_append, List.cons.injEq] at h2
        exact h2.2
      rw [h3]
      simp

/-- With the default pattern, when `strftime` returns the expansion of the name and what stands
behind the split field expands without a slash, the text behind the last slash of the computed
name begins with the split field. -/
theorem default_pattern_name (env : Env) (PATH_MAX : Nat) (ex : Str → Str)
    (s : canlog_vfs_autonaming)
    (hpat : s.m_file_name_pattern = default_pattern)
    (hex : strftime_within PATH_MAX ex env.strftime)
    (hfit : (ex (compute_log_file_name_patterns env s)).length < PATH_MAX)
    (htail : '/' ∉ ex (name_tail env s)) :
    ∃ w r, compute_log_file_name env s = w ++ '/' :: (snprintf_08lld s.m_file_nb_splits ++ r) ∧
      '/' ∉ r := by
  obtain ⟨head, hh⟩ := default_pattern_split env s hpat
  have hd := fun c hc => snprintf_08lld_plain s.m_file_nb_splits c hc
  have hdne : snprintf_08lld s.m_file_nb_splits ≠ [] := by
    intro h
    have := snprintf_08lld_length s.m_file_nb_splits
    rw [h] at this
    exact absurd this (by decide)
  unfold compute_log_file_name
  rw [hex.2 _ hfit, hh, hex.1.2, time_expansion_plain ex hex.1 _ _ (fun c hc => (hd c hc).2.1)]
  exact collapse_last_component _ _ _ (fun c hc => ⟨(hd c hc).2.2.1, (hd c hc).2.2.2⟩) hdne htail

/-- C5, as stated, fails: `logging_sink 100000000` is open, has keep-empty-files off and the
default pattern, has logged one message into a file of 10 bytes, and its path is the name
computed for its split counter 100000000. The rotate-now event advances the counter to
100000001 and recomputes the name, but the `{splits}` field keeps only the first 8
characters, `10000000` for both counters, so the active path is the same as before. -/
theorem C5_same_name_after_rotation :
    (logging_sink 100000000).m_keep_empty_files = false ∧
    (logging_sink 100000000).m_file_name_pattern = default_pattern ∧
    (logging_sink 100000000).m_isopen = true ∧
    (logging_sink 100000000).m_msgcount = 1 ∧
    (logging_sink 100000000).GetFileSize = 10 ∧
    (logging_sink 100000000).m_path =
      compute_log_file_name sample_env (logging_sink 100000000) ∧
    (logging_sink 100000000).m_path =
      "/sd/log/OVMS/00000003/p/10000000-20240102-030405.crtd".toList ∧
    ((logging_sink 100000000).EventHandler sample_env "can.log.rotatefiles" none).m_file_nb_splits
      = 100000001 ∧
    ((logging_sink 100000000).EventHandler sample_env "can.log.rotatefiles" none).m_path =
      (logging_sink 100000000).m_path := by
  decide

/-- C5, amended: take a rotating sink with the default naming pattern (keep-empty-files off,
or on) that has logged at least one message into a file of non-zero size, and whose active
path is the name computed for its current split counter, in an earlier environment `env0`.
If the advanced split counter is below 10^8, the rotate-now event advances the split counter
by one and changes the active path to the name computed from it, which differs from the
previous one, whatever the vehicle id, the prefix and the extension hold. The environment is
taken as the code meets it: for both names `strftime` returns the time expansion, which fits
its buffer of `PATH_MAX` bytes, and what stands behind the split field (the time stamp and the
extension) expands without a `/`, so that the split field opens the file name proper. -/
theorem C5_rotate_now_changes_path (env0 env : Env) (PATH_MAX : Nat) (ex0 ex : Str → Str)
    (s : canlog_vfs_autonaming) (data : Option String)
    (hpat : s.m_file_name_pattern = default_pattern)
    (hmsg : 1 ≤ s.m_msgcount) (hsize : 0 < s.GetFileSize)
    (hprev : s.m_path = compute_log_file_name env0 s)
    (hsplits : s.m_file_nb_splits + 1 < 10 ^ 8)
    (hex0 : strftime_within PATH_MAX ex0 env0.strftime)
    (hfit0 : (ex0 (compute_log_file_name_patterns env0 s)).length < PATH_MAX)
    (htail0 : '/' ∉ ex0 (name_tail env0 s))
    (hex : strftime_within PATH_MAX ex env.strftime)
    (hfit : (ex (compute_log_file_name_patterns env
      { s with m_file_nb_splits := s.m_file_nb_splits + 1 })).length < PATH_MAX)
    (htail : '/' ∉ ex (name_tail env { s with m_file_nb_splits := s.m_file_nb_splits + 1 })) :
    (s.EventHandler env "can.log.rotatefiles" data).m_path ≠ s.m_path ∧
    (s.EventHandler env "can.log.rotatefiles" data).m_path =
      compute_log_file_name env { s with m_file_nb_splits := s.m_file_nb_splits + 1 } ∧
    (s.EventHandler env "can.log.rotatefiles" data).m_file_nb_splits =
      s.m_file_nb_splits + 1 := by
  have hev : s.EventHandler env "can.log.rotatefiles" data = s.CycleLogfile env := by
    unfold canlog_vfs_autonaming.EventHandler
    rw [if_neg (by decide), if_neg (by decide), if_pos rfl]
  have hmod : (s.m_file_nb_splits + 1) % UINT64_MOD = s.m_file_nb_splits + 1 :=
    Nat.mod_eq_of_lt (by unfold UINT64_MOD; omega)
  obtain ⟨hp, hc⟩ := canlog_vfs_autonaming.CycleLogfile_run env s
    (Or.inr ⟨by omega, by omega⟩)
  rw [hmod] at hp hc
  rw [hev, hp, hc]
  refine ⟨?_, rfl, rfl⟩
  obtain ⟨w1, r1, h1, hr1⟩ := default_pattern_name env PATH_MAX ex
    { s with m_file_nb_splits := s.m_file_nb_splits + 1 } hpat hex hfit htail
  obtain ⟨w0, r0, h0, hr0⟩ := default_pattern_name env0 PATH_MAX ex0 s hpat hex0 hfit0 htail0
  rw [hprev, h1, h0]
  intro h
  have hfield : ∀ (v : Nat) (r : Str), '/' ∉ r → '/' ∉ snprintf_08lld v ++ r := by
    intro v r hr hm
    rcases List.mem_append.1 hm with h4 | h4
    · exact (snprintf_08lld_plain v _ h4).2.2.1 rfl
    · exact hr h4
  have h2 := last_component_unique _ _ _ _ h (hfield _ _ hr1) (hfield _ _ hr0)
  have h3 := (List.append_inj h2 (by
    rw [snprintf_08lld_length, snprintf_08lld_length])).1
  exact snprintf_08lld_succ_ne s.m_file_nb_splits hsplits h3

/-- C5, witness: the amended statement at `braced_sink` in `sample_env`, with a buffer of 1024
bytes. The prefix of this sink is `{splits}%Y`, so the split field and a conversion also stand
in a directory of the name; the rotate-now event moves the sink from the file of split 1 to
the file of split 2. -/
theorem C5_rotate_now_changes_path_witness :
    braced_sink.m_path =
      "/sd/log/OVMS/00000003/000000012024/00000001-20240102-030405.crtd".toList ∧
    (braced_sink.EventHandler sample_env "can.log.rotatefiles" none).m_path ≠
      braced_sink.m_path ∧
    (braced_sink.EventHandler sample_env "can.log.rotatefiles" none).m_path =
      "/sd/log/OVMS/00000003/000000022024/00000002-20240102-030405.crtd".toList :=
  have h := C5_rotate_now_changes_path sample_env sample_env 1024 sample_strftime
    sample_strftime braced_sink none
    (by decide) (by decide) (by decide) (by decide) (by decide)
    ⟨sample_strftime_expansion, fun _ _ => rfl⟩ (by decide) (by decide)
    ⟨sample_strftime_expansion, fun _ _ => rfl⟩ (by decide) (by decide)
  ⟨by decide, h.1, by decide⟩

/-! ## Placeholder substitution -/

/-- One substitution pass over a pattern given piece by piece: when the pass turns each piece
`f p`, whatever follows it, into `g p`, it turns the whole pattern into the pieces `g p`. -/
theorem replaceAll_pieces (pat rep : Str) (f g : Piece → Str) (ps : List Piece)
    (h : ∀ p ∈ ps, ∀ rest, replaceAll (f p ++ rest) pat rep = g p ++ replaceAll rest pat rep) :
    replaceAll (ps.map f).flatten pat rep = (ps.map g).flatten := by
  induction ps with
  | nil => simp [replaceAll_nil]
  | cons p ps ih =>
    simp only [List.map_cons, List.flatten_cons]
    rw [h p (by simp), ih (fun q hq => h q (by simp [hq]))]

/-- The `k`-th substitution pass takes the pieces from stage `k - 1` to stage `k`, when the
literal text and the values substituted before the vehicle id hold no opening brace. -/
theorem stage_step (E X S d V : Str) (ps : List Piece)
    (htext : ∀ t, Piece.text t ∈ ps → '\x7b' ∉ t)
    (hE : '\x7b' ∉ E) (hX : '\x7b' ∉ X) (hS : '\x7b' ∉ S) (hd : '\x7b' ∉ d) :
    replaceAll (ps.map (Piece.stage E X S d V 0)).flatten "\x7bextension\x7d".toList E =
      (ps.map (Piece.stage E X S d V 1)).flatten ∧
    replaceAll (ps.map (Piece.stage E X S d V 1)).flatten "\x7bprefix\x7d".toList X =
      (ps.map (Piece.stage E X S d V 2)).flatten ∧
    replaceAll (ps.map (Piece.stage E X S d V 2)).flatten "\x7bsession\x7d".toList S =
      (ps.map (Piece.stage E X S d V 3)).flatten ∧
    replaceAll (ps.map (Piece.stage E X S d V 3)).flatten "\x7bsplits\x7d".toList d =
      (ps.map (Piece.stage E X S d V 4)).flatten ∧
    replaceAll (ps.map (Piece.stage E X S d V 4)).flatten "\x7bvehicleid\x7d".toList V =
      (ps.map (Piece.stage E X S d V 5)).flatten := by
  refine ⟨?_, ?_, ?_, ?_, ?_⟩ <;>
  · apply replaceAll_pieces
    intro p hp rest
    cases p with
    | text t =>
      have ht := htext t hp
      simp [Piece.stage, replaceAll_skip _ _ _ _ _ ht]
    | _ =>
      simp [Piece.stage, replaceAll_cons_ne, replaceAll_at_front, isPrefixOf_cons_cons,
        replaceAll_skip _ _ _ _ _ hE, replaceAll_skip _ _ _ _ _ hX,
        replaceAll_skip _ _ _ _ _ hS, replaceAll_skip _ _ _ _ _ hd]

/-- C9, as stated, fails in two ways. The substitutions run one after the other, so a
placeholder inside a substituted value is expanded in turn: with the pattern `{prefix}` and
the prefix `{splits}` the result is `00000001`, not the prefix. And a counter field keeps
only 8 characters: with the pattern `{splits}` the split counter 100000000 gives `10000000`,
the same text as the split counter 10000000. -/
theorem C9_reexpansion_and_truncation :
    (brace_sink.m_file_name_pattern = "\x7bprefix\x7d".toList ∧
      canlog_vfs_autonaming.m_prefix brace_sink = "\x7bsplits\x7d".toList ∧
      brace_sink.m_file_nb_splits = 1 ∧
      compute_log_file_name_patterns sample_env brace_sink = "00000001".toList) ∧
    ((split_sink 100000000).m_file_name_pattern = "\x7bsplits\x7d".toList ∧
      compute_log_file_name_patterns sample_env (split_sink 100000000) = "10000000".toList ∧
      compute_log_file_name_patterns sample_env (split_sink 10000000) = "10000000".toList) := by
  decide

/-- C9, amended: the placeholder substitution of `compute_log_file_name` is a function of the
pattern, the vehicle id, the restart count, the prefix, the split counter and the extension
alone. For a pattern given as literal text and placeholders, with literal text, prefix and
extension that hold no opening brace (so that no further placeholder is formed) and counters
below 10^8, each `{vehicleid}`, `{session}`, `{prefix}`, `{splits}` and `{extension}` of the
pattern is replaced by the vehicle id, the restart count in 8 zero-padded digits, the prefix,
the split counter in 8 zero-padded digits and the extension. In particular vehicle id `OVMS`,
restart count 3, prefix `p`, split counter 1 and the pattern
`{vehicleid}/{session}/{prefix}/{splits}` give `OVMS/00000003/p/00000001`. -/
theorem C9_placeholder_substitution (env : Env) (s : canlog_vfs_autonaming)
    (pieces : List Piece)
    (hpat : s.m_file_name_pattern = (pieces.map Piece.pattern).flatten)
    (htext : ∀ t, Piece.text t ∈ pieces → '\x7b' ∉ t)
    (hpfx : '\x7b' ∉ canlog_vfs_autonaming.m_prefix s)
    (hext : '\x7b' ∉ env.preferred_file_extension)
    (hrc : env.GetRestartCount < 10 ^ 8) (hsp : s.m_file_nb_splits < 10 ^ 8) :
    compute_log_file_name_patterns env s =
      (pieces.map (Piece.value (env.GetParamValue "vehicle" "id" "OVMS".toList)
        env.GetRestartCount (canlog_vfs_autonaming.m_prefix s) s.m_file_nb_splits
        env.preferred_file_extension)).flatten ∧
    (∀ (env' : Env) (s' : canlog_vfs_autonaming),
      s'.m_file_name_pattern = s.m_file_name_pattern →
      env'.GetParamValue "vehicle" "id" "OVMS".toList =
        env.GetParamValue "vehicle" "id" "OVMS".toList →
      env'.GetRestartCount = env.GetRestartCount →
      canlog_vfs_autonaming.m_prefix s' = canlog_vfs_autonaming.m_prefix s →
      s'.m_file_nb_splits = s.m_file_nb_splits →
      env'.preferred_file_extension = env.preferred_file_extension →
      compute_log_file_name_patterns env' s' = compute_log_file_name_patterns env s) ∧
    (sample_env.GetParamValue "vehicle" "id" "OVMS".toList = "OVMS".toList ∧
      sample_env.GetRestartCount = 3 ∧
      canlog_vfs_autonaming.m_prefix example_sink = "p".toList ∧
      example_sink.m_file_nb_splits = 1 ∧
      example_sink.m_file_name_pattern =
        "\x7bvehicleid\x7d/\x7bsession\x7d/\x7bprefix\x7d/\x7bsplits\x7d".toList ∧
      compute_log_file_name_patterns sample_env example_sink =
        "OVMS/00000003/p/00000001".toList) := by
  refine ⟨?_, ?_, by decide⟩
  · have hS : '\x7b' ∉ snprintf_08lld env.GetRestartCount :=
      fun h => (snprintf_08lld_plain _ _ h).1 rfl
    have hd : '\x7b' ∉ snprintf_08lld s.m_file_nb_splits :=
      fun h => (snprintf_08lld_plain _ _ h).1 rfl
    obtain ⟨h1, h2, h3, h4, h5⟩ := stage_step env.preferred_file_extension
      (canlog_vfs_autonaming.m_prefix s) (snprintf_08lld env.GetRestartCount)
      (snprintf_08lld s.m_file_nb_splits) (env.GetParamValue "vehicle" "id" "OVMS".toList)
      pieces htext hext hpfx hS hd
    have e0 : (pieces.map Piece.pattern) = pieces.map (Piece.stage env.preferred_file_extension
        (canlog_vfs_autonaming.m_prefix s) (snprintf_08lld env.GetRestartCount)
        (snprintf_08lld s.m_file_nb_splits) (env.GetParamValue "vehicle" "id" "OVMS".toList) 0) := by
      apply List.map_congr_left
      intro p _
      cases p <;> rfl
    have e5 : pieces.map (Piece.stage env.preferred_file_extension
        (canlog_vfs_autonaming.m_prefix s) (snprintf_08lld env.GetRestartCount)
        (snprintf_08lld s.m_file_nb_splits) (env.GetParamValue "vehicle" "id" "OVMS".toList) 5) =
        pieces.map (Piece.value (env.GetParamValue "vehicle" "id" "OVMS".toList)
          env.GetRestartCount (canlog_vfs_autonaming.m_prefix s) s.m_file_nb_splits
          env.preferred_file_extension) := by
      apply List.map_congr_left
      intro p _
      cases p <;>
        simp [Piece.stage, Piece.value, snprintf_08lld_zero_padded _ hrc,
          snprintf_08lld_zero_padded _ hsp]
    unfold compute_log_file_name_patterns
    rw [New_Map_eq, hpat, e0]
    simp only [List.foldl]
    rw [h1, h2, h3, h4, h5, e5]
  · intro env' s' hp hv hr hx hn he
    unfold compute_log_file_name_patterns
    rw [New_Map_eq, New_Map_eq, hp, hv, hr, hx, hn, he]

/-- C9, witness: the general statement at the pattern `{vehicleid}/{session}/{prefix}/{splits}`
with vehicle id `OVMS`, restart count 3, prefix `p` and split counter 1. -/
theorem C9_placeholder_substitution_witness :
    compute_log_file_name_patterns sample_env example_sink =
      (example_pieces.map (Piece.value "OVMS".toList 3 "p".toList 1 ".crtd".toList)).flatten ∧
    (example_pieces.map (Piece.value "OVMS".toList 3 "p".toList 1 ".crtd".toList)).flatten =
      "OVMS/00000003/p/00000001".toList :=
  ⟨(C9_placeholder_substitution sample_env example_sink example_pieces (by decide)
      (by
        intro t ht
        simp only [example_pieces, List.mem_cons, List.mem_singleton, Piece.text.injEq,
          List.not_mem_nil, or_false, false_or, reduceCtorEq] at ht
        rcases ht with h | h | h <;> (subst h; decide))
      (by decide) (by decide) (by decide) (by decide)).1,
    by decide⟩

/-! ## The registry as a map -/

theorem conn_map_find_none {α : Type} (m : List (Nat × α)) (nc : Nat) :
    conn_map_find m nc = none ↔ ∀ e ∈ m, e.1 ≠ nc := by
  induction m with
  | nil => simp [conn_map_find]
  | cons e rest ih =>
    obtain ⟨k, v⟩ := e
    by_cases h : k = nc
    · simp [conn_map_find, h]
    · simp [conn_map_find, h, ih]

theorem conn_map_erase_absent {α : Type} (m : List (Nat × α)) (nc : Nat)
    (h : conn_map_find m nc = none) : conn_map_erase m nc = m := by
  induction m with
  | nil => rfl
  | cons e rest ih =>
    obtain ⟨k, v⟩ := e
    by_cases hk : k = nc
    · simp [conn_map_find, hk] at h
    · simp only [conn_map_find, hk, if_false] at h
      simp [conn_map_erase, hk, ih h]

theorem conn_map_find_erase_ne {α : Type} (m : List (Nat × α)) (nc k : Nat) (hk : k ≠ nc) :
    conn_map_find (conn_map_erase m nc) k = conn_map_find m k := by
  induction m with
  | nil => rfl
  | cons e rest ih =>
    obtain ⟨a, v⟩ := e
    by_cases ha : a = nc
    · have hak : a ≠ k := fun h => hk (h ▸ ha)
      simp [conn_map_erase, conn_map_find, ha, hak, ha ▸ hak]
    · by_cases hak : a = k
      · subst hak
        simp [conn_map_erase, conn_map_find, ha]
      · simp [conn_map_erase, conn_map_find, ha, hak, ih]

theorem conn_map_erase_length {α : Type} (m : List (Nat × α)) (nc : Nat)
    (h : conn_map_find m nc ≠ none) : (conn_map_erase m nc).length + 1 = m.length := by
  induction m with
  | nil => simp [conn_map_find] at h
  | cons e rest ih =>
    obtain ⟨k, v⟩ := e
    by_cases hk : k = nc
    · simp [conn_map_erase, hk]
    · simp only [conn_map_find, hk, if_false] at h
      simp [conn_map_erase, hk, ih h]

theorem conn_map_erase_sublist {α : Type} (m : List (Nat × α)) (nc : Nat) :
    List.Sublist (conn_map_erase m nc) m := by
  induction m with
  | nil => exact List.Sublist.slnil
  | cons e rest ih =>
    obtain ⟨k, v⟩ := e
    by_cases hk : k = nc
    · simp [conn_map_erase, hk]
    · simp [conn_map_erase, hk, ih]

theorem conn_map_find_erase_self {α : Type} (m : List (Nat × α)) (nc : Nat)
    (hm : (m.map Prod.fst).Nodup) : conn_map_find (conn_map_erase m nc) nc = none := by
  induction m with
  | nil => rfl
  | cons e rest ih =>
    obtain ⟨k, v⟩ := e
    simp only [List.map_cons, List.nodup_cons] at hm
    by_cases hk : k = nc
    · subst hk
      simp only [conn_map_erase, if_true]
      rw [conn_map_find_none]
      intro e he h
      exact hm.1 (List.mem_map.2 ⟨e, he, h⟩)
    · simp [conn_map_erase, conn_map_find, hk, ih hm.2]

/-! ## A peer disconnects from the TCP server -/

/-- C19: in the TCP server sink a close event for the handle `nc` takes out of the registry
the entry registered under `nc` and nothing else: the lookup of every other handle gives what
it gave before, what remains is the old registry in its old order, one entry shorter when
`nc` was registered, and with keys that are distinct `nc` is no longer found; the listening
handle, the open flag, the path and the transport logs are unchanged. A close event for a
handle that is not registered leaves the sink as it was. -/
theorem C19_close_event_removes_one_connection (env : NetEnv) (s : canlog_tcpserver)
    (nc : mg_connection) :
    ∃ s1 : canlog_tcpserver,
      s.MongooseHandler env nc .MG_EV_CLOSE = some (s1, nc) ∧
      s1.m_connmap = conn_map_erase s.m_connmap nc.nc ∧
      (∀ k, k ≠ nc.nc → conn_map_find s1.m_connmap k = conn_map_find s.m_connmap k) ∧
      List.Sublist s1.m_connmap s.m_connmap ∧
      (conn_map_find s.m_connmap nc.nc ≠ none →
        s1.m_connmap.length + 1 = s.m_connmap.length) ∧
      ((s.m_connmap.map Prod.fst).Nodup → conn_map_find s1.m_connmap nc.nc = none) ∧
      s1.m_mgconn = s.m_mgconn ∧ s1.m_isopen = s.m_isopen ∧ s1.m_path = s.m_path ∧
      s1.nc_closing = s.nc_closing ∧ s1.nc_sent = s.nc_sent ∧
      (conn_map_find s.m_connmap nc.nc = none → s1 = s) := by
  cases hf : conn_map_find s.m_connmap nc.nc with
  | none =>
    refine ⟨s, ?_, ?_, ?_, ?_, ?_, ?_, rfl, rfl, rfl, rfl, rfl, fun _ => rfl⟩
    · simp [canlog_tcpserver.MongooseHandler, hf]
    · exact (conn_map_erase_absent _ _ hf).symm
    · intro k _; rfl
    · exact List.Sublist.refl _
    · intro h; exact absurd rfl h
    · intro _; exact hf
  | some c =>
    refine ⟨{ s with m_connmap := conn_map_erase s.m_connmap nc.nc }, ?_, rfl, ?_, ?_, ?_, ?_,
      rfl, rfl, rfl, rfl, rfl, ?_⟩
    · simp [canlog_tcpserver.MongooseHandler, hf]
    · intro k hk; exact conn_map_find_erase_ne _ _ _ hk
    · exact conn_map_erase_sublist _ _
    · intro _; exact conn_map_erase_length _ _ (by simp [hf])
    · intro hm; exact conn_map_find_erase_self _ _ hm
    · intro h; exact absurd h (by simp)

/-! ## Opening a network sink -/

/-- C15: `Open()` of the TCP client, TCP server and UDP sinks. On a sink that is not open it
returns false when the network manager is unavailable, and returns true when the manager
exists but no network is up; in both cases no connect or listen is attempted and the sink is
left exactly as it was, so a sink that comes from its constructor stays closed with an empty
registry and no listening handle. On a sink that is already open it returns true and changes
nothing. -/
theorem C15_Open_unavailable_deferred_or_open (env : NetEnv) (c : canlog_tcpclient)
    (t : canlog_tcpserver) (u : canlog_udpserver) (wait : List (mg_connection × mg_event))
    (path : Str) :
    (env.GetMongooseMgr = false →
      (c.m_isopen = false → c.Open env wait = { ret := false, state := c, connects := [] }) ∧
      (t.m_isopen = false → t.Open env = (false, t)) ∧
      (u.m_isopen = false → u.Open env = (false, u))) ∧
    (env.GetMongooseMgr = true → env.m_network_any = false →
      (c.m_isopen = false → c.Open env wait = { ret := true, state := c, connects := [] }) ∧
      (t.m_isopen = false → t.Open env = (true, t)) ∧
      (u.m_isopen = false → u.Open env = (true, u)) ∧
      ((canlog_tcpclient.new path).Open env wait).ret = true ∧
      ((canlog_tcpclient.new path).Open env wait).state.m_isopen = false ∧
      ((canlog_tcpclient.new path).Open env wait).state.m_connmap.length = 0 ∧
      ((canlog_tcpserver.new path).Open env).1 = true ∧
      ((canlog_tcpserver.new path).Open env).2.m_isopen = false ∧
      ((canlog_tcpserver.new path).Open env).2.m_connmap.length = 0 ∧
      ((canlog_tcpserver.new path).Open env).2.m_mgconn = 0 ∧
      ((canlog_udpserver.new path).Open env).1 = true ∧
      ((canlog_udpserver.new path).Open env).2.m_isopen = false ∧
      ((canlog_udpserver.new path).Open env).2.m_connmap.length = 0 ∧
      ((canlog_udpserver.new path).Open env).2.m_mgconn = 0) ∧
    (c.m_isopen = true → c.Open env wait = { ret := true, state := c, connects := [] }) ∧
    (t.m_isopen = true → t.Open env = (true, t)) ∧
    (u.m_isopen = true → u.Open env = (true, u)) := by
  refine ⟨?_, ?_, ?_, ?_, ?_⟩
  · intro hm
    refine ⟨?_, ?_, ?_⟩
    · intro hc; simp [canlog_tcpclient.Open, hc, hm]
    · intro ht; simp [canlog_tcpserver.Open, ht, hm]
    · intro hu; simp [canlog_udpserver.Open, hu, hm]
  · intro hm hn
    refine ⟨?_, ?_, ?_, ?_, ?_, ?_, ?_, ?_, ?_, ?_, ?_, ?_, ?_, ?_⟩
    · intro hc; simp [canlog_tcpclient.Open, hc, hm, hn]
    · intro ht; simp [canlog_tcpserver.Open, ht, hm, hn]
    · intro hu; simp [canlog_udpserver.Open, hu, hm, hn]
    all_goals simp [canlog_tcpclient.Open, canlog_tcpclient.new, canlog_tcpserver.Open,
      canlog_tcpserver.new, canlog_udpserver.Open, canlog_udpserver.new, hm, hn]
  · intro hc; simp [canlog_tcpclient.Open, hc]
  · intro ht; simp [canlog_tcpserver.Open, ht]
  · intro hu; simp [canlog_udpserver.Open, hu]

/-- C15 at concrete sinks: without a manager `Open()` of fresh sinks returns false, with a
manager and no network it returns true and the sinks stay closed. -/
theorem C15_Open_unavailable_deferred_or_open_witness :
    ((canlog_tcpclient.new "h:1".toList).Open net_absent []).ret = false ∧
    ((canlog_tcpserver.new "3000".toList).Open net_absent).1 = false ∧
    ((canlog_udpserver.new "3000".toList).Open net_absent).1 = false ∧
    ((canlog_tcpclient.new "h:1".toList).Open net_down []).ret = true ∧
    ((canlog_tcpserver.new "3000".toList).Open net_down).2.m_isopen = false ∧
    ((canlog_udpserver.new "3000".toList).Open net_down).2.m_mgconn = 0 := by
  have h := C15_Open_unavailable_deferred_or_open net_absent (canlog_tcpclient.new "h:1".toList)
    (canlog_tcpserver.new "3000".toList) (canlog_udpserver.new "3000".toList) [] "3000".toList
  have h2 := C15_Open_unavailable_deferred_or_open net_down (canlog_tcpclient.new "h:1".toList)
    (canlog_tcpserver.new "3000".toList) (canlog_udpserver.new "3000".toList) [] "3000".toList
  obtain ⟨ha, -⟩ := h
  obtain ⟨-, hb, -⟩ := h2
  obtain ⟨a1, a2, a3⟩ := ha rfl
  obtain ⟨b1, -, -, -, -, -, -, b2, -, -, -, -, -, b3⟩ := hb rfl rfl
  refine ⟨?_, ?_, ?_, ?_, b2, b3⟩
  · rw [a1 rfl]
  · rw [a2 rfl]
  · rw [a3 rfl]
  · rw [b1 rfl]

/-! ## The header of a new Connection -/

theorem conn_map_find_set_self {α : Type} (m : List (Nat × α)) (nc : Nat) (clc : α) :
    conn_map_find (conn_map_set m nc clc) nc = some clc := by
  induction m with
  | nil => simp [conn_map_set, conn_map_find]
  | cons e rest ih =>
    obtain ⟨k, v⟩ := e
    rcases Nat.lt_trichotomy nc k with h | h | h
    · simp [conn_map_set, conn_map_find, h]
    · subst h
      simp [conn_map_set, conn_map_find]
    · have h1 : ¬ nc < k := by omega
      have h2 : k ≠ nc := by omega
      simp [conn_map_set, conn_map_find, h, h1, h2, ih]

theorem canlog_udpserver.find_rem_none (now rem : Nat) (m : List (Nat × udpcanlogconnection)) :
    canlog_udpserver.find_rem now rem m = none ↔ ∀ e ∈ m, e.2.m_rem ≠ rem := by
  induction m with
  | nil => simp [canlog_udpserver.find_rem]
  | cons e rest ih =>
    obtain ⟨k, v⟩ := e
    by_cases h : v.m_rem = rem
    · simp [canlog_udpserver.find_rem, h]
    · simp [canlog_udpserver.find_rem, h, ih]

theorem canlog_udpserver.new_peer (env : NetEnv) (u : canlog_udpserver) (nc : mg_connection)
    (fake_nc : Nat) (hnew : ∀ e ∈ u.m_connmap, e.2.m_rem ≠ nc.rem) :
    (u.MongooseHandler env nc .MG_EV_READ fake_nc).1 =
      { u with m_connmap := conn_map_set u.m_connmap fake_nc (new_udp_conn env nc),
               nc_sent := u.nc_sent ++ header_sends env nc.nc } := by
  have hf := (canlog_udpserver.find_rem_none env.monotonictime nc.rem u.m_connmap).2 hnew
  simp only [canlog_udpserver.MongooseHandler, hf, header_sends, new_udp_conn]
  by_cases hh : env.getheader.length > 0
  · simp [hh]
  · simp [hh]

/-- C17: each handler step that creates a peer Connection (connect success in the TCP
client, accept in the TCP server, the datagram of an address that no synthetic Connection
stores in the UDP sink) registers the new Connection and, in that same step, appends to the
log of sends exactly one entry, the formatter's header on the handle of that event, when the
header is not empty and nothing when it is empty; the new Connection starts with zeroed
counters. The steps that create no Connection (a failed connect, close and read events, the
datagram of a known address) send nothing. -/
theorem C17_header_sent_once_on_creation (env : NetEnv) (c : canlog_tcpclient)
    (t : canlog_tcpserver) (u : canlog_udpserver) (nc : mg_connection) (fake_nc : Nat) :
    ((c.MongooseHandler env nc (.MG_EV_CONNECT 0)).1.nc_sent
        = c.nc_sent ++ header_sends env nc.nc ∧
      conn_map_find (c.MongooseHandler env nc (.MG_EV_CONNECT 0)).1.m_connmap nc.nc
        = some (canlogconnection.new c.m_path)) ∧
    (∃ t1 : canlog_tcpserver, t.MongooseHandler env nc .MG_EV_ACCEPT = some (t1, nc) ∧
      t1.nc_sent = t.nc_sent ++ header_sends env nc.nc ∧
      conn_map_find t1.m_connmap nc.nc = some (canlogconnection.new nc.addr)) ∧
    ((∀ e ∈ u.m_connmap, e.2.m_rem ≠ nc.rem) →
      (u.MongooseHandler env nc .MG_EV_READ fake_nc).1.nc_sent
        = u.nc_sent ++ header_sends env nc.nc ∧
      conn_map_find (u.MongooseHandler env nc .MG_EV_READ fake_nc).1.m_connmap fake_nc
        = some (new_udp_conn env nc)) ∧
    (∀ ev : mg_event, ev ≠ .MG_EV_CONNECT 0 →
      (c.MongooseHandler env nc ev).1.nc_sent = c.nc_sent) ∧
    (∀ (ev : mg_event) (r : canlog_tcpserver × mg_connection), ev ≠ .MG_EV_ACCEPT →
      t.MongooseHandler env nc ev = some r → r.1.nc_sent = t.nc_sent) ∧
    ((∃ e ∈ u.m_connmap, e.2.m_rem = nc.rem) →
      (u.MongooseHandler env nc .MG_EV_READ fake_nc).1.nc_sent = u.nc_sent) ∧
    (env.getheader = [] → header_sends env nc.nc = []) ∧
    (env.getheader ≠ [] → header_sends env nc.nc = [(nc.nc, env.getheader)]) := by
  refine ⟨⟨?_, ?_⟩, ?_, ?_, ?_, ?_, ?_, ?_, ?_⟩
  · by_cases hh : env.getheader.length > 0
    · simp [canlog_tcpclient.MongooseHandler, header_sends, hh]
    · simp [canlog_tcpclient.MongooseHandler, header_sends, hh]
  · by_cases hh : env.getheader.length > 0
    · simp [canlog_tcpclient.MongooseHandler, hh, conn_map_find_set_self]
    · simp [canlog_tcpclient.MongooseHandler, hh, conn_map_find_set_self]
  · by_cases hh : env.getheader.length > 0
    · refine ⟨{ t with m_connmap := conn_map_set t.m_connmap nc.nc (canlogconnection.new nc.addr),
                       nc_sent := t.nc_sent ++ [(nc.nc, env.getheader)] }, ?_, ?_, ?_⟩
      · simp only [canlog_tcpserver.MongooseHandler, hh, if_true]
      · simp [header_sends, hh]
      · exact conn_map_find_set_self _ _ _
    · refine ⟨{ t with m_connmap := conn_map_set t.m_connmap nc.nc (canlogconnection.new nc.addr) },
        ?_, ?_, ?_⟩
      · simp only [canlog_tcpserver.MongooseHandler, hh, if_false]
      · simp [header_sends, hh]
      · exact conn_map_find_set_self _ _ _
  · intro hnew
    rw [canlog_udpserver.new_peer env u nc fake_nc hnew]
    exact ⟨rfl, conn_map_find_set_self _ _ _⟩
  · intro ev hev
    cases ev with
    | MG_EV_CONNECT success =>
      have hs : success ≠ 0 := fun h => hev (by rw [h])
      simp [canlog_tcpclient.MongooseHandler, hs]
    | MG_EV_CLOSE =>
      simp only [canlog_tcpclient.MongooseHandler]
      split
      · split <;> rfl
      · rfl
    | MG_EV_READ =>
      simp only [canlog_tcpclient.MongooseHandler]
      repeat' split
      all_goals rfl
    | _ => rfl
  · intro ev r hev hr
    cases ev with
    | MG_EV_ACCEPT => exact absurd rfl hev
    | MG_EV_CLOSE =>
      simp only [canlog_tcpserver.MongooseHandler] at hr
      split at hr <;> (cases hr; rfl)
    | MG_EV_READ =>
      simp only [canlog_tcpserver.MongooseHandler] at hr
      split at hr
      · split at hr
        · cases hr
        · split at hr <;> (cases hr; rfl)
      · split at hr <;> (cases hr; rfl)
    | _ => cases hr; rfl
  · intro hex
    cases hf : canlog_udpserver.find_rem env.monotonictime nc.rem u.m_connmap with
    | none =>
      obtain ⟨e, he, hr⟩ := hex
      exact absurd hr ((canlog_udpserver.find_rem_none _ _ _).1 hf e he)
    | some p => simp [canlog_udpserver.MongooseHandler, hf]
  · intro h; simp [header_sends, h]
  · intro h
    have : env.getheader.length > 0 := List.length_pos.2 h
    simp [header_sends, this]

/-- C17 at a concrete step: the first datagram of the peer with address 77 reaches a UDP sink
with an empty registry on the handle 9, and the header `# log` is sent once on that handle. -/
theorem C17_header_sent_once_on_creation_witness :
    ((canlog_udpserver.new "3000".toList).MongooseHandler (net_at 0) (peer 9 77 [])
        .MG_EV_READ 100).1.nc_sent = [(9, "# log\n".toList)] := by
  have h := (C17_header_sent_once_on_creation (net_at 0) (canlog_tcpclient.new [])
    (canlog_tcpserver.new []) (canlog_udpserver.new "3000".toList) (peer 9 77 []) 100).2.2.1
    (by simp [canlog_udpserver.new])
  rw [h.1]
  rfl

/-! ## Read events -/

theorem mg_iobuf_del_front (recv : List Nat) (used : Nat) (h : used ≤ recv.length) :
    ∃ front : List Nat, front.length = used ∧ recv = front ++ mg_iobuf_del recv used :=
  ⟨recv.take used, by simp [h], by simp [mg_iobuf_del]⟩

/-- C20: on a read event the TCP client sink and the TCP server sink pass the whole receive
buffer to the formatter's `Serve`, and `OvmsNetTcpClient` passes it to `IncomingData`; the
sink state is unchanged and the buffer afterwards is the old buffer without its first `used`
bytes, where `used` is the count that the decoder returned: the bytes behind them stay in
their order, and a count of 0 leaves the buffer as it was. For the two sinks this is the path
with a formatter set, and for the server the handle is one that has a registered
Connection. -/
theorem C20_read_removes_consumed_bytes (env : NetEnv) (c : canlog_tcpclient)
    (t : canlog_tcpserver) (o : OvmsNetTcpClient) (mg_millis : Nat)
    (IncomingData : List Nat → Nat) (nc : mg_connection) (clc : canlogconnection)
    (hfmt : env.m_formatter = true) (hreg : conn_map_find t.m_connmap nc.nc = some clc) :
    c.MongooseHandler env nc .MG_EV_READ
      = (c, { nc with recv :=
                mg_iobuf_del nc.recv (env.Serve nc.recv (conn_map_find c.m_connmap nc.nc)) }) ∧
    t.MongooseHandler env nc .MG_EV_READ
      = some (t, { nc with recv := mg_iobuf_del nc.recv (env.Serve nc.recv (some clc)) }) ∧
    o.Mongoose mg_millis IncomingData nc .MG_EV_READ
      = some (o, { nc with recv := mg_iobuf_del nc.recv (IncomingData nc.recv) }) ∧
    (∀ used, used ≤ nc.recv.length →
      ∃ front : List Nat, front.length = used ∧ nc.recv = front ++ mg_iobuf_del nc.recv used) ∧
    ({ nc with recv := mg_iobuf_del nc.recv 0 } = nc) := by
  refine ⟨?_, ?_, ?_, fun used h => mg_iobuf_del_front _ _ h, rfl⟩
  · simp only [canlog_tcpclient.MongooseHandler, hfmt, if_true]
    by_cases hu : env.Serve nc.recv (conn_map_find c.m_connmap nc.nc) > 0
    · simp [hu]
    · have h0 : env.Serve nc.recv (conn_map_find c.m_connmap nc.nc) = 0 := by omega
      simp [h0, mg_iobuf_del]
  · simp only [canlog_tcpserver.MongooseHandler, hfmt, if_true, hreg]
    by_cases hu : env.Serve nc.recv (some clc) > 0
    · simp [hu]
    · have h0 : env.Serve nc.recv (some clc) = 0 := by omega
      simp [h0, mg_iobuf_del]
  · simp only [OvmsNetTcpClient.Mongoose]
    by_cases hu : IncomingData nc.recv > 0
    · simp [hu]
    · have h0 : IncomingData nc.recv = 0 := by omega
      simp [h0, mg_iobuf_del]

/-- C20 at a concrete read: a buffer of 6 bytes arrives on the registered handle 5, the
decoder consumes one record of 4 bytes, and the last 2 bytes stay for the next read. -/
theorem C20_read_removes_consumed_bytes_witness :
    (reading_server.MongooseHandler (net_at 0) (peer 5 77 [1, 2, 3, 4, 5, 6]) .MG_EV_READ)
      = some (reading_server, peer 5 77 [5, 6]) :=
  (C20_read_removes_consumed_bytes (net_at 0) (canlog_tcpclient.new []) reading_server
    OvmsNetTcpClient.new 0 List.length (peer 5 77 [1, 2, 3, 4, 5, 6])
    (canlogconnection.new "10.0.0.1".toList) rfl rfl).2.1

/-! ## The size of the file -/

theorem canlog_vfs.Open_ok (env : Env) (s : canlog_vfs) (hreg : s.registry_ok)
    (hopen : can_open env s.m_path) :
    s.Open env = (true, { s with m_isopen := true,
                                 m_connmap := [(0, opened_conn env s.m_path)] }) := by
  cases ho : s.m_isopen with
  | false =>
    have hm : s.m_connmap = [] := List.length_eq_zero.1 (hreg ho)
    have h := (canlog_vfs.Open_closed env s ho hm).1 hopen
    rw [h]
  | true =>
    rw [canlog_vfs.Open_open env s ho]
    exact (canlog_vfs.Open_closed env { s with m_connmap := [], m_isopen := false } rfl rfl).1
      hopen

theorem written_text_length (env : Env) (flt : Option (CAN_frame_t → Bool))
    (msgs : List CAN_log_message_t) :
    (written_text env flt msgs).length = written_bytes env flt msgs := by
  induction msgs with
  | nil => rfl
  | cons msg rest ih =>
    cases flt with
    | none => simp [written_text, written_bytes, ih]
    | some f =>
      cases hp : f msg.frame <;> simp [written_text, written_bytes, ih, hp]

theorem canlog_vfs_conn.OutputMsg_file (env : Env) (c : canlog_vfs_conn)
    (msg : CAN_log_message_t) :
    (c.OutputMsg msg (env.formatter_get msg)).m_filters = c.m_filters ∧
    (c.OutputMsg msg (env.formatter_get msg)).m_file
      = c.m_file ++ written_text env c.m_filters [msg] ∧
    (c.m_file_size = c.m_file.length % SIZE_MOD →
      (c.OutputMsg msg (env.formatter_get msg)).m_file_size
        = (c.OutputMsg msg (env.formatter_get msg)).m_file.length % SIZE_MOD) := by
  unfold canlog_vfs_conn.OutputMsg canlogconnection.rejects written_text
  cases hf : c.m_filters with
  | none =>
    by_cases hl : (env.formatter_get msg).length > 0
    · simp only [hf, hl, written_text]
      refine ⟨rfl, by simp, ?_⟩
      intro h
      simp [h, Nat.mod_add_mod]
    · have h0 : env.formatter_get msg = [] := List.length_eq_zero.1 (by omega)
      simp [hf, h0, written_text]
  | some f =>
    cases hp : f msg.frame with
    | false => simp [hf, hp, written_text]
    | true =>
      by_cases hl : (env.formatter_get msg).length > 0
      · simp only [hf, hp, hl, written_text]
        refine ⟨rfl, by simp, ?_⟩
        intro h
        simp [h, Nat.mod_add_mod]
      · have h0 : env.formatter_get msg = [] := List.length_eq_zero.1 (by omega)
        simp [hf, hp, h0, written_text]

theorem canlog_vfs.OutputMsg_fold_file (env : Env) (msgs : List CAN_log_message_t) :
    ∀ (z : canlog_vfs) (k : Nat) (c : canlog_vfs_conn), z.m_connmap = [(k, c)] →
      c.m_file_size = c.m_file.length % SIZE_MOD →
      ∃ c1 : canlog_vfs_conn,
        (msgs.foldl (fun st m => st.OutputMsg env m) z).m_connmap = [(k, c1)] ∧
        (msgs.foldl (fun st m => st.OutputMsg env m) z).m_isopen = z.m_isopen ∧
        c1.m_file = c.m_file ++ written_text env c.m_filters msgs ∧
        c1.m_file_size = c1.m_file.length % SIZE_MOD := by
  induction msgs with
  | nil =>
    intro z k c hz hc
    exact ⟨c, hz, rfl, by simp [written_text], hc⟩
  | cons msg rest ih =>
    intro z k c hz hc
    have hstep : (z.OutputMsg env msg).m_connmap
        = [(k, c.OutputMsg msg (env.formatter_get msg))] := by
      simp [canlog_vfs.OutputMsg, hz]
    obtain ⟨hflt, hfile, hsize⟩ := canlog_vfs_conn.OutputMsg_file env c msg
    obtain ⟨c1, h1, h2, h3, h4⟩ := ih (z.OutputMsg env msg) k _ hstep (hsize hc)
    refine ⟨c1, h1, ?_, ?_, h4⟩
    · rw [List.foldl_cons, h2]; rfl
    · rw [h3, hflt, hfile]
      simp [written_text]

/-- C11: a file sink is opened (its three tests pass) and a filter, or none, is installed on
its Connection; the frames `msgs` are then logged. The registry then holds the one Connection
of the file, and the bytes of that file are the header that `Open()` wrote followed by the
encoded result of each frame that the filter let through, in order: a rejected frame and an
empty result add nothing. As long as that total stays below 2^32, the range of `size_t`,
`GetFileSize()` is the number of bytes of the file, which is the length of the header plus the
lengths of those results. On every closed sink `GetFileSize()` is 0. -/
theorem C11_GetFileSize_counts_written_bytes (env : Env) (s : canlog_vfs)
    (flt : Option (CAN_frame_t → Bool)) (msgs : List CAN_log_message_t)
    (hreg : s.registry_ok) (hopen : can_open env s.m_path)
    (hsz : env.getheader.length + written_bytes env flt msgs < SIZE_MOD) :
    (∃ c : canlog_vfs_conn,
      (msgs.foldl (fun st m => st.OutputMsg env m)
          ((s.Open env).2.with_filters flt)).m_connmap = [(0, c)] ∧
      c.m_file = env.getheader ++ written_text env flt msgs ∧
      (msgs.foldl (fun st m => st.OutputMsg env m)
          ((s.Open env).2.with_filters flt)).GetFileSize = c.m_file.length) ∧
    (msgs.foldl (fun st m => st.OutputMsg env m)
        ((s.Open env).2.with_filters flt)).GetFileSize
      = env.getheader.length + written_bytes env flt msgs ∧
    (msgs.foldl (fun st m => st.OutputMsg env m)
        ((s.Open env).2.with_filters flt)).m_isopen = true ∧
    (∀ z : canlog_vfs, z.m_isopen = false → z.GetFileSize = 0) := by
  rw [canlog_vfs.Open_ok env s hreg hopen]
  obtain ⟨c1, h1, h2, h3, h4⟩ := canlog_vfs.OutputMsg_fold_file env msgs
    (({ s with m_isopen := true, m_connmap := [(0, opened_conn env s.m_path)] } :
      canlog_vfs).with_filters flt) 0
    { opened_conn env s.m_path with m_filters := flt } rfl
    (by simp only [opened_conn])
  have hfile : c1.m_file = env.getheader ++ written_text env flt msgs := by
    rw [h3]; rfl
  have hlen : c1.m_file.length = env.getheader.length + written_bytes env flt msgs := by
    rw [hfile, List.length_append, written_text_length]
  have hget : (msgs.foldl (fun st m => st.OutputMsg env m)
      (({ s with m_isopen := true, m_connmap := [(0, opened_conn env s.m_path)] } :
        canlog_vfs).with_filters flt)).GetFileSize = c1.m_file.length := by
    unfold canlog_vfs.GetFileSize
    rw [h2, h1]
    simp only [canlog_vfs.with_filters, if_true, List.foldl_cons, List.foldl_nil, Nat.zero_add]
    rw [h4, Nat.mod_mod, hlen, Nat.mod_eq_of_lt hsz]
  refine ⟨⟨c1, h1, hfile, hget⟩, ?_, ?_, ?_⟩
  · rw [hget, hlen]
  · rw [h2]; rfl
  · intro z hz
    simp [canlog_vfs.GetFileSize, hz]

/-- C11 at a concrete run: in `header_env` (header of 6 bytes, results of 10 bytes) a sink
with a filter for bus 1 logs a frame of bus 1, one of bus 2 and another of bus 1; the file
holds the header and the two results of bus 1, and `GetFileSize()` is 26. -/
theorem C11_GetFileSize_counts_written_bytes_witness :
    (([sample_msg, bus2_msg, sample_msg].foldl (fun st m => st.OutputMsg header_env m)
        ((closed_vfs.Open header_env).2.with_filters (some bus1_only))).m_connmap.map
          (fun e => e.2.m_file))
      = [header_env.getheader ++ header_env.formatter_get sample_msg
          ++ header_env.formatter_get sample_msg] ∧
    ([sample_msg, bus2_msg, sample_msg].foldl (fun st m => st.OutputMsg header_env m)
        ((closed_vfs.Open header_env).2.with_filters (some bus1_only))).GetFileSize = 26 := by
  have h := C11_GetFileSize_counts_written_bytes header_env closed_vfs (some bus1_only)
    [sample_msg, bus2_msg, sample_msg] (by decide) (by decide) (by decide)
  obtain ⟨⟨c, hc, hf, -⟩, hsz, -⟩ := h
  refine ⟨?_, hsz⟩
  rw [hc, List.map_cons, List.map_nil, hf]
  decide

/-! ## The sweep of the UDP sink -/

theorem canlog_udpserver.TickerLoop_some (now : Nat) (m it : List (Nat × udpcanlogconnection)) :
    (canlog_udpserver.TickerLoop now m it = some m ↔ ∀ e ∈ it, ¬ e.2.m_timeout < now) ∧
    (canlog_udpserver.TickerLoop now m it = none ↔ ∃ e ∈ it, e.2.m_timeout < now) := by
  induction it with
  | nil => simp [canlog_udpserver.TickerLoop]
  | cons e rest ih =>
    obtain ⟨k, c⟩ := e
    by_cases h : c.m_timeout < now
    · simp [canlog_udpserver.TickerLoop, h]
    · simp only [canlog_udpserver.TickerLoop, h, if_false, ih.1, ih.2]
      have hc : now ≤ c.m_timeout := by omega
      constructor
      · simp [hc]
      · simp [h]

/-- A sweep has a defined result exactly when no Connection of the registry is past its
deadline, and it then leaves the sink as it was; as soon as one Connection is past its
deadline the loop steps on from an erased iterator. -/
theorem canlog_udpserver.Ticker_defined (env : NetEnv) (s : canlog_udpserver) :
    ((∀ e ∈ s.m_connmap, ¬ e.2.m_timeout < env.monotonictime) → s.Ticker env = some s) ∧
    ((∃ e ∈ s.m_connmap, e.2.m_timeout < env.monotonictime) → s.Ticker env = none) := by
  constructor
  · intro h
    have := (canlog_udpserver.TickerLoop_some env.monotonictime s.m_connmap s.m_connmap).1.2 h
    simp [canlog_udpserver.Ticker, this]
  · intro h
    have := (canlog_udpserver.TickerLoop_some env.monotonictime s.m_connmap s.m_connmap).2.2 h
    simp [canlog_udpserver.Ticker, this]

/-- C14: the registry of `udp_one_peer` holds one synthetic Connection, created at the clock
value 0 with the deadline 30. The sweep at the clock value 30 finds nothing to evict and
leaves the registry alone; the sweep at the clock value 40 erases that Connection through
the loop iterator and then increments the erased iterator, so it has no defined result. -/
theorem C14_sweep_steps_on_from_erased_iterator :
    udp_one_peer.registry_view = [(100, 77, 30)] ∧
    (udp_one_peer.Ticker (net_at 30)).map canlog_udpserver.registry_view
      = some [(100, 77, 30)] ∧
    (udp_one_peer.Ticker (net_at 40)).map canlog_udpserver.registry_view = none := by
  refine ⟨by decide, by decide, by decide⟩

/-! ## Datagrams of known and of new peers -/

theorem canlog_udpserver.find_rem_some (now rem : Nat) (m : List (Nat × udpcanlogconnection))
    (h : ∃ e ∈ m, e.2.m_rem = rem) :
    ∃ (pre : List (Nat × udpcanlogconnection)) (k : Nat) (c : udpcanlogconnection)
      (post : List (Nat × udpcanlogconnection)),
      m = pre ++ (k, c) :: post ∧ (∀ e ∈ pre, e.2.m_rem ≠ rem) ∧ c.m_rem = rem ∧
      canlog_udpserver.find_rem now rem m = some (c, pre ++ (k, c.Tickle now) :: post) := by
  induction m with
  | nil => simp at h
  | cons e rest ih =>
    obtain ⟨k, v⟩ := e
    by_cases hv : v.m_rem = rem
    · exact ⟨[], k, v, rest, rfl, by simp, hv, by simp [canlog_udpserver.find_rem, hv]⟩
    · have hrest : ∃ e ∈ rest, e.2.m_rem = rem := by
        obtain ⟨e, he, hr⟩ := h
        rcases List.mem_cons.1 he with h1 | h1
        · subst h1; exact absurd hr hv
        · exact ⟨e, h1, hr⟩
      obtain ⟨pre, k1, c, post, h1, h2, h3, h4⟩ := ih hrest
      refine ⟨(k, v) :: pre, k1, c, post, by simp [h1], ?_, h3, ?_⟩
      · intro e he
        rcases List.mem_cons.1 he with h5 | h5
        · subst h5; exact hv
        · exact h2 e h5
      · simp [canlog_udpserver.find_rem, hv, h4]

/-- A datagram whose address is stored in the registry is served by the first Connection, in
key order, that stores it: the decoder runs on that Connection, the Connection is tickled
and nothing else in the sink changes. -/
theorem canlog_udpserver.known_peer (env : NetEnv) (u : canlog_udpserver) (nc : mg_connection)
    (fake_nc : Nat) (h : ∃ e ∈ u.m_connmap, e.2.m_rem = nc.rem) :
    ∃ (pre : List (Nat × udpcanlogconnection)) (k : Nat) (c : udpcanlogconnection)
      (post : List (Nat × udpcanlogconnection)),
      u.m_connmap = pre ++ (k, c) :: post ∧ (∀ e ∈ pre, e.2.m_rem ≠ nc.rem) ∧
      c.m_rem = nc.rem ∧
      u.MongooseHandler env nc .MG_EV_READ fake_nc
        = ({ u with m_connmap := pre ++ (k, c.Tickle env.monotonictime) :: post },
           { nc with recv :=
               mg_iobuf_del nc.recv (env.Serve nc.recv (some c.tocanlogconnection)) }) := by
  obtain ⟨pre, k, c, post, h1, h2, h3, h4⟩ :=
    canlog_udpserver.find_rem_some env.monotonictime nc.rem u.m_connmap h
  refine ⟨pre, k, c, post, h1, h2, h3, ?_⟩
  simp only [canlog_udpserver.MongooseHandler, h4]
  by_cases hu : env.Serve nc.recv (some c.tocanlogconnection) > 0
  · simp [hu]
  · have h0 : env.Serve nc.recv (some c.tocanlogconnection) = 0 := by omega
    simp [h0, mg_iobuf_del]

/-- A run of sweeps at clock values at which no Connection of the registry is past its
deadline has a defined result and leaves the sink as it was. -/
theorem canlog_udpserver.sweeps_live (env : NetEnv) (s : canlog_udpserver) (ts : List Nat)
    (h : ∀ t ∈ ts, ∀ e ∈ s.m_connmap, ¬ e.2.m_timeout < t) :
    s.sweeps env ts = some s := by
  induction ts with
  | nil => rfl
  | cons t rest ih =>
    have h1 := (canlog_udpserver.Ticker_defined { env with monotonictime := t } s).1
      (h t (List.mem_cons_self _ _))
    simp only [canlog_udpserver.sweeps, h1]
    exact ih (fun t1 ht1 => h t1 (List.mem_cons_of_mem _ ht1))

/-- C12: the registry of `udp_two_peers` holds the Connection of the address 77 with the
deadline 30 and that of the address 88, whose last datagram came at the clock value 25, with
the deadline 55. A second datagram of 88 at the clock value 45 is served by the Connection
at 200, adds no entry and moves its deadline to 75; but the sweep that runs in between, at
the clock value 40, meets the Connection of 77 past its deadline, erases it and steps on from
the erased iterator, so the run of the two datagrams with that sweep in between has no
defined result. -/
theorem C12_sweep_between_datagrams_undefined :
    udp_two_peers.registry_view = [(100, 77, 30), (200, 88, 55)] ∧
    (udp_two_peers.MongooseHandler (net_at 45) (peer 9 88 [1, 2, 3, 4])
        .MG_EV_READ 300).1.registry_view = [(100, 77, 30), (200, 88, 75)] ∧
    ((udp_two_peers.sweeps (net_at 0) [40]).map (fun s =>
        (s.MongooseHandler (net_at 45) (peer 9 88 [1, 2, 3, 4])
          .MG_EV_READ 300).1.registry_view)) = none := by
  refine ⟨by decide, by decide, by decide⟩

/-- C13 fails: the address 77 sends a datagram at the clock value 0 and then stays silent.
The sweeps at 10, 20 and 30 have nothing to evict (the deadline 30 is not below 30), and the
next datagram of 77, at the clock value 39, creates no Connection at the offered address 200:
it is served by the Connection at 100, whose deadline becomes 69, and no header is sent. -/
theorem C13_late_datagram_served_by_old_connection :
    udp_one_peer.registry_view = [(100, 77, 30)] ∧
    ∃ s : canlog_udpserver, udp_one_peer.sweeps (net_at 0) [10, 20, 30] = some s ∧
      (s.MongooseHandler (net_at 39) (peer 9 77 [1, 2, 3, 4]) .MG_EV_READ 200).1.registry_view
        = [(100, 77, 69)] ∧
      (s.MongooseHandler (net_at 39) (peer 9 77 [1, 2, 3, 4]) .MG_EV_READ 200).1.nc_sent
        = [(9, "# log\n".toList)] := by
  refine ⟨by decide, udp_one_peer, ?_, by decide, by decide⟩
  exact canlog_udpserver.sweeps_live _ _ _ (by decide)

/-- C13, amended: the datagram handler of the UDP sink never looks at a deadline. A datagram
creates a new synthetic Connection, registered under the address of its embedded handle with
the deadline now + 30 s, exactly when no Connection of the registry stores the datagram's
raw address. When one does, the first such Connection in key order serves the datagram,
however long ago its deadline has passed: its deadline becomes now + 30 s, the registry keeps
its entries and no header is sent. -/
theorem C13_new_connection_only_for_unknown_address (env : NetEnv) (u : canlog_udpserver)
    (nc : mg_connection) (fake_nc : Nat) :
    ((∀ e ∈ u.m_connmap, e.2.m_rem ≠ nc.rem) →
      (u.MongooseHandler env nc .MG_EV_READ fake_nc).1.m_connmap
        = conn_map_set u.m_connmap fake_nc (new_udp_conn env nc) ∧
      (new_udp_conn env nc).m_rem = nc.rem ∧
      (new_udp_conn env nc).m_timeout = (env.monotonictime + UDP_TIMEOUT) % UINT32_MOD) ∧
    ((∃ e ∈ u.m_connmap, e.2.m_rem = nc.rem) →
      ∃ (pre : List (Nat × udpcanlogconnection)) (k : Nat) (c : udpcanlogconnection)
        (post : List (Nat × udpcanlogconnection)),
        u.m_connmap = pre ++ (k, c) :: post ∧ (∀ e ∈ pre, e.2.m_rem ≠ nc.rem) ∧
        c.m_rem = nc.rem ∧
        (u.MongooseHandler env nc .MG_EV_READ fake_nc).1.m_connmap
          = pre ++ (k, { c with m_timeout := (env.monotonictime + UDP_TIMEOUT) % UINT32_MOD })
              :: post ∧
        (u.MongooseHandler env nc .MG_EV_READ fake_nc).1.nc_sent = u.nc_sent ∧
        (u.MongooseHandler env nc .MG_EV_READ fake_nc).2.recv
          = mg_iobuf_del nc.recv (env.Serve nc.recv (some c.tocanlogconnection))) := by
  constructor
  · intro hnew
    rw [canlog_udpserver.new_peer env u nc fake_nc hnew]
    exact ⟨rfl, rfl, rfl⟩
  · intro hex
    obtain ⟨pre, k, c, post, h1, h2, h3, h4⟩ := canlog_udpserver.known_peer env u nc fake_nc hex
    exact ⟨pre, k, c, post, h1, h2, h3, by rw [h4]; rfl, by rw [h4], by rw [h4]⟩

/-- C13, amended, at a concrete step: the first datagram of the address 77 finds an empty
registry and gets a Connection at the offered address 100 with the deadline 30. -/
theorem C13_new_connection_only_for_unknown_address_witness :
    (udp_listening.MongooseHandler (net_at 0) (peer 9 77 [1, 2, 3, 4]) .MG_EV_READ
        100).1.m_connmap
      = conn_map_set udp_listening.m_connmap 100 (new_udp_conn (net_at 0) (peer 9 77 [1, 2, 3, 4])) :=
  ((C13_new_connection_only_for_unknown_address (net_at 0) udp_listening
    (peer 9 77 [1, 2, 3, 4]) 100).1 (by decide)).1

/-! ## Starting a client sink while the network is down -/

/-- C16: `log start tcpclient` runs while the manager exists and no network is up. `Open()`
defers and returns true, but the command then tests `IsOpen()`, which is false: it prints
the error line, hands nothing to `AddLogger` and deletes the sink, which resets
`MyCanLogTcpClient`. The later `network.mgr.init`, with the network up, finds no sink and
attempts no connect. The sibling command `log start tcpserver` tests the value that
`Open()` returned and keeps its deferred sink. -/
theorem C16_deferred_client_sink_is_deleted :
    ((canlog_tcpclient.new "h:1".toList).Open net_down []).ret = true ∧
    deferred_start.MyCanLogTcpClient.isNone = true ∧
    deferred_start.AddLogger_calls = 0 ∧
    deferred_start.printed = ["Error: Could not start CAN logging as TCP client: ".toList] ∧
    (NetManInit (net_at 0) deferred_start []).connects = [] ∧
    (NetManInit (net_at 0) deferred_start []).MyCanLogTcpClient.isNone = true ∧
    (can_log_tcpserver_start net_down
        { MyCanLogTcpServer := none, AddLogger_calls := 0, printed := [] } "3000".toList).map
      (fun w => (w.MyCanLogTcpServer.isSome, w.AddLogger_calls)) = some (true, 1) := by
  refine ⟨by decide, by decide, by decide, by decide, by decide, by decide, by decide⟩

/-! ## Open flag and registry of the TCP client -/

/-- C18 fails: after connect successes on two handles the client sink is open with two
Connections, and after a connect success followed by a connect failure on another handle it
is closed with one Connection left in the registry; both states are reachable. -/
theorem C18_open_with_two_and_closed_with_one :
    (canlog_tcpclient.Reach client_two_handles ∧ client_two_handles.m_isopen = true ∧
      client_two_handles.m_connmap.length = 2) ∧
    (canlog_tcpclient.Reach client_late_failure ∧ client_late_failure.m_isopen = false ∧
      client_late_failure.m_connmap.length = 1) := by
  refine ⟨⟨?_, by decide, by decide⟩, ?_, by decide, by decide⟩
  · exact canlog_tcpclient.Reach.event _ _ _ _
      (canlog_tcpclient.Reach.event _ _ _ _ (canlog_tcpclient.Reach.ctor _))
  · exact canlog_tcpclient.Reach.event _ _ _ _
      (canlog_tcpclient.Reach.event _ _ _ _ (canlog_tcpclient.Reach.ctor _))

theorem conn_map_set_length_pos {α : Type} (m : List (Nat × α)) (nc : Nat) (clc : α) :
    1 ≤ (conn_map_set m nc clc).length := by
  cases m with
  | nil => simp [conn_map_set]
  | cons e rest =>
    obtain ⟨k, v⟩ := e
    simp only [conn_map_set]
    split
    · simp
    · split <;> simp

theorem canlog_tcpclient.MongooseHandler_read (env : NetEnv) (s : canlog_tcpclient)
    (nc : mg_connection) : (s.MongooseHandler env nc .MG_EV_READ).1 = s := by
  simp only [canlog_tcpclient.MongooseHandler]
  repeat' split
  all_goals rfl

theorem canlog_tcpclient.MongooseHandler_nonempty (env : NetEnv) (s : canlog_tcpclient)
    (nc : mg_connection) (ev : mg_event)
    (h : s.m_isopen = true → 1 ≤ s.m_connmap.length) :
    (s.MongooseHandler env nc ev).1.m_isopen = true →
      1 ≤ (s.MongooseHandler env nc ev).1.m_connmap.length := by
  cases ev with
  | MG_EV_CONNECT success =>
    by_cases hs : success = 0
    · intro _
      simp only [canlog_tcpclient.MongooseHandler, hs, if_true]
      split <;> exact conn_map_set_length_pos _ _ _
    · simp [canlog_tcpclient.MongooseHandler, hs]
  | MG_EV_CLOSE =>
    simp only [canlog_tcpclient.MongooseHandler]
    split
    · split <;> simp
    · exact h
  | MG_EV_READ => rw [canlog_tcpclient.MongooseHandler_read]; exact h
  | _ => exact h

theorem canlog_tcpclient.Close_all_or_nothing (s : canlog_tcpclient) :
    s.all_or_nothing → s.Close.all_or_nothing := by
  intro h
  cases ho : s.m_isopen with
  | false =>
    have : s.Close = s := by simp [canlog_tcpclient.Close, ho]
    rw [this]; exact h
  | true =>
    have h1 := h.2 ho
    constructor
    · intro _; simp [canlog_tcpclient.Close, ho, h1]
    · simp [canlog_tcpclient.Close, ho, h1]

theorem canlog_tcpclient.MongooseHandler_all_or_nothing (env : NetEnv) (s : canlog_tcpclient)
    (nc : mg_connection) (ev : mg_event) (h : s.all_or_nothing) (hev : s.one_at_a_time nc ev) :
    (s.MongooseHandler env nc ev).1.all_or_nothing := by
  cases ev with
  | MG_EV_CONNECT success =>
    by_cases hs : success = 0
    · simp only [canlog_tcpclient.one_at_a_time, hs, if_true] at hev
      have hlen : (conn_map_set s.m_connmap nc.nc (canlogconnection.new s.m_path)).length = 1 := by
        cases hm : s.m_connmap with
        | nil => simp [conn_map_set]
        | cons e rest =>
          obtain ⟨k, v⟩ := e
          have hk : k = nc.nc := hev (k, v) (by simp [hm])
          have hr : rest = [] := by
            cases ho : s.m_isopen with
            | false => have := h.1 ho; simp [hm] at this
            | true => have := h.2 ho; simpa [hm] using this
          subst hk hr
          simp [conn_map_set]
      simp only [canlog_tcpclient.MongooseHandler, hs, if_true]
      split
      · exact ⟨by simp, fun _ => hlen⟩
      · exact ⟨by simp, fun _ => hlen⟩
    · simp only [canlog_tcpclient.one_at_a_time, hs, if_false] at hev
      simp only [canlog_tcpclient.MongooseHandler, hs, if_false]
      exact ⟨fun _ => h.1 hev, by simp⟩
  | MG_EV_CLOSE =>
    simp only [canlog_tcpclient.one_at_a_time] at hev
    cases ho : s.m_isopen with
    | false =>
      have : (s.MongooseHandler env nc .MG_EV_CLOSE).1 = s := by
        simp [canlog_tcpclient.MongooseHandler, ho]
      rw [this]; exact h
    | true =>
      have h1 := h.2 ho
      have hf := hev ho
      obtain ⟨e, he⟩ := List.length_eq_one.1 h1
      obtain ⟨k, v⟩ := e
      have hk : k = nc.nc := by
        by_contra hne
        exact hf (by simp [he, conn_map_find, hne])
      subst hk
      simp [canlog_tcpclient.MongooseHandler, ho, he, conn_map_find, conn_map_erase,
        canlog_tcpclient.all_or_nothing]
  | MG_EV_READ => rw [canlog_tcpclient.MongooseHandler_read]; exact h
  | MG_EV_ACCEPT => exact h
  | MG_EV_OPEN => exact h
  | MG_EV_POLL => exact h
  | MG_EV_ERROR => exact h
  | MG_EV_OTHER => exact h

theorem canlog_tcpclient.Open_state (env : NetEnv) (s : canlog_tcpclient)
    (wait : List (mg_connection × mg_event)) :
    (s.Open env wait).state = s ∨
    (s.Open env wait).state
      = wait.foldl (fun st e => (st.MongooseHandler env e.1 e.2).1) s := by
  unfold canlog_tcpclient.Open
  repeat' split
  all_goals first | exact Or.inl rfl | exact Or.inr rfl

theorem canlog_tcpclient.wait_nonempty (env : NetEnv) (wait : List (mg_connection × mg_event)) :
    ∀ s : canlog_tcpclient, (s.m_isopen = true → 1 ≤ s.m_connmap.length) →
      (wait.foldl (fun st e => (st.MongooseHandler env e.1 e.2).1) s).m_isopen = true →
      1 ≤ (wait.foldl (fun st e => (st.MongooseHandler env e.1 e.2).1) s).m_connmap.length := by
  induction wait with
  | nil => intro s h; exact h
  | cons e rest ih =>
    intro s h
    exact ih _ (canlog_tcpclient.MongooseHandler_nonempty env s e.1 e.2 h)

theorem canlog_tcpclient.wait_all_or_nothing (env : NetEnv)
    (wait : List (mg_connection × mg_event)) :
    ∀ s : canlog_tcpclient, s.all_or_nothing → s.one_at_a_time_run env wait →
      (wait.foldl (fun st e => (st.MongooseHandler env e.1 e.2).1) s).all_or_nothing := by
  induction wait with
  | nil => intro s h _; exact h
  | cons e rest ih =>
    intro s h hrun
    exact ih _ (canlog_tcpclient.MongooseHandler_all_or_nothing env s e.1 e.2 h hrun.1) hrun.2

theorem canlog_tcpclient.Reach_nonempty (s : canlog_tcpclient) (h : canlog_tcpclient.Reach s) :
    s.m_isopen = true → 1 ≤ s.m_connmap.length := by
  induction h with
  | ctor path => simp [canlog_tcpclient.new]
  | opened env s wait _ ih =>
    rcases canlog_tcpclient.Open_state env s wait with h1 | h1
    · rw [h1]; exact ih
    · rw [h1]; exact canlog_tcpclient.wait_nonempty env wait s ih
  | closed s _ ih =>
    cases ho : s.m_isopen with
    | false =>
      have : s.Close = s := by simp [canlog_tcpclient.Close, ho]
      rw [this]; exact ih
    | true =>
      intro hc
      have : s.Close.m_isopen = false := by
        simp only [canlog_tcpclient.Close, ho, if_true]
      rw [this] at hc; exact absurd hc (by simp)
  | event env s nc ev _ ih => exact canlog_tcpclient.MongooseHandler_nonempty env s nc ev ih

theorem canlog_tcpclient.ReachOne_all_or_nothing (s : canlog_tcpclient)
    (h : canlog_tcpclient.ReachOne s) : s.all_or_nothing := by
  induction h with
  | ctor path => exact ⟨fun _ => rfl, by simp [canlog_tcpclient.new]⟩
  | opened env s wait _ hrun ih =>
    rcases canlog_tcpclient.Open_state env s wait with h1 | h1
    · rw [h1]; exact ih
    · rw [h1]; exact canlog_tcpclient.wait_all_or_nothing env wait s ih hrun
  | closed s _ ih => exact canlog_tcpclient.Close_all_or_nothing s ih
  | event env s nc ev _ hev ih =>
    exact canlog_tcpclient.MongooseHandler_all_or_nothing env s nc ev ih hev

/-- C18, amended: in every state of the TCP client sink that is reachable through `Open()`,
`Close()` and transport events for any handles, an open sink has at least one Connection in
its registry. In the states reached by runs with one connection at a time (a connect success
arrives while the registry holds no other handle, a connect failure arrives while the sink
is closed, a close event that arrives while the sink is open is for the registered handle)
the sink is fully closed or fully open: no Connection while `IsOpen()` is false and exactly
one while it is true. -/
theorem C18_client_open_or_closed (s : canlog_tcpclient) :
    (canlog_tcpclient.Reach s → s.m_isopen = true → 1 ≤ s.m_connmap.length) ∧
    (canlog_tcpclient.ReachOne s →
      (s.m_isopen = false → s.m_connmap.length = 0) ∧
      (s.m_isopen = true → s.m_connmap.length = 1)) :=
  ⟨canlog_tcpclient.Reach_nonempty s, canlog_tcpclient.ReachOne_all_or_nothing s⟩

/-- C18, amended, at a concrete state: after a connect success on the handle 7 the client
sink for `h:1` is open and its registry holds one Connection. -/
theorem C18_client_open_or_closed_witness :
    client_connected.m_isopen = true ∧ client_connected.m_connmap.length = 1 :=
  ⟨by decide,
   ((C18_client_open_or_closed client_connected).2
      (canlog_tcpclient.ReachOne.event _ _ _ _ (canlog_tcpclient.ReachOne.ctor _)
        (by simp [canlog_tcpclient.one_at_a_time, canlog_tcpclient.new]))).2 (by decide)⟩

/-! ## The name of the rotation event -/

/-- C21: the class documentation names the event `can.log.rotate_files`, but
`EventHandler` compares the event with `can.log.rotatefiles` (the name that the constructor
registers): for the documented name it returns without calling `CycleLogfile()` and leaves
every sink as it was. At `logging_sink 1` the split counter stays 1 under the documented
name and becomes 2 under the name in the code. -/
theorem C21_documented_event_name_is_ignored :
    (∀ (env : Env) (s : canlog_vfs_autonaming) (data : Option String),
      s.EventHandler env "can.log.rotate_files" data = s) ∧
    ((logging_sink 1).EventHandler sample_env "can.log.rotate_files" none).m_file_nb_splits
      = 1 ∧
    ((logging_sink 1).EventHandler sample_env "can.log.rotatefiles" none).m_file_nb_splits
      = 2 := by
  refine ⟨?_, by decide, by decide⟩
  intro env s data
  simp [canlog_vfs_autonaming.EventHandler]

/-! ## Two rotations in one call -/

theorem canlog_vfs_autonaming.CycleLogfile_config (env : Env) (s : canlog_vfs_autonaming) :
    (s.CycleLogfile env).m_logfile_max_size_kb = s.m_logfile_max_size_kb ∧
    (s.CycleLogfile env).m_keep_empty_files = s.m_keep_empty_files ∧
    (s.CycleLogfile env).m_logfile_max_duration_s = s.m_logfile_max_duration_s := by
  unfold canlog_vfs_autonaming.CycleLogfile
  split
  · exact ⟨rfl, rfl, rfl⟩
  · simp only []
    split
    · cases s.m_isopen
      · simp
      · simp [canlog_vfs_autonaming.Open]
    · exact ⟨rfl, rfl, rfl⟩

/-- C27: when on entry to `OutputMsg` the duration threshold is met and the size that
`GetFileSize()` returns on entry meets the size threshold, `CycleLogfile()` is invoked before
the write and again after it, although the file that the first invocation opened holds no
more than one frame: the test after the write compares the size sampled on entry. The sink
ends in the state that the two invocations around the write leave, and with keep-empty-files
on the split counter has advanced twice. -/
theorem C27_entry_size_rotates_twice (env : Env) (s : canlog_vfs_autonaming)
    (msg : CAN_log_message_t)
    (hdur : s.m_logfile_max_duration_s ≠ 0 ∧
      (s.m_logfile_max_duration_s : Int)
        ≤ Int.tdiv (env.esp_timer_get_time - s.m_logfile_start_time) 1000000)
    (hsize : s.m_logfile_max_size_kb ≠ 0 ∧
      (s.m_logfile_max_size_kb * 1024) % SIZE_MOD ≤ s.GetFileSize) :
    (s.OutputMsg env msg).cycled_before = true ∧
    (s.OutputMsg env msg).cycled_after = true ∧
    (s.OutputMsg env msg).state
      = canlog_vfs_autonaming.CycleLogfile env
          { s.CycleLogfile env with
            tocanlog_vfs := (s.CycleLogfile env).tocanlog_vfs.OutputMsg env msg } ∧
    (s.m_keep_empty_files = true →
      (s.OutputMsg env msg).state.m_file_nb_splits
        = ((s.m_file_nb_splits + 1) % UINT64_MOD + 1) % UINT64_MOD) := by
  have hcfg := canlog_vfs_autonaming.CycleLogfile_config env s
  have hb : (s.OutputMsg env msg).cycled_before = true := by
    simp [canlog_vfs_autonaming.OutputMsg, hdur.1, hdur.2]
  have ha : (s.OutputMsg env msg).cycled_after = true := by
    simp [canlog_vfs_autonaming.OutputMsg, hdur.1, hdur.2, hcfg.1, hsize.1, hsize.2]
  have hst : (s.OutputMsg env msg).state
      = canlog_vfs_autonaming.CycleLogfile env
          { s.CycleLogfile env with
            tocanlog_vfs := (s.CycleLogfile env).tocanlog_vfs.OutputMsg env msg } := by
    simp [canlog_vfs_autonaming.OutputMsg, hdur.1, hdur.2, hcfg.1, hsize.1, hsize.2]
  refine ⟨hb, ha, hst, ?_⟩
  intro hk
  rw [hst]
  have h1 := (canlog_vfs_autonaming.CycleLogfile_run env s (Or.inl hk)).2
  have h2 := (canlog_vfs_autonaming.CycleLogfile_run env
    { s.CycleLogfile env with
      tocanlog_vfs := (s.CycleLogfile env).tocanlog_vfs.OutputMsg env msg }
    (Or.inl (by show (s.CycleLogfile env).m_keep_empty_files = true; rw [hcfg.2.1]; exact hk))).2
  rw [h2]
  show ((s.CycleLogfile env).m_file_nb_splits + 1) % UINT64_MOD = _
  rw [h1]

/-- C27 at a concrete call: `overdue_full_sink` (2000 bytes, thresholds 1 KB and 60 s) gets a
frame one minute after it was opened; the call rotates before and after the write and the
split counter goes from 1 to 3. -/
theorem C27_entry_size_rotates_twice_witness :
    (overdue_full_sink.OutputMsg late_env sample_msg).cycled_before = true ∧
    (overdue_full_sink.OutputMsg late_env sample_msg).cycled_after = true ∧
    (overdue_full_sink.OutputMsg late_env sample_msg).state.m_file_nb_splits = 3 := by
  have h := C27_entry_size_rotates_twice late_env overdue_full_sink sample_msg
    (by decide) (by decide)
  exact ⟨h.1, h.2.1, by rw [h.2.2.2 rfl]; decide⟩

/-! ## A frame for a closed rotating sink -/

theorem canlog_vfs_autonaming.CycleLogfile_closed (env : Env) (s : canlog_vfs_autonaming)
    (hc : s.m_isopen = false) :
    (s.CycleLogfile env).m_isopen = false ∧
    (s.CycleLogfile env).m_connmap = s.m_connmap ∧
    (s.m_keep_empty_files = false → s.CycleLogfile env = s) := by
  have hsz : s.GetFileSize = 0 := by simp [canlog_vfs.GetFileSize, hc]
  unfold canlog_vfs_autonaming.CycleLogfile
  split
  · exact ⟨hc, rfl, fun _ => rfl⟩
  · rename_i hskip
    have hk : s.m_keep_empty_files = true := by
      cases hke : s.m_keep_empty_files with
      | true => rfl
      | false => simp [hke, hsz] at hskip
    simp only [hc, Bool.false_eq_true, if_false]
    split
    · exact ⟨rfl, rfl, fun h => by rw [hk] at h; exact absurd h (by simp)⟩
    · exact ⟨hc, rfl, fun h => by rw [hk] at h; exact absurd h (by simp)⟩

theorem canlog_vfs_autonaming.OutputMsg_steps (env : Env) (s : canlog_vfs_autonaming)
    (msg : CAN_log_message_t) :
    ∃ (s1 s2 : canlog_vfs_autonaming),
      s1 = (if (s.OutputMsg env msg).cycled_before = true then s.CycleLogfile env else s) ∧
      s2 = { s1 with tocanlog_vfs := s1.tocanlog_vfs.OutputMsg env msg } ∧
      (s.OutputMsg env msg).state
        = (if (s.OutputMsg env msg).cycled_after = true then s2.CycleLogfile env else s2) :=
  ⟨_, _, rfl, rfl, rfl⟩

/-- C24 fails: `closed_rotating_sink` is closed, with keep-empty-files on and the duration
threshold at 1800 s. A frame that arrives half an hour after the timer value 0 makes
`OutputMsg` invoke `CycleLogfile()`: the sink stays closed, but the split counter goes from 1
to 2 and the active path changes to the name computed for it. -/
theorem C24_closed_sink_rotates_on_duration :
    closed_rotating_sink.m_isopen = false ∧
    closed_rotating_sink.m_file_nb_splits = 1 ∧
    (closed_rotating_sink.OutputMsg half_hour_env sample_msg).state.m_isopen = false ∧
    (closed_rotating_sink.OutputMsg half_hour_env sample_msg).state.m_file_nb_splits = 2 ∧
    (closed_rotating_sink.OutputMsg half_hour_env sample_msg).state.m_path
      ≠ closed_rotating_sink.m_path := by
  refine ⟨by decide, by decide, by decide, by decide, by decide⟩

/-- C24, amended: `OutputMsg` on a closed rotating sink leaves the sink closed and creates
no Connection. It leaves the active path and the split counter unchanged when
keep-empty-files is off, and also when neither threshold test fires; with keep-empty-files
on, a duration test that fires advances the split counter and, when the size test does not
fire as well, leaves the sink on the name computed for the advanced counter. -/
theorem C24_closed_sink_stays_closed (env : Env) (s : canlog_vfs_autonaming)
    (msg : CAN_log_message_t) (hc : s.m_isopen = false) :
    (s.OutputMsg env msg).state.m_isopen = false ∧
    (s.OutputMsg env msg).state.m_connmap.length = s.m_connmap.length ∧
    (s.m_keep_empty_files = false →
      (s.OutputMsg env msg).state.m_path = s.m_path ∧
      (s.OutputMsg env msg).state.m_file_nb_splits = s.m_file_nb_splits) ∧
    ((s.OutputMsg env msg).cycled_before = false →
      (s.OutputMsg env msg).cycled_after = false →
      (s.OutputMsg env msg).state.m_path = s.m_path ∧
      (s.OutputMsg env msg).state.m_file_nb_splits = s.m_file_nb_splits) ∧
    (s.m_keep_empty_files = true → (s.OutputMsg env msg).cycled_before = true →
      (s.OutputMsg env msg).cycled_after = false →
      (s.OutputMsg env msg).state.m_file_nb_splits = (s.m_file_nb_splits + 1) % UINT64_MOD ∧
      (s.OutputMsg env msg).state.m_path = compute_log_file_name env
        { s with m_file_nb_splits := (s.m_file_nb_splits + 1) % UINT64_MOD }) := by
  obtain ⟨s1, s2, hs1, hs2, hst⟩ := canlog_vfs_autonaming.OutputMsg_steps env s msg
  rw [hst]
  generalize (s.OutputMsg env msg).cycled_before = b at hs1 ⊢
  generalize (s.OutputMsg env msg).cycled_after = a
  have h1 : s1.m_isopen = false ∧ s1.m_connmap = s.m_connmap ∧
      (s.m_keep_empty_files = false → s1 = s) := by
    rw [hs1]
    cases b
    · exact ⟨hc, rfl, fun _ => rfl⟩
    · exact canlog_vfs_autonaming.CycleLogfile_closed env s hc
  obtain ⟨ho1, hm1, hk1⟩ := h1
  have ho2 : s2.m_isopen = false := by rw [hs2]; exact ho1
  have hp2 : s2.m_path = s1.m_path := by rw [hs2]; rfl
  have hn2 : s2.m_file_nb_splits = s1.m_file_nb_splits := by rw [hs2]
  have hk2 : s2.m_keep_empty_files = s1.m_keep_empty_files := by rw [hs2]
  have hl2 : s2.m_connmap.length = s.m_connmap.length := by
    rw [hs2, ← hm1]; simp [canlog_vfs.OutputMsg]
  obtain ⟨ho3, hm3, hk3⟩ := canlog_vfs_autonaming.CycleLogfile_closed env s2 ho2
  refine ⟨?_, ?_, ?_, ?_, ?_⟩
  · cases a
    · exact ho2
    · exact ho3
  · cases a
    · exact hl2
    · simp only [if_true]; rw [hm3]; exact hl2
  · intro hk
    have e1 : s1 = s := hk1 hk
    have hk2' : s2.m_keep_empty_files = false := by rw [hk2, e1]; exact hk
    have e3 : (if a = true then s2.CycleLogfile env else s2) = s2 := by
      cases a
      · rfl
      · exact hk3 hk2'
    rw [e3, hp2, hn2, e1]
    exact ⟨rfl, rfl⟩
  · intro hb' ha'
    subst hb' ha'
    simp only [Bool.false_eq_true, if_false] at hs1 ⊢
    rw [hp2, hn2, hs1]
    exact ⟨rfl, rfl⟩
  · intro hk hb' ha'
    subst hb' ha'
    simp only [if_true, Bool.false_eq_true, if_false] at hs1 ⊢
    have hr := canlog_vfs_autonaming.CycleLogfile_run env s (Or.inl hk)
    rw [hp2, hn2, hs1]
    exact ⟨hr.2, hr.1⟩

/-- C24, amended, at a concrete call: with keep-empty-files off, `sample_sink` is closed and a
frame that arrives half an hour later leaves its split counter at 1. -/
theorem C24_closed_sink_stays_closed_witness :
    (sample_sink.OutputMsg half_hour_env sample_msg).state.m_isopen = false ∧
    (sample_sink.OutputMsg half_hour_env sample_msg).state.m_file_nb_splits = 1 :=
  ⟨(C24_closed_sink_stays_closed half_hour_env sample_sink sample_msg (by decide)).1,
   ((C24_closed_sink_stays_closed half_hour_env sample_sink sample_msg (by decide)).2.2.1
      (by decide)).2⟩

/-! ## A read event without a Connection -/

/-- C28: the read case of the TCP server looks the handle up, leaves `clc` null when the
lookup fails and then calls `clc->m_formatter->Serve`. Whenever the sink has a formatter and
the handle of a read event has no entry in the registry, the handler dereferences the null
pointer. `second_server` is open and has accepted no peer; the read event of the handle 5,
a peer that an earlier sink accepted, has no Connection in its registry. The TCP client, in
the same situation, calls `Serve` on the sink's own formatter and goes on. -/
theorem C28_read_dereferences_missing_connection :
    (∀ (env : NetEnv) (s : canlog_tcpserver) (nc : mg_connection),
      env.m_formatter = true → conn_map_find s.m_connmap nc.nc = none →
      s.MongooseHandler env nc .MG_EV_READ = none) ∧
    second_server.m_isopen = true ∧
    second_server.m_connmap.length = 0 ∧
    (second_server.MongooseHandler (net_at 0) (peer 5 77 [1, 2, 3, 4]) .MG_EV_READ).isNone
      = true ∧
    ((canlog_tcpclient.new "h:1".toList).MongooseHandler (net_at 0) (peer 5 77 [1, 2, 3, 4])
        .MG_EV_READ).2.recv = [] := by
  refine ⟨?_, by decide, by decide, by decide, by decide⟩
  intro env s nc hf hreg
  simp [canlog_tcpserver.MongooseHandler, hf, hreg]

/-! ## The order of the substitutions -/

/-- C29: `compute_log_file_name` applies `replaceAll` five times, one placeholder after the
other in the key order of the map: `{extension}`, `{prefix}`, `{session}`, `{splits}`,
`{vehicleid}`, each on the text that the one before has left. So with the pattern `{prefix}`
and the prefix `{splits}` the result is the split counter in its 8 characters, for every
split counter, extension and vehicle id; and with the pattern `{vehicleid}` a vehicle id
`{splits}` comes out verbatim, because no substitution follows the last one. -/
theorem C29_substitution_is_sequential (env : Env) (s : canlog_vfs_autonaming) :
    compute_log_file_name_patterns env s
      = replaceAll (replaceAll (replaceAll (replaceAll (replaceAll s.m_file_name_pattern
          "\x7bextension\x7d".toList env.preferred_file_extension)
          "\x7bprefix\x7d".toList (canlog_vfs_autonaming.m_prefix s))
          "\x7bsession\x7d".toList (snprintf_08lld env.GetRestartCount))
          "\x7bsplits\x7d".toList (snprintf_08lld s.m_file_nb_splits))
          "\x7bvehicleid\x7d".toList (env.GetParamValue "vehicle" "id" "OVMS".toList) ∧
    (s.m_file_name_pattern = "\x7bprefix\x7d".toList →
      canlog_vfs_autonaming.m_prefix s = "\x7bsplits\x7d".toList →
      compute_log_file_name_patterns env s = snprintf_08lld s.m_file_nb_splits) ∧
    (s.m_file_name_pattern = "\x7bvehicleid\x7d".toList →
      env.GetParamValue "vehicle" "id" "OVMS".toList = "\x7bsplits\x7d".toList →
      compute_log_file_name_patterns env s = "\x7bsplits\x7d".toList) := by
  have horder : compute_log_file_name_patterns env s
      = replaceAll (replaceAll (replaceAll (replaceAll (replaceAll s.m_file_name_pattern
          "\x7bextension\x7d".toList env.preferred_file_extension)
          "\x7bprefix\x7d".toList (canlog_vfs_autonaming.m_prefix s))
          "\x7bsession\x7d".toList (snprintf_08lld env.GetRestartCount))
          "\x7bsplits\x7d".toList (snprintf_08lld s.m_file_nb_splits))
          "\x7bvehicleid\x7d".toList (env.GetParamValue "vehicle" "id" "OVMS".toList) := by
    simp only [compute_log_file_name_patterns, New_Map_eq, List.foldl_cons, List.foldl_nil]
  refine ⟨horder, ?_, ?_⟩
  · intro hp hx
    rw [horder, hp, hx]
    have hd : '\x7b' ∉ snprintf_08lld s.m_file_nb_splits :=
      fun h => (snprintf_08lld_plain _ _ h).1 rfl
    have h5 := replaceAll_skip '\x7b' "vehicleid\x7d".toList
      (env.GetParamValue "vehicle" "id" "OVMS".toList) (snprintf_08lld s.m_file_nb_splits) [] hd
    simp only [List.append_nil, replaceAll_nil] at h5
    simp [replaceAll_cons_ne, replaceAll_at_front, replaceAll_nil, isPrefixOf_cons_cons]
    exact h5
  · intro hp hv
    rw [horder, hp, hv]
    simp [replaceAll_cons_ne, replaceAll_at_front, replaceAll_nil, isPrefixOf_cons_cons]

/-- C29 at concrete sinks: `brace_sink` (pattern `{prefix}`, prefix `{splits}`, split counter
1) gives `00000001`, and `id_sink` (pattern `{vehicleid}`) with the vehicle id `{splits}`
gives `{splits}`. -/
theorem C29_substitution_is_sequential_witness :
    compute_log_file_name_patterns sample_env brace_sink = snprintf_08lld 1 ∧
    compute_log_file_name_patterns brace_id_env id_sink = "\x7bsplits\x7d".toList :=
  ⟨(C29_substitution_is_sequential sample_env brace_sink).2.1 rfl rfl,
   (C29_substitution_is_sequential brace_id_env id_sink).2.2 rfl rfl⟩

/-! ## `replaceAll` against its reference -/

theorem replace_occurrences_skip (pat rep : Str) (n : Nat) (s : Str) :
    replace_occurrences pat rep n s = replace_occurrences pat rep 0 (s.drop n) ∧
    count_occurrences pat n s = count_occurrences pat 0 (s.drop n) := by
  induction n generalizing s with
  | zero => simp
  | succ k ih =>
    cases s with
    | nil => simp [replace_occurrences, count_occurrences]
    | cons c cs => simp [replace_occurrences, count_occurrences, ih cs]

theorem findFrom_no_infix (pat : Str) (s : Str) (i : Nat) (h : ¬ pat <:+: s) :
    findFrom pat s i = none := by
  induction s generalizing i with
  | nil =>
    have hp : pat.isPrefixOf [] = false := by
      cases hb : pat.isPrefixOf []
      · rfl
      · exact absurd (List.IsPrefix.isInfix (List.isPrefixOf_iff_prefix.1 hb)) h
    simp [findFrom, hp]
  | cons c cs ih =>
    have hp : pat.isPrefixOf (c :: cs) = false := by
      cases hb : pat.isPrefixOf (c :: cs)
      · rfl
      · exact absurd (List.IsPrefix.isInfix (List.isPrefixOf_iff_prefix.1 hb)) h
    have hcs : ¬ pat <:+: cs := fun hi => h (hi.trans (List.suffix_cons c cs).isInfix)
    simp [findFrom, hp, ih (i + 1) hcs]

theorem replaceAll_reference (pat rep : Str) (hpat : pat ≠ []) :
    ∀ (n : Nat) (s : Str), s.length = n →
      replaceAll s pat rep = replace_occurrences pat rep 0 s ∧
      (replaceAll s pat rep).length + count_occurrences pat 0 s * pat.length
        = s.length + count_occurrences pat 0 s * rep.length := by
  intro n
  induction n using Nat.strong_induction_on with
  | _ n ih =>
    intro s hs
    cases s with
    | nil => simp [replaceAll_nil, replace_occurrences, count_occurrences]
    | cons c cs =>
      have hpl : 1 ≤ pat.length := List.length_pos.2 hpat
      cases hb : pat.isPrefixOf (c :: cs) with
      | false =>
        have hrec := ih cs.length (by simp at hs; omega) cs rfl
        rw [replaceAll_cons_ne pat rep c cs hb]
        simp only [replace_occurrences, count_occurrences, hb, Bool.false_eq_true, if_false,
          List.length_cons]
        exact ⟨by rw [hrec.1], by omega⟩
      | true =>
        have hle : pat.length ≤ (c :: cs).length :=
          (List.isPrefixOf_iff_prefix.1 hb).length_le
        have hdrop : (c :: cs).drop pat.length = cs.drop (pat.length - 1) := by
          obtain ⟨k, hk⟩ : ∃ k, pat.length = k + 1 := ⟨pat.length - 1, by omega⟩
          rw [hk]; simp
        have hlen : ((c :: cs).drop pat.length).length < n := by
          rw [List.length_drop, ← hs]; simp; omega
        have hrec := ih _ hlen ((c :: cs).drop pat.length) rfl
        have hsk := replace_occurrences_skip pat rep (pat.length - 1) cs
        rw [replaceAll_at_front pat rep hpat (c :: cs) hb]
        simp only [replace_occurrences, count_occurrences, hb, if_true, hsk.1, hsk.2]
        rw [← hdrop]
        refine ⟨by rw [hrec.1], ?_⟩
        have h2 := hrec.2
        rw [List.length_drop] at h2
        simp only [List.length_append]
        have e1 : (1 + count_occurrences pat 0 ((c :: cs).drop pat.length)) * pat.length
            = pat.length + count_occurrences pat 0 ((c :: cs).drop pat.length) * pat.length := by
          ring
        have e2 : (1 + count_occurrences pat 0 ((c :: cs).drop pat.length)) * rep.length
            = rep.length + count_occurrences pat 0 ((c :: cs).drop pat.length) * rep.length := by
          ring
        rw [e1, e2]
        omega

/-- C30: `replaceAll(str, from, to)` terminates: with a non-empty `from` its loop ends within
`|str| + 1` rounds, whatever `to` is, and with an empty `from` it returns at once. It leaves
`str` unchanged when `from` is empty and when `from` does not occur in `str`. Otherwise it
equals the reference replacement `replace_occurrences`, which replaces the non-overlapping
occurrences found from left to right and does not read inserted text again, and the length
of the result is `|str| + k * (|to| - |from|)` for the `k` occurrences replaced. -/
theorem C30_replaceAll_terminates_and_matches_reference (str pat rep : Str) :
    (pat ≠ [] →
      replaceAllLoop pat rep (str.length + 1) str 0 = some (replaceAll str pat rep)) ∧
    (pat = [] → replaceAll str pat rep = str) ∧
    (¬ pat <:+: str → replaceAll str pat rep = str) ∧
    (pat ≠ [] → replaceAll str pat rep = replace_occurrences pat rep 0 str) ∧
    (pat ≠ [] →
      ((replaceAll str pat rep).length : Int)
        = str.length + (count_occurrences pat 0 str : Int) * ((rep.length : Int) - pat.length)) := by
  refine ⟨?_, ?_, ?_, ?_, ?_⟩
  · intro hpat
    exact replaceAll_eq_loop pat rep hpat str (str.length + 1) (by omega)
  · intro hpat
    simp [replaceAll, hpat]
  · intro hno
    have hf : find str pat 0 = none := by
      simp [find, findFrom_no_infix pat str 0 hno]
    by_cases hpat : pat.isEmpty = true
    · simp [replaceAll, hpat]
    · simp [replaceAll, hpat, replaceAllLoop, hf]
  · intro hpat
    exact (replaceAll_reference pat rep hpat str.length str rfl).1
  · intro hpat
    have h := (replaceAll_reference pat rep hpat str.length str rfl).2
    have h2 : ((replaceAll str pat rep).length : Int)
        + (count_occurrences pat 0 str : Int) * (pat.length : Int)
        = (str.length : Int) + (count_occurrences pat 0 str : Int) * (rep.length : Int) := by
      exact_mod_cast h
    rw [mul_sub]
    omega

/-- C30 at a concrete call, with `to` containing `from`: replacing `x` by `yx` in `axbxc`
gives `ayxbyxc`, two occurrences replaced and the length 5 + 2 * (2 - 1). -/
theorem C30_replaceAll_terminates_and_matches_reference_witness :
    replaceAll "axbxc".toList "x".toList "yx".toList = "ayxbyxc".toList ∧
    count_occurrences "x".toList 0 "axbxc".toList = 2 := by
  have h := (C30_replaceAll_terminates_and_matches_reference "axbxc".toList "x".toList
    "yx".toList).2.2.2.1 (by decide)
  exact ⟨by rw [h]; decide, by decide⟩

/-! ## The collapsing step in terms of runs -/

theorem expand_runs_of (s : Str) : expand_runs (runs_of s) = s ∧ maximal_runs (runs_of s) := by
  induction s with
  | nil => exact ⟨rfl, List.chain'_nil⟩
  | cons c cs ih =>
    obtain ⟨h1, h2⟩ := ih
    cases hr : runs_of cs with
    | nil =>
      rw [hr] at h1
      simp only [runs_of, hr]
      refine ⟨?_, List.chain'_singleton _⟩
      simp only [expand_runs] at h1 ⊢
      rw [← h1]; rfl
    | cons r rest =>
      obtain ⟨d, n⟩ := r
      rw [hr] at h1 h2
      simp only [runs_of, hr]
      by_cases hcd : c = d
      · subst hcd
        simp only [if_true]
        refine ⟨?_, ?_⟩
        · simp only [expand_runs] at h1 ⊢
          rw [← h1]; rfl
        · unfold maximal_runs at h2 ⊢
          cases rest with
          | nil => exact List.chain'_singleton _
          | cons r2 rest2 =>
            rw [List.chain'_cons] at h2 ⊢
            exact h2
      · simp only [hcd, if_false]
        refine ⟨?_, ?_⟩
        · simp only [expand_runs] at h1 ⊢
          rw [← h1]; rfl
        · unfold maximal_runs at h2 ⊢
          rw [List.chain'_cons]
          exact ⟨hcd, h2⟩

theorem dedupFrom_replicate (c : Char) (n : Nat) (rest : Str) :
    dedupFrom c (List.replicate n c ++ rest)
      = (if c = '/' ∨ c = '.' then [] else List.replicate n c) ++ dedupFrom c rest := by
  induction n with
  | zero => by_cases h : c = '/' ∨ c = '.' <;> simp [h]
  | succ k ih =>
    by_cases h : c = '/' ∨ c = '.'
    · simp only [List.replicate_succ, List.cons_append, dedupFrom, h, and_self, if_true] at ih ⊢
      exact ih
    · simp only [List.replicate_succ, List.cons_append, dedupFrom, h, and_false, if_false] at ih ⊢
      exact congrArg (c :: ·) ih

theorem dedupFrom_runs (rs : List (Char × Nat)) (hmax : maximal_runs rs) (p : Char)
    (hp : ∀ r ∈ rs.head?, r.1 ≠ p) :
    dedupFrom p (expand_runs rs) = expand_runs (rs.map squeeze_run) := by
  induction rs generalizing p with
  | nil => rfl
  | cons r rest ih =>
    obtain ⟨d, n⟩ := r
    have hdp : ¬ p = d := fun h => hp (d, n) (by simp) h.symm
    have hrest : maximal_runs rest := List.Chain'.tail hmax
    have hhead : ∀ r ∈ rest.head?, r.1 ≠ d := by
      intro r hr
      cases rest with
      | nil => simp at hr
      | cons r2 rest2 =>
        simp only [List.head?_cons, Option.mem_def, Option.some.injEq] at hr
        subst hr
        unfold maximal_runs at hmax
        rw [List.chain'_cons] at hmax
        exact fun h => hmax.1 h.symm
    have hih := ih hrest d hhead
    have h1 : dedupFrom p (d :: (List.replicate n d ++ expand_runs rest))
        = d :: dedupFrom d (List.replicate n d ++ expand_runs rest) := by
      simp [dedupFrom, hdp]
    by_cases hs : d = '/' ∨ d = '.'
    · have hsq : squeeze_run (d, n) = (d, 0) := if_pos hs
      rw [List.map_cons, hsq]
      simp only [expand_runs, List.replicate_succ, List.cons_append, List.replicate_zero,
        List.nil_append]
      rw [h1, dedupFrom_replicate, hih]
      simp [hs]
    · have hsq : squeeze_run (d, n) = (d, n) := if_neg hs
      rw [List.map_cons, hsq]
      simp only [expand_runs, List.replicate_succ, List.cons_append]
      rw [h1, dedupFrom_replicate, hih]
      simp [hs]

theorem dedupFrom_chain (p : Char) (s : Str) :
    List.Chain (fun a b => ¬ (a = b ∧ (b = '/' ∨ b = '.'))) p (dedupFrom p s) := by
  induction s generalizing p with
  | nil => exact List.Chain.nil
  | cons c cs ih =>
    by_cases h : p = c ∧ (c = '/' ∨ c = '.')
    · obtain ⟨rfl, hc⟩ := h
      simp only [dedupFrom, hc, and_self, if_true]
      exact ih p
    · simp only [dedupFrom, h, if_false]
      exact List.Chain.cons h (ih c)

theorem dedupFrom_fixed (p : Char) (s : Str)
    (h : List.Chain (fun a b => ¬ (a = b ∧ (b = '/' ∨ b = '.'))) p s) :
    dedupFrom p s = s := by
  induction s generalizing p with
  | nil => rfl
  | cons c cs ih =>
    rw [List.chain_cons] at h
    simp only [dedupFrom, h.1, if_false]
    rw [ih c h.2]

theorem collapse_nil : collapse [] = [] := by decide

theorem collapse_no_doubled (path : Str) : no_doubled (collapse path) := by
  cases path with
  | nil => rw [collapse_nil]; exact List.chain'_nil
  | cons c cs => rw [collapse_cons]; exact dedupFrom_chain c cs

theorem collapse_runs (rs : List (Char × Nat)) (hmax : maximal_runs rs) :
    collapse (expand_runs rs) = expand_runs (rs.map squeeze_run) := by
  cases rs with
  | nil => exact collapse_nil
  | cons r rest =>
    obtain ⟨d, n⟩ := r
    obtain ⟨p, hp⟩ : ∃ p : Char, p ≠ d := by
      by_cases h : d = 'a'
      · exact ⟨'b', by rw [h]; decide⟩
      · exact ⟨'a', fun h1 => h h1.symm⟩
    have h := dedupFrom_runs ((d, n) :: rest) hmax p
      (by intro r hr; simp at hr; subst hr; exact fun h1 => hp h1.symm)
    rw [← h]
    simp only [expand_runs, List.replicate_succ, List.cons_append]
    rw [collapse_cons]
    simp [dedupFrom, hp]

/-- C22: the collapsing step of `compute_log_file_name`. Every path is the chain of its
maximal runs, and `collapse` returns the chain in which each run of `/` and each run of `.`
is a single character and every other run is as it was, in the same order. The result holds
neither `//` nor `..`, and collapsing it again changes nothing. -/
theorem C22_collapse_squeezes_runs (path : Str) :
    (expand_runs (runs_of path) = path ∧ maximal_runs (runs_of path)) ∧
    collapse path = expand_runs ((runs_of path).map squeeze_run) ∧
    (∀ rs, maximal_runs rs → collapse (expand_runs rs) = expand_runs (rs.map squeeze_run)) ∧
    ¬ "//".toList <:+: collapse path ∧
    ¬ "..".toList <:+: collapse path ∧
    collapse (collapse path) = collapse path := by
  have hr := expand_runs_of path
  have hnd := collapse_no_doubled path
  refine ⟨hr, ?_, collapse_runs, ?_, ?_, ?_⟩
  · have h := collapse_runs (runs_of path) hr.2
    rw [hr.1] at h
    exact h
  · intro hin
    have h := List.Chain'.infix hnd hin
    simp [List.chain'_cons] at h
  · intro hin
    have h := List.Chain'.infix hnd hin
    simp [List.chain'_cons] at h
  · cases path with
    | nil => rw [collapse_nil, collapse_nil]
    | cons c cs =>
      rw [collapse_cons, collapse_cons, dedupFrom_fixed c _ (dedupFrom_chain c cs)]

/-- C22 at a concrete path: `/sd//log/./a...crtd` has the runs `/`, `s`, `d`, `//`, ... and
collapses to `/sd/log/./a.crtd`. -/
theorem C22_collapse_squeezes_runs_witness :
    collapse "/sd//log/./a...crtd".toList = "/sd/log/./a.crtd".toList := by
  rw [(C22_collapse_squeezes_runs "/sd//log/./a...crtd".toList).2.1]
  decide

/-! ## The connection states of `OvmsNetTcpClient` -/

/-- C25 fails: `failed_client` and `disconnected_client` are what an error event and a close
event make of a connecting client. Both events clear the transport handle, and
`Disconnect()` does nothing without a handle: the client stays Failed, respectively
Disconnected, instead of returning to Idle. -/
theorem C25_Disconnect_keeps_failed_and_disconnected :
    connecting_client.Mongoose 0 List.length (peer 7 1 []) .MG_EV_ERROR
      = some (failed_client, peer 7 1 []) ∧
    connecting_client.Mongoose 0 List.length (peer 7 1 []) .MG_EV_CLOSE
      = some (disconnected_client, peer 7 1 []) ∧
    failed_client.Disconnect.m_netstate = .NetConnFailed ∧
    disconnected_client.Disconnect.m_netstate = .NetConnDisconnected := by
  refine ⟨rfl, rfl, by decide, by decide⟩

theorem OvmsNetTcpClient.Mongoose_handle (mg_millis : Nat) (IncomingData : List Nat → Nat)
    (s : OvmsNetTcpClient) (nc : mg_connection) (ev : mg_event)
    (r : OvmsNetTcpClient × mg_connection)
    (h : s.Mongoose mg_millis IncomingData nc ev = some r)
    (hs : s.m_netstate ≠ .NetConnConnecting → s.m_netstate ≠ .NetConnConnected →
      s.m_mgconn = 0) :
    r.1.m_netstate ≠ .NetConnConnecting → r.1.m_netstate ≠ .NetConnConnected →
      r.1.m_mgconn = 0 := by
  cases ev with
  | MG_EV_CONNECT success =>
    simp only [OvmsNetTcpClient.Mongoose, Option.some.injEq] at h
    subst h
    intro _ h2; exact absurd rfl h2
  | MG_EV_OPEN =>
    simp only [OvmsNetTcpClient.Mongoose] at h
    split at h <;> (cases h; exact hs)
  | MG_EV_POLL =>
    simp only [OvmsNetTcpClient.Mongoose] at h
    repeat' split at h
    all_goals first | (cases h; first | exact hs | exact fun _ _ => rfl) | cases h
  | MG_EV_ERROR => cases h; exact fun _ _ => rfl
  | MG_EV_CLOSE => cases h; exact fun _ _ => rfl
  | MG_EV_READ =>
    simp only [OvmsNetTcpClient.Mongoose] at h
    split at h <;> (cases h; exact hs)
  | MG_EV_ACCEPT => cases h; exact hs
  | MG_EV_OTHER => cases h; exact hs

theorem OvmsNetTcpClient.Reach_handle (s : OvmsNetTcpClient) (h : OvmsNetTcpClient.Reach s) :
    s.m_netstate ≠ .NetConnConnecting → s.m_netstate ≠ .NetConnConnected → s.m_mgconn = 0 := by
  induction h with
  | ctor => exact fun _ _ => rfl
  | connect env s dest timeout _ ih =>
    unfold OvmsNetTcpClient.Connect
    split
    · exact ih
    · by_cases h0 : env.mg_connect dest = 0
      · simp only [h0, if_true]
        intros
        first | rfl | trivial
      · simp only [h0, if_false]
        intro h1 _; exact absurd rfl h1
  | disconnect s _ ih =>
    unfold OvmsNetTcpClient.Disconnect
    split
    · exact fun _ _ => rfl
    · exact ih
  | event mg_millis IncomingData s nc ev r _ hev ih =>
    exact OvmsNetTcpClient.Mongoose_handle mg_millis IncomingData s nc ev r hev ih

/-- C25, amended: a `Connect()` that gets a transport handle yields Connecting with that
handle; a connect event yields Connected; an error event yields Failed and a close event
yields Disconnected, both without a handle. `Disconnect()` returns the client to Idle
without a handle from every state in which it holds a handle, and changes nothing when it
holds none. In every reachable state other than Connecting and Connected the client holds
no handle, so a client that is Failed or Disconnected stays so under `Disconnect()`. -/
theorem C25_client_state_transitions (env : NetEnv) (s : OvmsNetTcpClient) (dest : Str)
    (timeout mg_millis : Nat) (IncomingData : List Nat → Nat) (nc : mg_connection)
    (success : Int) :
    (env.GetMongooseMgr = true → env.mg_connect dest ≠ 0 →
      (s.Connect env dest timeout).1 = true ∧
      (s.Connect env dest timeout).2.m_netstate = .NetConnConnecting ∧
      (s.Connect env dest timeout).2.m_mgconn = env.mg_connect dest) ∧
    s.Mongoose mg_millis IncomingData nc (.MG_EV_CONNECT success)
      = some ({ s with m_netstate := .NetConnConnected }, nc) ∧
    s.Mongoose mg_millis IncomingData nc .MG_EV_ERROR
      = some ({ s with m_netstate := .NetConnFailed, m_mgconn := 0 }, nc) ∧
    s.Mongoose mg_millis IncomingData nc .MG_EV_CLOSE
      = some ({ s with m_netstate := .NetConnDisconnected, m_mgconn := 0 }, nc) ∧
    (s.m_mgconn ≠ 0 →
      s.Disconnect.m_netstate = .NetConnIdle ∧ s.Disconnect.m_mgconn = 0) ∧
    (s.m_mgconn = 0 → s.Disconnect = s) ∧
    (OvmsNetTcpClient.Reach s →
      s.m_netstate = .NetConnFailed ∨ s.m_netstate = .NetConnDisconnected ∨
        s.m_netstate = .NetConnIdle →
      s.m_mgconn = 0 ∧ s.Disconnect = s) := by
  have hd0 : s.m_mgconn = 0 → s.Disconnect = s := by
    intro h; simp [OvmsNetTcpClient.Disconnect, h]
  refine ⟨?_, rfl, rfl, rfl, ?_, hd0, ?_⟩
  · intro hm hc
    simp [OvmsNetTcpClient.Connect, hm, hc]
  · intro h
    simp [OvmsNetTcpClient.Disconnect, h]
  · intro hr hst
    have h0 : s.m_mgconn = 0 := by
      apply OvmsNetTcpClient.Reach_handle s hr
      · rcases hst with h | h | h <;> rw [h] <;> decide
      · rcases hst with h | h | h <;> rw [h] <;> decide
    exact ⟨h0, hd0 h0⟩

/-- C25, amended, at a concrete client: `Disconnect()` on `connecting_client`, which holds
the handle 7, gives Idle without a handle. -/
theorem C25_client_state_transitions_witness :
    connecting_client.m_netstate = .NetConnConnecting ∧
    connecting_client.Disconnect.m_netstate = .NetConnIdle ∧
    connecting_client.Disconnect.m_mgconn = 0 :=
  ⟨by decide,
   (C25_client_state_transitions (net_at 0) connecting_client [] 0 0 List.length (peer 7 1 [])
      0).2.2.2.2.1 (by decide)⟩

/-! ## The directories that `compute_log_file_name` creates -/

theorem findFrom_slash_at (c r : Str) (hc : '/' ∉ c) (i : Nat) :
    findFrom ['/'] (c ++ '/' :: r) i = some (i + c.length) := by
  induction c generalizing i with
  | nil => simp [findFrom, isPrefixOf_cons_cons]
  | cons a c ih =>
    have ha : a ≠ '/' := fun h => hc (by simp [h])
    have hc' : '/' ∉ c := fun h => hc (List.mem_cons_of_mem _ h)
    have hp : List.isPrefixOf ['/'] (a :: (c ++ '/' :: r)) = false := by
      simp [isPrefixOf_cons_cons, Ne.symm ha]
    show (if List.isPrefixOf ['/'] (a :: (c ++ '/' :: r)) = true then some i
      else findFrom ['/'] (c ++ '/' :: r) (i + 1)) = some (i + (a :: c).length)
    rw [hp, ih hc' (i + 1)]
    simp only [Bool.false_eq_true, if_false, List.length_cons]
    exact congrArg some (by omega)

theorem findFrom_slash_none (c : Str) (hc : '/' ∉ c) (i : Nat) :
    findFrom ['/'] c i = none := by
  apply findFrom_no_infix
  intro h
  exact hc (h.subset (by simp))

theorem mkdirLoop_done (fuel : Nat) (path : Str) (i : Nat) (h : ¬ i < path.length) :
    mkdirLoop fuel path i = some [] := by
  cases fuel <;> simp [mkdirLoop, h]

theorem find_slash_after (P c r : Str) (hc : '/' ∉ c) :
    (r = [] → find_slash (P ++ '/' :: (c ++ r)) (P.length + 1) = npos) ∧
    (∀ r1, r = '/' :: r1 →
      find_slash (P ++ '/' :: (c ++ r)) (P.length + 1) = P.length + 1 + c.length) := by
  have hsplit : P ++ '/' :: (c ++ r) = (P ++ ['/']) ++ (c ++ r) := by simp
  have hl : (P ++ ['/']).length = P.length + 1 := by simp
  have hf := find_append ['/'] (P ++ ['/']) (c ++ r)
  rw [hl, ← hsplit] at hf
  constructor
  · intro hr
    subst hr
    rw [List.append_nil] at hf ⊢
    simp [find_slash, hf, findFrom_slash_none c hc 0]
  · intro r1 hr
    subst hr
    simp only [find_slash, hf, findFrom_slash_at c r1 hc 0]
    simp
    omega

theorem mkdirLoop_components (cs : List Str) :
    ∀ (c P : Str) (fuel : Nat), '/' ∉ c → (∀ x ∈ cs, '/' ∉ x) →
      (P ++ join_path (c :: cs)).length ≤ npos → cs.length + 1 ≤ fuel →
      mkdirLoop fuel (P ++ join_path (c :: cs)) P.length
        = some (((c :: cs).dropLast.inits).map (fun x => P ++ join_path x)) := by
  induction cs with
  | nil =>
    intro c P fuel hc _ hlen hfuel
    obtain ⟨f, rfl⟩ : ∃ f, fuel = f + 1 := ⟨fuel - 1, by omega⟩
    have hi : P.length < (P ++ join_path [c]).length := by simp [join_path]
    have hnext := (find_slash_after P c [] hc).1 rfl
    simp only [join_path, List.append_nil] at hnext hi hlen ⊢
    simp only [mkdirLoop, hi, if_true, hnext]
    rw [mkdirLoop_done f _ npos (by omega)]
    simp [join_path]
  | cons c2 cs ih =>
    intro c P fuel hc hcs hlen hfuel
    obtain ⟨f, rfl⟩ : ∃ f, fuel = f + 1 := ⟨fuel - 1, by simp at hfuel; omega⟩
    have hi : P.length < (P ++ join_path (c :: c2 :: cs)).length := by simp [join_path]
    have hnext := (find_slash_after P c (join_path (c2 :: cs)) hc).2 _ rfl
    have hP : P ++ join_path (c :: c2 :: cs) = (P ++ '/' :: c) ++ join_path (c2 :: cs) := by
      simp [join_path]
    have hPl : (P ++ '/' :: c).length = P.length + 1 + c.length := by simp; omega
    have hrec := ih c2 (P ++ '/' :: c) f (hcs c2 (by simp))
      (fun x hx => hcs x (List.mem_cons_of_mem _ hx)) (by rw [← hP]; exact hlen)
      (by simp at hfuel; omega)
    rw [← hP, hPl] at hrec
    have hstep : mkdirLoop (f + 1) (P ++ join_path (c :: c2 :: cs)) P.length
        = (mkdirLoop f (P ++ join_path (c :: c2 :: cs)) (P.length + 1 + c.length)).map
            (fun l => P :: l) := by
      have hn2 : find_slash (P ++ join_path (c :: c2 :: cs)) (P.length + 1)
          = P.length + 1 + c.length := hnext
      simp only [mkdirLoop, hi, if_true, hn2, List.take_left']
    rw [hstep, hrec]
    simp [List.inits_cons, join_path, Function.comp_def]

theorem find_slash_gt (path : Str) (i : Nat) (hlen : path.length ≤ npos)
    (hi : i < path.length) : i < find_slash path (i + 1) := by
  unfold find_slash find
  rw [if_pos (by omega), findFrom_shift]
  cases findFrom ['/'] (path.drop (i + 1)) 0 with
  | none => simp only [Option.map_none', Option.getD_none]; omega
  | some q => simp only [Option.map_some', Option.getD_some]; omega

theorem mkdirLoop_total (fuel : Nat) (path : Str) (hlen : path.length ≤ npos) :
    ∀ i, path.length - i ≤ fuel → ∃ l, mkdirLoop fuel path i = some l := by
  induction fuel with
  | zero =>
    intro i hf
    exact ⟨[], mkdirLoop_done 0 path i (by omega)⟩
  | succ f ih =>
    intro i hf
    by_cases hi : i < path.length
    · have hgt := find_slash_gt path i hlen hi
      obtain ⟨l, hl⟩ := ih (find_slash path (i + 1)) (by omega)
      exact ⟨path.take i :: l, by simp [mkdirLoop, hi, hl]⟩
    · exact ⟨[], mkdirLoop_done _ path i hi⟩

theorem mkdir_calls_total (path : Str) (hlen : path.length < SIZE_MOD) :
    ∃ l, mkdir_calls path = some l := by
  have hn : path.length ≤ npos := by unfold npos; omega
  unfold mkdir_calls
  split
  · simp only []
    split
    · exact mkdirLoop_total _ path hn _ (by omega)
    · exact ⟨[], rfl⟩
  · exact ⟨[], rfl⟩


theorem join_path_length (l : List Str) : l.length ≤ (join_path l).length := by
  induction l with
  | nil => simp [join_path]
  | cons c cs ih => simp [join_path]; omega

theorem mkdir_calls_components (a : Char) (c1' c2 : Str) (rest' : List Str)
    (hs1' : '/' ∉ c1') (hs2 : '/' ∉ c2) (hsr : ∀ x ∈ rest', '/' ∉ x)
    (hlen : (join_path ((a :: c1') :: c2 :: rest')).length < SIZE_MOD) :
    (rest' = [] → mkdir_calls (join_path ((a :: c1') :: c2 :: rest')) = some []) ∧
    (rest' ≠ [] → mkdir_calls (join_path ((a :: c1') :: c2 :: rest'))
      = some ((rest'.dropLast.inits).map
          (fun x => (('/' :: a :: c1') ++ '/' :: c2) ++ join_path x))) := by
  have hnp : SIZE_MOD = npos + 1 := by simp [npos, SIZE_MOD]
  have hpath : join_path ((a :: c1') :: c2 :: rest')
      = ('/' :: a :: c1') ++ '/' :: (c2 ++ join_path rest') := by
    simp [join_path]
  have hplen : (join_path ((a :: c1') :: c2 :: rest')).length
      = c1'.length + 3 + c2.length + (join_path rest').length := by
    rw [hpath]; simp; omega
  have hfind1 : find_slash (join_path ((a :: c1') :: c2 :: rest')) 2 = c1'.length + 2 := by
    have hsplit : join_path ((a :: c1') :: c2 :: rest')
        = ['/', a] ++ (c1' ++ '/' :: (c2 ++ join_path rest')) := by simp [join_path]
    have hf := find_append ['/'] ['/', a] (c1' ++ '/' :: (c2 ++ join_path rest'))
    rw [← hsplit] at hf
    simp only [List.length_cons, List.length_nil] at hf
    simp only [find_slash, hf, findFrom_slash_at c1' _ hs1' 0]
    simp
  have hmod : (1 + (c1'.length + 2)) % SIZE_MOD = c1'.length + 3 := by
    rw [Nat.mod_eq_of_lt (by omega)]; omega
  have hnext : (rest' = [] →
        find_slash (join_path ((a :: c1') :: c2 :: rest')) (c1'.length + 3) = npos) ∧
      (∀ r1, join_path rest' = '/' :: r1 →
        find_slash (join_path ((a :: c1') :: c2 :: rest')) (c1'.length + 3)
          = c1'.length + 3 + c2.length) := by
    rw [hpath]
    constructor
    · intro hr
      rw [hr]
      exact (find_slash_after ('/' :: a :: c1') c2 _ hs2).1 rfl
    · intro r1 hr
      exact (find_slash_after ('/' :: a :: c1') c2 _ hs2).2 r1 hr
  unfold mkdir_calls
  rw [if_pos (by omega)]
  simp only [hfind1, hmod]
  cases rest' with
  | nil =>
    refine ⟨fun _ => ?_, fun h => absurd rfl h⟩
    simp only [join_path, List.length_nil, Nat.add_zero] at hplen
    by_cases hgt : (join_path [a :: c1', c2]).length > c1'.length + 3
    · rw [if_pos hgt, hnext.1 rfl]
      exact mkdirLoop_done _ _ npos (by omega)
    · rw [if_neg hgt]
  | cons c3 cs =>
    refine ⟨fun h => by simp at h, fun _ => ?_⟩
    have hj : join_path (c3 :: cs) = '/' :: (c3 ++ join_path cs) := rfl
    have hjl : 1 ≤ (join_path (c3 :: cs)).length := by rw [hj]; simp
    rw [if_pos (by omega), hnext.2 _ hj]
    have hP : join_path ((a :: c1') :: c2 :: c3 :: cs)
        = (('/' :: a :: c1') ++ '/' :: c2) ++ join_path (c3 :: cs) := by
      simp [join_path]
    have hPl : (('/' :: a :: c1') ++ '/' :: c2).length = c1'.length + 3 + c2.length := by
      simp; omega
    have hcomp := mkdirLoop_components cs c3 (('/' :: a :: c1') ++ '/' :: c2)
      (join_path ((a :: c1') :: c2 :: c3 :: cs)).length (hsr c3 (by simp))
      (fun x hx => hsr x (List.mem_cons_of_mem _ hx))
      (by rw [← hP]; omega)
      (by
        have := join_path_length ((a :: c1') :: c2 :: c3 :: cs)
        simp only [List.length_cons] at this ⊢
        omega)
    rw [← hP, hPl] at hcomp
    exact hcomp

/-- C23 fails: for the path `/sd/log/OVMS/f` the directories created are `/sd/log` and
`/sd/log/OVMS`. The first of them is the prefix of the first two components, for which the
claim allows no `mkdir`. -/
theorem C23_mkdir_for_second_component :
    mkdir_calls "/sd/log/OVMS/f".toList
      = some ["/sd/log".toList, "/sd/log/OVMS".toList] := by
  decide

/-- C23, amended: for a path `/c1/c2/.../cn/file` (components without `/`, `c1` not empty,
length below 2^32) `compute_log_file_name` issues no `mkdir` for `/c1`, as its comment "We
skip the first component" says, and one `mkdir` for `/c1/c2` and for each longer directory
prefix, in increasing length order, never for the full path; with a single directory
component it issues none. The directory loop ends for every path whose length is below
2^32. -/
theorem C23_mkdir_skips_first_component_only (c1 : Str) (ds : List Str) (file : Str)
    (hc1 : c1 ≠ []) (hslash : ∀ x ∈ c1 :: (ds ++ [file]), '/' ∉ x)
    (hlen : (join_path (c1 :: (ds ++ [file]))).length < SIZE_MOD) :
    mkdir_calls (join_path (c1 :: (ds ++ [file])))
      = some (((c1 :: ds).inits.drop 2).map join_path) ∧
    (∀ path : Str, path.length < SIZE_MOD → (mkdir_calls path).isSome = true) := by
  refine ⟨?_, fun path hp => by
    obtain ⟨l, hl⟩ := mkdir_calls_total path hp
    simp [hl]⟩
  obtain ⟨a, c1', rfl⟩ : ∃ a c1', c1 = a :: c1' := by
    cases c1 with
    | nil => exact absurd rfl hc1
    | cons a c1' => exact ⟨a, c1', rfl⟩
  have hs1 : '/' ∉ a :: c1' := hslash _ (by simp)
  have hs1' : '/' ∉ c1' := fun h => hs1 (List.mem_cons_of_mem _ h)
  cases ds with
  | nil =>
    have h := (mkdir_calls_components a c1' file [] hs1' (hslash _ (by simp))
      (by simp) hlen).1 rfl
    rw [List.nil_append, h]
    rfl
  | cons d mid =>
    have hsd : '/' ∉ d := hslash _ (by simp)
    have hsr : ∀ x ∈ mid ++ [file], '/' ∉ x := fun x hx => hslash _ (by
      simp only [List.cons_append, List.mem_cons]
      exact Or.inr (Or.inr hx))
    have h := (mkdir_calls_components a c1' d (mid ++ [file]) hs1' hsd hsr hlen).2 (by simp)
    rw [List.cons_append, h, List.dropLast_concat]
    simp [List.inits_cons, join_path, Function.comp_def]

/-- C23, amended, at a concrete path: for `/sd/log/OVMS/00000003/f` the calls are `/sd/log`,
`/sd/log/OVMS` and `/sd/log/OVMS/00000003`. -/
theorem C23_mkdir_skips_first_component_only_witness :
    mkdir_calls "/sd/log/OVMS/00000003/f".toList
      = some ["/sd/log".toList, "/sd/log/OVMS".toList, "/sd/log/OVMS/00000003".toList] :=
  (C23_mkdir_skips_first_component_only "sd".toList
    ["log".toList, "OVMS".toList, "00000003".toList] "f".toList (by decide) (by decide)
    (by decide)).1

/-! ## Topic matching against the MQTT rules -/

theorem ovms_mqtt_next_topic_component_shorter (s : Str) :
    ((ovms_mqtt_next_topic_component s).2 = [] ∨
      (ovms_mqtt_next_topic_component s).2.length < s.length) ∧
    ((ovms_mqtt_next_topic_component s).1.length ≠ 0 → 1 ≤ s.length) := by
  unfold ovms_mqtt_next_topic_component
  cases hf : find s ['/'] 0 with
  | none =>
    refine ⟨Or.inl rfl, ?_⟩
    intro h
    cases s with
    | nil => simp at h
    | cons c cs => simp
  | some c =>
    have h0 : findFrom ['/'] s 0 = some c := by
      simpa [find] using hf
    have hb := (findFrom_some ['/'] s c h0).1
    simp only [List.length_cons, List.length_nil] at hb
    refine ⟨Or.inr ?_, fun _ => by omega⟩
    simp only [List.length_drop]
    omega

theorem ovms_mqtt_match_loop_total (fuel : Nat) :
    ∀ exp topic : Str, exp.length + 2 ≤ fuel →
      ∃ b, ovms_mqtt_match_loop fuel exp topic = some b := by
  induction fuel with
  | zero => intro exp topic h; omega
  | succ f ih =>
    intro exp topic h
    obtain ⟨hshort, hne⟩ := ovms_mqtt_next_topic_component_shorter exp
    have hrec : (ovms_mqtt_next_topic_component exp).2.length ≠ 0 ∨
        (ovms_mqtt_next_topic_component exp).1.length ≠ 0 →
        ∃ b, ovms_mqtt_match_loop f (ovms_mqtt_next_topic_component exp).2
          (ovms_mqtt_next_topic_component topic).2 = some b := by
      intro hc
      apply ih
      rcases hshort with h1 | h1
      · rw [h1]
        rcases hc with h2 | h2
        · rw [h1] at h2; simp at h2
        · have := hne h2
          simp only [List.length_nil]
          omega
      · omega
    simp only [ovms_mqtt_match_loop]
    split
    · split
      · exact ⟨_, rfl⟩
      · split
        · exact ⟨_, rfl⟩
        · rename_i h3
          exact hrec (Or.inl h3)
    · rename_i h1
      split
      · split
        · exact ⟨_, rfl⟩
        · exact hrec (Or.inr h1)
      · split
        · exact ⟨_, rfl⟩
        · split
          · exact ⟨_, rfl⟩
          · exact hrec (Or.inr h1)

/-- C26: `ovms_mqtt_match_topic_expression` always returns, answers 0 for the empty
expression and follows the rules on topics without an empty last level (`a/+/c` and `a/#`
match `a/b/c`, `a//topic` matches `a/+/topic`, `a/#` matches `a`, `a/+` does not match `a`).
But it takes a topic component of length 0 with nothing behind it for the end of the topic:
the topic `a/topic/` of the referenced manual, whose last level is empty, is not matched by
`a/topic/+`, and it is matched by `a/topic`, which has one level less. The level rules of
the claim say the opposite in both cases. -/
theorem C26_empty_last_level_is_not_a_level :
    (∀ exp topic : Str, (ovms_mqtt_match_topic_expression exp topic).isSome = true) ∧
    (∀ topic : Str, ovms_mqtt_match_topic_expression [] topic = some false) ∧
    (ovms_mqtt_match_topic_expression "a/topic/+".toList "a/topic/".toList = some false ∧
      mqtt_reference_match "a/topic/+".toList "a/topic/".toList = true) ∧
    (ovms_mqtt_match_topic_expression "a/topic".toList "a/topic/".toList = some true ∧
      mqtt_reference_match "a/topic".toList "a/topic/".toList = false) ∧
    (ovms_mqtt_match_topic_expression "a/+/c".toList "a/b/c".toList = some true ∧
      ovms_mqtt_match_topic_expression "a/#".toList "a/b/c".toList = some true ∧
      ovms_mqtt_match_topic_expression "a/+/topic".toList "a//topic".toList = some true ∧
      ovms_mqtt_match_topic_expression "a/#".toList "a".toList = some true ∧
      ovms_mqtt_match_topic_expression "a/+".toList "a".toList = some false) := by
  refine ⟨?_, ?_, by decide, by decide, by decide⟩
  · intro exp topic
    unfold ovms_mqtt_match_topic_expression
    split
    · rfl
    · obtain ⟨b, hb⟩ := ovms_mqtt_match_loop_total (exp.length + 2) exp topic (le_refl _)
      rw [hb]; rfl
  · intro topic
    simp [ovms_mqtt_match_topic_expression]

/-! ## Rotation on the duration -/

theorem whole_seconds_le (m : Nat) (x : Int) (hm : m ≠ 0) :
    ((m : Int) ≤ Int.tdiv x 1000000 ↔ (m : Int) * 1000000 ≤ x) := by
  have hm1 : (1 : Int) ≤ (m : Int) := by omega
  rcases le_or_lt 0 x with hx | hx
  · rw [Int.tdiv_eq_ediv hx (by norm_num)]
    exact Int.le_ediv_iff_mul_le (by norm_num)
  · have h1 : Int.tdiv x 1000000 ≤ 0 := by
      have h2 : 0 ≤ Int.tdiv (-x) 1000000 := Int.tdiv_nonneg (by omega) (by norm_num)
      rw [Int.neg_tdiv] at h2
      omega
    constructor
    · intro h; omega
    · intro h; omega

/-- C7: for every rotating sink, whatever its file size and its other settings, `OutputMsg`
invokes `CycleLogfile()` before the write exactly when the maximum duration is non-zero and at
least `m_logfile_max_duration_s` whole seconds (of 1000000 timer ticks) have elapsed since
`m_logfile_start_time`, the timer value that `Open()` recorded. When that holds, the frame is
handed to the sink that `CycleLogfile()` left, so it lands in the registry of the rotated
sink; when it does not hold, and always with a maximum duration of 0, the frame is handed to
the sink as it was on entry. In both cases the state after the call is that sink with the
frame written, followed by the rotation of the size test alone. With the size threshold
switched off the outcome is visible in the state: a rotation that is not skipped leaves the
split counter advanced by one and the path on the name computed for it, and without the
duration condition the counter and the path stay as they were. -/
theorem C7_duration_rotation (env : Env) (s : canlog_vfs_autonaming) (msg : CAN_log_message_t) :
    ((s.m_logfile_max_duration_s ≠ 0 ∧
        (s.m_logfile_max_duration_s : Int) * 1000000
          ≤ env.esp_timer_get_time - s.m_logfile_start_time) →
      (s.OutputMsg env msg).cycled_before = true ∧
      (s.OutputMsg env msg).state
        = (if (s.CycleLogfile env).m_logfile_max_size_kb ≠ 0 ∧
              ((s.CycleLogfile env).m_logfile_max_size_kb * 1024) % SIZE_MOD ≤ s.GetFileSize
           then canlog_vfs_autonaming.CycleLogfile env
             { s.CycleLogfile env with
               tocanlog_vfs := (s.CycleLogfile env).tocanlog_vfs.OutputMsg env msg }
           else
             { s.CycleLogfile env with
               tocanlog_vfs := (s.CycleLogfile env).tocanlog_vfs.OutputMsg env msg })) ∧
    (¬ (s.m_logfile_max_duration_s ≠ 0 ∧
        (s.m_logfile_max_duration_s : Int) * 1000000
          ≤ env.esp_timer_get_time - s.m_logfile_start_time) →
      (s.OutputMsg env msg).cycled_before = false ∧
      (s.OutputMsg env msg).state
        = (if s.m_logfile_max_size_kb ≠ 0 ∧
              (s.m_logfile_max_size_kb * 1024) % SIZE_MOD ≤ s.GetFileSize
           then canlog_vfs_autonaming.CycleLogfile env
             { s with tocanlog_vfs := s.tocanlog_vfs.OutputMsg env msg }
           else { s with tocanlog_vfs := s.tocanlog_vfs.OutputMsg env msg })) ∧
    (s.m_logfile_max_duration_s = 0 →
      (s.OutputMsg env msg).cycled_before = false ∧
      (s.OutputMsg env msg).state
        = (if s.m_logfile_max_size_kb ≠ 0 ∧
              (s.m_logfile_max_size_kb * 1024) % SIZE_MOD ≤ s.GetFileSize
           then canlog_vfs_autonaming.CycleLogfile env
             { s with tocanlog_vfs := s.tocanlog_vfs.OutputMsg env msg }
           else { s with tocanlog_vfs := s.tocanlog_vfs.OutputMsg env msg })) ∧
    ((s.m_logfile_max_duration_s ≠ 0 ∧
        (s.m_logfile_max_duration_s : Int) * 1000000
          ≤ env.esp_timer_get_time - s.m_logfile_start_time) →
      s.m_logfile_max_size_kb = 0 →
      (s.m_keep_empty_files = true ∨ (s.GetFileSize ≠ 0 ∧ s.m_msgcount ≠ 0)) →
      (s.OutputMsg env msg).state.m_file_nb_splits = (s.m_file_nb_splits + 1) % UINT64_MOD ∧
      (s.OutputMsg env msg).state.m_path = compute_log_file_name env
        { s with m_file_nb_splits := (s.m_file_nb_splits + 1) % UINT64_MOD } ∧
      (s.OutputMsg env msg).state.m_connmap
        = ((s.CycleLogfile env).tocanlog_vfs.OutputMsg env msg).m_connmap) ∧
    (¬ (s.m_logfile_max_duration_s ≠ 0 ∧
        (s.m_logfile_max_duration_s : Int) * 1000000
          ≤ env.esp_timer_get_time - s.m_logfile_start_time) →
      s.m_logfile_max_size_kb = 0 →
      (s.OutputMsg env msg).state.m_file_nb_splits = s.m_file_nb_splits ∧
      (s.OutputMsg env msg).state.m_path = s.m_path ∧
      (s.OutputMsg env msg).state.m_connmap = (s.tocanlog_vfs.OutputMsg env msg).m_connmap) ∧
    (s.Open env).2.m_logfile_start_time = env.esp_timer_get_time := by
  have hcfg := canlog_vfs_autonaming.CycleLogfile_config env s
  have hyes : (s.m_logfile_max_duration_s ≠ 0 ∧
        (s.m_logfile_max_duration_s : Int) * 1000000
          ≤ env.esp_timer_get_time - s.m_logfile_start_time) →
      (s.OutputMsg env msg).cycled_before = true ∧
      (s.OutputMsg env msg).state
        = (if (s.CycleLogfile env).m_logfile_max_size_kb ≠ 0 ∧
              ((s.CycleLogfile env).m_logfile_max_size_kb * 1024) % SIZE_MOD ≤ s.GetFileSize
           then canlog_vfs_autonaming.CycleLogfile env
             { s.CycleLogfile env with
               tocanlog_vfs := (s.CycleLogfile env).tocanlog_vfs.OutputMsg env msg }
           else
             { s.CycleLogfile env with
               tocanlog_vfs := (s.CycleLogfile env).tocanlog_vfs.OutputMsg env msg }) := by
    rintro ⟨h0, h1⟩
    have ht := (whole_seconds_le _ _ h0).2 h1
    refine ⟨by simp [canlog_vfs_autonaming.OutputMsg, h0, ht], ?_⟩
    by_cases hs : (s.CycleLogfile env).m_logfile_max_size_kb ≠ 0 ∧
        ((s.CycleLogfile env).m_logfile_max_size_kb * 1024) % SIZE_MOD ≤ s.GetFileSize
    · rw [if_pos hs]
      simp [canlog_vfs_autonaming.OutputMsg, h0, ht, hs.1, hs.2]
    · rw [if_neg hs]
      have hs2 : (s.CycleLogfile env).m_logfile_max_size_kb ≠ 0 →
          ¬ ((s.CycleLogfile env).m_logfile_max_size_kb * 1024) % SIZE_MOD ≤ s.GetFileSize :=
        fun a b => hs ⟨a, b⟩
      simp only [canlog_vfs_autonaming.OutputMsg]
      simp [h0, ht]
      intro a b
      exact absurd b (hs2 a)
  have hno : ¬ (s.m_logfile_max_duration_s ≠ 0 ∧
        (s.m_logfile_max_duration_s : Int) * 1000000
          ≤ env.esp_timer_get_time - s.m_logfile_start_time) →
      (s.OutputMsg env msg).cycled_before = false ∧
      (s.OutputMsg env msg).state
        = (if s.m_logfile_max_size_kb ≠ 0 ∧
              (s.m_logfile_max_size_kb * 1024) % SIZE_MOD ≤ s.GetFileSize
           then canlog_vfs_autonaming.CycleLogfile env
             { s with tocanlog_vfs := s.tocanlog_vfs.OutputMsg env msg }
           else { s with tocanlog_vfs := s.tocanlog_vfs.OutputMsg env msg }) := by
    intro hn
    have hb : (decide (s.m_logfile_max_duration_s ≠ 0 ∧
        (s.m_logfile_max_duration_s : Int)
          ≤ Int.tdiv (env.esp_timer_get_time - s.m_logfile_start_time) 1000000)) = false := by
      rw [decide_eq_false_iff_not]
      rintro ⟨h0, h1⟩
      exact hn ⟨h0, (whole_seconds_le _ _ h0).1 h1⟩
    unfold canlog_vfs_autonaming.OutputMsg
    simp only [hb, Bool.false_eq_true, if_false]
    refine ⟨trivial, ?_⟩
    by_cases hs : s.m_logfile_max_size_kb ≠ 0 ∧
        (s.m_logfile_max_size_kb * 1024) % SIZE_MOD ≤ s.GetFileSize
    · rw [if_pos hs, if_pos (by simpa using hs)]
    · rw [if_neg hs, if_neg (by simpa using hs)]
  refine ⟨hyes, hno, ?_, ?_, ?_, rfl⟩
  · intro h0
    exact hno (fun h => h.1 h0)
  · intro hc hz hrun
    have hz1 : (s.CycleLogfile env).m_logfile_max_size_kb = 0 := by rw [hcfg.1]; exact hz
    rw [(hyes hc).2, if_neg (fun h => h.1 hz1)]
    have h := canlog_vfs_autonaming.CycleLogfile_run env s hrun
    exact ⟨h.2, h.1, rfl⟩
  · intro hc hz
    rw [(hno hc).2, if_neg (fun h => h.1 hz)]
    exact ⟨rfl, rfl, rfl⟩

/-- C7 at two concrete calls: `overdue_sink` (open since the timer value 0, duration threshold
60 s, size threshold off) gets a frame at the timer value 60000000 and the split counter goes
from 1 to 2, the frame being the only content of the file of the rotated sink (10 bytes); at
the timer value 59999999 the counter stays 1 and the frame is added to the 2000 bytes of the
file. -/
theorem C7_duration_rotation_witness :
    (overdue_sink.OutputMsg late_env sample_msg).state.m_file_nb_splits = 2 ∧
    (overdue_sink.OutputMsg late_env sample_msg).state.GetFileSize = 10 ∧
    (overdue_sink.OutputMsg { sample_env with esp_timer_get_time := 59999999 }
      sample_msg).state.m_file_nb_splits = 1 ∧
    (overdue_sink.OutputMsg { sample_env with esp_timer_get_time := 59999999 }
      sample_msg).state.GetFileSize = 2010 := by
  have h1 := (C7_duration_rotation late_env overdue_sink sample_msg).2.2.2.1
    (by decide) rfl (Or.inl rfl)
  have h2 := (C7_duration_rotation { sample_env with esp_timer_get_time := 59999999 }
    overdue_sink sample_msg).2.2.2.2.1 (by decide) rfl
  exact ⟨by rw [h1.1]; decide, by decide, by rw [h2.1]; decide, by decide⟩

/-! ## The split counter over many rotations -/

/-- With keep-empty-files on, each rotate-now event advances the split counter by one: after
`n` events the counter has grown by `n` (modulo 2^64), and keep-empty-files is still on. The
counter is never reset while the sink lives. -/
theorem rotate_now_advances_counter (env : Env) (n : Nat) :
    ∀ s : canlog_vfs_autonaming, s.m_keep_empty_files = true →
      s.m_file_nb_splits < UINT64_MOD →
      ((fun z : canlog_vfs_autonaming => z.EventHandler env "can.log.rotatefiles" none)^[n]
        s).m_file_nb_splits = (s.m_file_nb_splits + n) % UINT64_MOD ∧
      ((fun z : canlog_vfs_autonaming => z.EventHandler env "can.log.rotatefiles" none)^[n]
        s).m_keep_empty_files = true := by
  induction n with
  | zero =>
    intro s hk hlt
    exact ⟨(Nat.mod_eq_of_lt hlt).symm, hk⟩
  | succ n ih =>
    intro s hk _
    have hev : s.EventHandler env "can.log.rotatefiles" none = s.CycleLogfile env := by
      unfold canlog_vfs_autonaming.EventHandler
      rw [if_neg (by decide), if_neg (by decide), if_pos rfl]
    have hc := (canlog_vfs_autonaming.CycleLogfile_run env s (Or.inl hk)).2
    have hk2 : (s.CycleLogfile env).m_keep_empty_files = true := by
      rw [(canlog_vfs_autonaming.CycleLogfile_config env s).2.1]; exact hk
    rw [Function.iterate_succ_apply, hev]
    obtain ⟨h1, h2⟩ := ih (s.CycleLogfile env) hk2
      (by rw [hc]; exact Nat.mod_lt _ (by simp [UINT64_MOD]))
    refine ⟨?_, h2⟩
    rw [h1, hc, Nat.mod_add_mod, Nat.add_assoc, Nat.add_comm 1 n]

/-- The split counter 100000000 is within reach of the code: on the sink that the constructor
leaves in `sample_env` (counter 1, keep-empty-files on), 99999999 rotate-now events bring the
counter to 100000000. -/
theorem rotate_now_reaches_nine_digits :
    ((fun z : canlog_vfs_autonaming =>
        z.EventHandler sample_env "can.log.rotatefiles" none)^[99999999]
      closed_rotating_sink).m_file_nb_splits = 100000000 := by
  rw [(rotate_now_advances_counter sample_env 99999999 closed_rotating_sink
    (by decide) (by decide)).1]
  decide

end CanLog
